import Mathlib

/-!
# BVH reader: hierarchy and motion parsing

A shallow embedding of `BVHReader.cpp`.

* The input stream is the list of lines that are still to be read: `getline` takes the
  head, `peek() != EOF` is "the list is not empty", `tellg` is the list itself and `seekg`
  puts a remembered list back.  A file that cannot be opened is `none`.
* `std::unique_ptr<Segment>` is `Option (Segment D)`; `none` is the null pointer.
* `double` is an arbitrary type `D` and `std::stod` a function `String → Option D`
  (`none`: the call throws).  `std::stoi` is written out.
* `int` is kept in `Int`, additions wrapping around at 32 bits (`wrapInt`).
* A run of the reader either finishes, or performs an operation whose behaviour the
  language leaves undefined (indexing a vector past its end, going through a null
  pointer), or is cut short by the iteration budget of the model.
-/

namespace BVH

/-! ## Characters, `trim`, `split`, `splitDouble` -/

/-- The classification `std::isspace` of the "C" locale: space, tab, line feed,
vertical tab, form feed and carriage return. -/
def isspace (c : Char) : Bool :=
  c = ' ' || c = '\t' || c = '\n' || c = Char.ofNat 11 || c = Char.ofNat 12 || c = '\r'

/-- The call `std::replace(s.begin(), s.end(), old, new)`. -/
def replaceChar (old new : Char) (s : List Char) : List Char :=
  s.map (fun c => if c = old then new else c)

/-- The body of `trim`, on the characters of the string: carriage returns and tabs become
spaces, then the leading and the trailing `isspace` characters are erased. -/
def trimChars (s : List Char) : List Char :=
  let s1 := replaceChar '\r' ' ' s
  let s2 := replaceChar '\t' ' ' s1
  let s3 := s2.dropWhile isspace
  (s3.reverse.dropWhile isspace).reverse

/-- The function `trim`. -/
def trim (s : String) : String := ⟨trimChars s.data⟩

/-- The function `getlineAndTrim` on the string `s` it is given.  `getline` puts the next
line into `s`.  At the end of input `getline` fails: it has erased `s` when the stream was
still good, and it leaves `s` as it was when the end-of-file flag of the stream was set
already (`eofbit`), which is so when the last line that was read had no line end.  Then
`s` is trimmed. -/
def getlineAndTrim (eofbit : Bool) (s : String) : List String → String × List String
  | [] => (trim (if eofbit then s else ""), [])
  | l :: rest => (trim l, rest)

/-- The loop of `split` on the characters still in the string stream; `buffer` is what
`getline(stream, buffer, delimiter)` has gathered of the current piece.  A piece of
length 0 is skipped. -/
def splitChars (delimiter : Char) : List Char → List Char → List (List Char)
  | [], buffer => if buffer.length = 0 then [] else [buffer]
  | c :: cs, buffer =>
    if c = delimiter then
      if buffer.length = 0 then splitChars delimiter cs []
      else buffer :: splitChars delimiter cs []
    else splitChars delimiter cs (buffer ++ [c])

/-- The function `split`. -/
def split (str : String) (delimiter : Char) : List String :=
  (splitChars delimiter str.data []).map String.mk

/-- The loop of `splitDouble`: as `splitChars`, each kept piece being read by `stod`;
`none` when a call of `stod` throws. -/
def splitDoubleChars {D : Type} (stod : String → Option D) (delimiter : Char) :
    List Char → List Char → Option (List D)
  | [], buffer =>
    if buffer.length = 0 then some []
    else
      match stod ⟨buffer⟩ with
      | none => none
      | some v => some [v]
  | c :: cs, buffer =>
    if c = delimiter then
      if buffer.length = 0 then splitDoubleChars stod delimiter cs []
      else
        match stod ⟨buffer⟩ with
        | none => none
        | some v =>
          match splitDoubleChars stod delimiter cs [] with
          | none => none
          | some vs => some (v :: vs)
    else splitDoubleChars stod delimiter cs (buffer ++ [c])

/-- The function `splitDouble`. -/
def splitDouble {D : Type} (stod : String → Option D) (str : String) (delimiter : Char) :
    Option (List D) :=
  splitDoubleChars stod delimiter str.data []

/-! ## `std::stoi` -/

/-- Largest value of an `int`. -/
def INT_MAX : Int := 2147483647

/-- Smallest value of an `int`. -/
def INT_MIN : Int := -2147483648

/-- The `int` a sum of two `int`s is stored as.  `int` has 32 bits; a sum that leaves the
range wraps around in two's complement, as it does on the usual targets (the language
itself leaves the overflow of an `int` undefined). -/
def wrapInt (x : Int) : Int := (x + 2147483648) % 4294967296 - 2147483648

/-- Value of a run of decimal digits. -/
def digitsValue (ds : List Char) : Nat :=
  ds.foldl (fun acc c => 10 * acc + (c.toNat - 48)) 0

/-- What `std::stoi` reads of `s` after the leading `isspace` characters: whether a minus
sign was read, and the characters after the optional sign. -/
def stoiBody (s : String) : Bool × List Char :=
  match s.data.dropWhile isspace with
  | [] => (false, [])
  | c :: r => if c = '-' then (true, r) else if c = '+' then (false, r) else (false, c :: r)

/-- The digits `std::stoi` reads: the longest run of digits after the optional sign; what
follows them is ignored. -/
def stoiDigits (s : String) : List Char := (stoiBody s).2.takeWhile Char.isDigit

/-- The number `std::stoi` reads, before the range check. -/
def stoiValue (s : String) : Int :=
  if (stoiBody s).1 then -(digitsValue (stoiDigits s) : Int) else (digitsValue (stoiDigits s) : Int)

/-- The call `std::stoi(s)` (base 10).  `none` when the call throws:
`std::invalid_argument` when there is no digit to read, `std::out_of_range` when the
number is not an `int`. -/
def stoi (s : String) : Option Int :=
  if (stoiDigits s).length = 0 then none
  else if stoiValue s < INT_MIN ∨ INT_MAX < stoiValue s then none
  else some (stoiValue s)

/-! ## Segments -/

/-- The six channel kinds `Segment::Xposition` .. `Segment::Zrotation`. -/
inductive Channel where
  | Xposition
  | Yposition
  | Zposition
  | Xrotation
  | Yrotation
  | Zrotation
  deriving DecidableEq, Repr

/-- The chain of comparisons of the `CHANNELS` branch: the channel kind a word names,
`none` for a word that is none of the six names. -/
def channelOfName (word : String) : Option Channel :=
  if word = "Xposition" then some Channel.Xposition
  else if word = "Yposition" then some Channel.Yposition
  else if word = "Zposition" then some Channel.Zposition
  else if word = "Xrotation" then some Channel.Xrotation
  else if word = "Yrotation" then some Channel.Yrotation
  else if word = "Zrotation" then some Channel.Zrotation
  else none

/-- Modelled from the spec: the class `Segment`, whose declaration is not among the
sources.  A node has a name, an offset, an ordered channel sequence and an ordered
sequence of children it owns; the colour is what `setColor` was given.  `color` and
`offset` are `none` until the reader sets them. -/
structure Segment (D : Type) where
  name : String
  color : Option (Int × Int × Int)
  offset : Option (D × D × D)
  channels : List Channel
  children : List (Segment D)

/-- Modelled from the spec: the name the class `Segment`, which is not among the sources,
gives a Segment built from the string `text`.  The reader hands the constructor the whole
trimmed node line (`Segment(buffer)`), or the literal `End Site`.  By the specification
the Segment started by a line `ROOT <name>` or `JOINT <name>` is named `<name>`, the token
that follows the keyword, and the Segment started by an End Site line has the sentinel
name "End Site"; any other string is the name as it stands. -/
def Segment.nameOf (text : String) : String :=
  match split text ' ' with
  | keyword :: name :: _ => if keyword = "ROOT" ∨ keyword = "JOINT" then name else text
  | _ => text

/-- Modelled from the spec: the constructor `Segment(text)`, a node named as the
specification names it (`Segment.nameOf`), with no channel and no child. -/
def Segment.ofName {D : Type} (text : String) : Segment D :=
  { name := Segment.nameOf text, color := none, offset := none, channels := [],
    children := [] }

/-- Modelled from the spec: `setColor`. -/
def Segment.setColor {D : Type} (s : Segment D) (c : Int × Int × Int) : Segment D :=
  { s with color := some c }

/-- Modelled from the spec: `setOffset`, "set current's offset". -/
def Segment.setOffset {D : Type} (s : Segment D) (o : D × D × D) : Segment D :=
  { s with offset := some o }

/-- Modelled from the spec: `addChannel`, the channel goes to the end of the sequence. -/
def Segment.addChannel {D : Type} (s : Segment D) (c : Channel) : Segment D :=
  { s with channels := s.channels ++ [c] }

/-- Modelled from the spec: `addSub`, the node becomes the last child. -/
def Segment.addSub {D : Type} (s : Segment D) (child : Segment D) : Segment D :=
  { s with children := s.children ++ [child] }

/-! ## The reader -/

/-- The fields of a `BVHReader` that the code reads or writes, and the text it sends to
`std::cout`. -/
structure BVHReader (D : Type) where
  isLoaded : Bool
  root : List (Option (Segment D))
  channels : Int
  motion : List (List D)
  frames : Int
  frameTime : D
  cout : List String

/-- The constructor: `isLoaded` is false and `root` empty; `motion` is a vector, empty when
default-constructed.  The constructor gives `channels`, `frames` and `frameTime` no
value, and the class declaration is not among the sources: whatever they hold at first is
a parameter. -/
def BVHReader.init {D : Type} (channels frames : Int) (frameTime : D) : BVHReader D :=
  { isLoaded := false, root := [], channels := channels, motion := [], frames := frames,
    frameTime := frameTime, cout := [] }

/-- The accessor `getChannels`. -/
def BVHReader.getChannels {D : Type} (r : BVHReader D) : Int := r.channels

/-- The accessor `getMotion`. -/
def BVHReader.getMotion {D : Type} (r : BVHReader D) : List (List D) := r.motion

/-- The accessor `frameSize`. -/
def BVHReader.frameSize {D : Type} (r : BVHReader D) : Int := r.frames

/-- The accessor `loaded`. -/
def BVHReader.loaded {D : Type} (r : BVHReader D) : Bool := r.isLoaded

/-- How a run can fail to finish. -/
inductive Fault where
  | undefinedBehaviour
  | outOfFuel
  deriving DecidableEq, Repr

/-! ## `loadHierarchy` -/

/-- The local variables of `loadHierarchy` together with the reader: the stack (top
first; only non-null pointers are ever pushed), `curr`, `oldpos` and `newSeg`. -/
structure HState (D : Type) where
  reader : BVHReader D
  stack : List (Segment D)
  curr : Option (Segment D)
  oldpos : List String
  newSeg : Bool

/-- What the `for` loop of the `CHANNELS` branch ends in. -/
inductive ChannelsResult (D : Type) where
  | done (curr : Option (Segment D))
  | failed
  | undefined

/-- The `for` loop of the `CHANNELS` branch with `remaining` iterations to go, at index
`i`: `words[i+2]` past the end of `words` is undefined, an unknown name returns false,
and `curr->addChannel` through a null `curr` is undefined. -/
def channelsLoop {D : Type} (words : List String) :
    Nat → Nat → Option (Segment D) → ChannelsResult D
  | 0, _, curr => ChannelsResult.done curr
  | remaining + 1, i, curr =>
    match words[i + 2]? with
    | none => ChannelsResult.undefined
    | some word =>
      match channelOfName word with
      | none => ChannelsResult.failed
      | some ch =>
        match curr with
        | none => ChannelsResult.undefined
        | some s => channelsLoop words remaining (i + 1) (some (s.addChannel ch))

/-- What one pass through the body of the `while` loop of `loadHierarchy` ends in: the
loop goes on, or the function returns (its result, the reader and the position of the
stream), or the behaviour is undefined. -/
inductive Step (D : Type) where
  | next (st : HState D)
  | ret (result : Bool) (reader : BVHReader D) (stream : List String)
  | undefined

/-- The body of the `while` loop of `loadHierarchy` on the line `line`, `rest` being the
lines after it.

* `words[0]` of an empty `words` is undefined.
* `OFFSET`: the three arguments `stod(words[1])`, `stod(words[2])`, `stod(words[3])` are
  evaluated in an unspecified order, so the three words have to exist; an exception of
  `stod` is caught and returns false; `curr->setOffset` needs `curr`.
* `CHANNELS`: an exception of `stoi` returns false; `this->channels += channels` is an
  `int` addition (`wrapInt`).
* a closing brace with an empty stack moves `curr`, null or not, into `root`; with a
  Segment on the stack, `curr` goes to `addSub` of that Segment.  What `addSub` makes of a
  null pointer is not in the sources; the case is left undefined here and does not
  arise, as `curr` is not null while the stack holds a Segment
  (`hierarchyStep_curr_of_stack`). -/
def hierarchyStep {D : Type} (stod : String → Option D) (st : HState D) (line : String)
    (rest : List String) : Step D :=
  let buffer := trim line
  let words := split buffer ' '
  match words[0]? with
  | none => Step.undefined
  | some w0 =>
    if w0 = "ROOT" then
      if st.stack.length > 0 then Step.ret false st.reader rest
      else
        Step.next { st with curr := some ((Segment.ofName buffer).setColor (1, 1, 0)),
                            newSeg := true }
    else if w0 = "JOINT" then
      match st.curr with
      | none => Step.ret false st.reader rest
      | some c =>
        Step.next { st with stack := c :: st.stack, curr := some (Segment.ofName buffer),
                            newSeg := true }
    else if w0 = "End" then
      match st.curr with
      | none => Step.ret false st.reader rest
      | some c =>
        Step.next { st with stack := c :: st.stack, curr := some (Segment.ofName "End Site"),
                            newSeg := true }
    else if w0 = "\x7b" then
      if st.newSeg then Step.next { st with newSeg := false }
      else Step.ret false st.reader rest
    else if w0 = "OFFSET" then
      match words[1]?, words[2]?, words[3]? with
      | some a, some b, some c =>
        match stod a, stod b, stod c with
        | some x, some y, some z =>
          match st.curr with
          | none => Step.undefined
          | some s => Step.next { st with curr := some (s.setOffset (x, y, z)) }
        | _, _, _ => Step.ret false st.reader rest
      | _, _, _ => Step.undefined
    else if w0 = "CHANNELS" then
      match words[1]? with
      | none => Step.undefined
      | some w1 =>
        match stoi w1 with
        | none => Step.ret false st.reader rest
        | some channels =>
          match channelsLoop words channels.toNat 0 st.curr with
          | ChannelsResult.undefined => Step.undefined
          | ChannelsResult.failed => Step.ret false st.reader rest
          | ChannelsResult.done curr =>
            Step.next { st with curr := curr,
                                reader := { st.reader with
                                  channels := wrapInt (st.reader.channels + channels) } }
    else if w0 = "\x7d" then
      match st.stack with
      | prev :: stack =>
        match st.curr with
        | none => Step.undefined
        | some c => Step.next { st with stack := stack, curr := some (prev.addSub c) }
      | [] =>
        Step.next { st with curr := none,
                            reader := { st.reader with root := st.reader.root ++ [st.curr] },
                            oldpos := rest }
    else if w0 = "MOTION" then Step.ret true st.reader st.oldpos
    else Step.next st

/-- The `while` loop of `loadHierarchy`, one line per iteration: its result, the reader and
the position the stream is left at. -/
def hierarchyLoop {D : Type} (stod : String → Option D) :
    List String → HState D → Except Fault (Bool × BVHReader D × List String)
  | [], st => Except.ok (true, st.reader, [])
  | line :: rest, st =>
    match hierarchyStep stod st line rest with
    | Step.next st1 => hierarchyLoop stod rest st1
    | Step.ret b r s => Except.ok (b, r, s)
    | Step.undefined => Except.error Fault.undefinedBehaviour

/-- The function `loadHierarchy`, entered with the stream at `stream`. -/
def loadHierarchy {D : Type} (stod : String → Option D) (r : BVHReader D)
    (stream : List String) : Except Fault (Bool × BVHReader D × List String) :=
  hierarchyLoop stod stream
    { reader := { r with channels := 0 }, stack := [], curr := none, oldpos := stream,
      newSeg := false }

/-! ## `loadMotion` -/

/-- The `while` loop of `loadMotion`.  The comparison `vals.size() != this->channels` is
made after converting the `int` to an unsigned size; a negative count then equals no
size a row can have, as it does here. -/
def motionRows {D : Type} (stod : String → Option D) :
    List String → BVHReader D → Bool × BVHReader D × List String
  | [], r => (true, r, [])
  | line :: rest, r =>
    match splitDouble stod (trim line) ' ' with
    | none => (false, r, rest)
    | some vals =>
      if (vals.length : Int) ≠ r.channels then (false, r, rest)
      else motionRows stod rest { r with motion := r.motion ++ [vals] }

/-- The function `loadMotion`, entered with the stream at `stream`.  `lineEnd` tells whether
the file ends with a line end.  The two header lines are read without a look at the end
of input.  `buffer` is empty when the first header is read.  When the second header is
read at the end of input, `buffer` still holds the first header if the file has no line
end after it (reading that line has set the end-of-file flag), and is erased otherwise. -/
def loadMotion {D : Type} (stod : String → Option D) (lineEnd : Bool) (r : BVHReader D)
    (stream : List String) : Bool × BVHReader D × List String :=
  let first := getlineAndTrim (!lineEnd) "" stream
  let words := split first.1 ' '
  if words.length < 2 then (false, r, first.2)
  else
    match words[1]? with
    | none => (false, r, first.2)
    | some w1 =>
      match stoi w1 with
      | none => (false, r, first.2)
      | some frames =>
        let r1 := { r with frames := frames }
        let second := getlineAndTrim (!lineEnd) first.1 first.2
        let words2 := split second.1 ' '
        if words2.length < 3 then (false, r1, second.2)
        else
          match words2[2]? with
          | none => (false, r1, second.2)
          | some w2 =>
            match stod w2 with
            | none => (false, r1, second.2)
            | some frameTime => motionRows stod second.2 { r1 with frameTime := frameTime }

/-! ## `loadFile` -/

/-- The line `loadFile` prints when `loadMotion` returns false. -/
def motionFailureMessage : String := "Failed to load motion from .bvh file"

/-- The `while` loop of `loadFile`.  An iteration reads one line; the result of
`loadHierarchy` is not looked at.  `fuel` bounds the number of iterations; `lineEnd` tells
whether the file ends with a line end. -/
def loadFileLoop {D : Type} (stod : String → Option D) (lineEnd : Bool) :
    Nat → List String → BVHReader D → Except Fault (BVHReader D)
  | _, [], r => Except.ok r
  | 0, _ :: _, _ => Except.error Fault.outOfFuel
  | fuel + 1, line :: rest, r =>
    let buffer := trim line
    let afterHierarchy : Except Fault (BVHReader D × List String) :=
      if buffer = "HIERARCHY" then
        match loadHierarchy stod r rest with
        | Except.ok res => Except.ok (res.2.1, res.2.2)
        | Except.error e => Except.error e
      else Except.ok (r, rest)
    match afterHierarchy with
    | Except.error e => Except.error e
    | Except.ok (r1, s1) =>
      if buffer = "MOTION" then
        match loadMotion stod lineEnd r1 s1 with
        | (true, r2, s2) => loadFileLoop stod lineEnd fuel s2 r2
        | (false, r2, s2) =>
          loadFileLoop stod lineEnd fuel s2 { r2 with cout := r2.cout ++ [motionFailureMessage] }
      else loadFileLoop stod lineEnd fuel s1 r1

/-- The function `loadFile` on the content of the file, `none` when it cannot be opened:
the value returned and the reader afterwards.  The content is the lines of the file and
`lineEnd`, whether the file ends with a line end (the last line of the list is a whole
line then, and a line cut short by the end of the file otherwise).  Every iteration of the
loop takes at least one line off the stream, so one iteration per line of the file is
enough (`loadFile_fuel`). -/
def loadFile {D : Type} (stod : String → Option D) (lineEnd : Bool)
    (file : Option (List String)) (r : BVHReader D) : Except Fault (Bool × BVHReader D) :=
  match file with
  | none => Except.ok (false, r)
  | some lines =>
    match loadFileLoop stod lineEnd lines.length lines r with
    | Except.error e => Except.error e
    | Except.ok r1 =>
      if r1.root.length = 0 then Except.ok (false, r1)
      else Except.ok (true, { r1 with isLoaded := true })

/-! ## A numeric reader for the worked examples -/

/-- Reads the characters of a plain decimal literal: the digits read so far as a number
and how many of them came after the point. -/
def readDecimal : List Char → Bool → Nat → Nat → Option (Nat × Nat)
  | [], _, m, e => some (m, e)
  | c :: cs, seen, m, e =>
    if c.isDigit then readDecimal cs seen (10 * m + (c.toNat - 48)) (if seen then e + 1 else e)
    else if c = '.' ∧ seen = false then readDecimal cs true m e
    else none

/-- A stand-in for `std::stod` in the worked examples: a plain decimal literal `ddd.ddd`
is read as the pair (digits as a number, count of digits after the point), anything
else is refused. -/
def decimalStod (s : String) : Option (Nat × Nat) :=
  if s.data.length = 0 then none else readDecimal s.data false 0 0

/-- The input of Scenario 1. -/
def scenario1 : List String :=
  ["HIERARCHY", "ROOT Hips", "\x7b", "OFFSET 0 0 0", "CHANNELS 3 Xposition Yposition Zposition",
   "\x7d", "MOTION", "Frames: 1", "Frame Time: 0.0333", "1.0 2.0 3.0"]


/-! ## Declared forests and their text -/

/-- The first token of a raw line, as the hierarchy loop sees it. -/
def firstWord (line : String) : Option String := (split (trim line) ' ')[0]?

/-- A declared node: the raw lines of its block (the node line, the opening brace, the
`OFFSET` line, the `CHANNELS` line when there is one, the closing brace), the offset and
the channel sequence those lines declare, and the declared children in order. -/
inductive Decl (D : Type) where
  | node (head openLine offsetLine : String) (channelsLine : Option String)
      (closeLine : String) (offset : D × D × D) (channels : List Channel)
      (children : List (Decl D))

/-- Whether the line reads as a `CHANNELS n c1 .. cn` line declaring the channel sequence
`channels`: `n` is the number of names and each name is the name of its channel. -/
def declaresChannels (line : String) (channels : List Channel) : Prop :=
  ∃ (count : String) (names : List String),
    split (trim line) ' ' = "CHANNELS" :: count :: names ∧
    stoi count = some (names.length : Int) ∧
    List.Forall₂ (fun w c => channelOfName w = some c) names channels

/-- Whether the line reads as an `OFFSET x y z` line declaring the offset `offset`. -/
def declaresOffset {D : Type} (stod : String → Option D) (line : String)
    (offset : D × D × D) : Prop :=
  ∃ (a b c : String) (more : List String),
    split (trim line) ' ' = "OFFSET" :: a :: b :: c :: more ∧
    stod a = some offset.1 ∧ stod b = some offset.2.1 ∧ stod c = some offset.2.2

mutual
/-- The text of a declared node: its node line, the opening brace, its `OFFSET` and
`CHANNELS` lines, the blocks of its children in order, the closing brace. -/
def Decl.text {D : Type} : Decl D → List String
  | Decl.node head openLine offsetLine channelsLine closeLine _ _ children =>
    head :: openLine :: offsetLine ::
      (channelsLine.toList ++ (Decl.textList children ++ [closeLine]))
/-- The text of a sequence of declared nodes, block after block. -/
def Decl.textList {D : Type} : List (Decl D) → List String
  | [] => []
  | d :: ds => Decl.text d ++ Decl.textList ds
end

mutual
/-- The Segment a declared node stands for: named as the constructor names the Segment of
its trimmed node line (an End Site by the sentinel), coloured when it is a root, with the
declared offset, the declared channel sequence and the Segments of its children in
declaration order. -/
def Decl.segment {D : Type} (isRoot : Bool) : Decl D → Segment D
  | Decl.node head _ _ _ _ offset channels children =>
    { name := Segment.nameOf (if firstWord head = some "End" then "End Site" else trim head),
      color := if isRoot then some (1, 1, 0) else none,
      offset := some offset,
      channels := channels,
      children := Decl.segments children }
/-- The Segments of a sequence of declared children. -/
def Decl.segments {D : Type} : List (Decl D) → List (Segment D)
  | [] => []
  | d :: ds => Decl.segment false d :: Decl.segments ds
end

mutual
/-- Number of channels a declared node and its descendants declare. -/
def Decl.channelCount {D : Type} : Decl D → Nat
  | Decl.node _ _ _ _ _ _ channels children =>
    channels.length + Decl.channelCountList children
/-- Number of channels a sequence of declared nodes declares. -/
def Decl.channelCountList {D : Type} : List (Decl D) → Nat
  | [] => 0
  | d :: ds => Decl.channelCount d + Decl.channelCountList ds
end

mutual
/-- The lines of a declared node are what they are said to be.  A root is written with a
`ROOT` line, any other node with a `JOINT` line or, when it has no child, an `End` line;
the braces are brace lines; the `OFFSET` and `CHANNELS` lines declare the offset and the
channel sequence (no `CHANNELS` line: no channel); and so on for the children. -/
def Decl.WellFormed {D : Type} (stod : String → Option D) (isRoot : Bool) : Decl D → Prop
  | Decl.node head openLine offsetLine channelsLine closeLine offset channels children =>
    (if isRoot then firstWord head = some "ROOT"
      else firstWord head = some "JOINT" ∨ (firstWord head = some "End" ∧ children = [])) ∧
    firstWord openLine = some "\x7b" ∧
    declaresOffset stod offsetLine offset ∧
    (match channelsLine with
      | none => channels = []
      | some line => declaresChannels line channels) ∧
    firstWord closeLine = some "\x7d" ∧
    Decl.WellFormedList stod children
/-- Every declared child is well formed. -/
def Decl.WellFormedList {D : Type} (stod : String → Option D) : List (Decl D) → Prop
  | [] => True
  | d :: ds => Decl.WellFormed stod false d ∧ Decl.WellFormedList stod ds
end

mutual
/-- The nodes of a tree in pre-order: the node, then its subtrees from first to last. -/
def Segment.preorder {D : Type} : Segment D → List (Segment D)
  | Segment.mk name color offset channels children =>
    Segment.mk name color offset channels children :: Segment.preorderList children
/-- Pre-order traversal of a sequence of trees. -/
def Segment.preorderList {D : Type} : List (Segment D) → List (Segment D)
  | [] => []
  | s :: ss => Segment.preorder s ++ Segment.preorderList ss
end

/-- Sum of the channel-list lengths over a pre-order traversal of the forest; a null
entry of the forest has no node. -/
def forestChannelTotal {D : Type} (forest : List (Option (Segment D))) : Nat :=
  ((Segment.preorderList (forest.filterMap id)).map (fun s => s.channels.length)).sum


/-! ## Reading the motion block -/

/-- The motion loop takes the line as the row `vals`: every token is read by `stod` and
the number of values is the channel count. -/
def acceptsRow {D : Type} (stod : String → Option D) (channels : Int) (line : String)
    (vals : List D) : Prop :=
  splitDouble stod (trim line) ' ' = some vals ∧ (vals.length : Int) = channels

/-- The motion loop fails on the line: a token is not read by `stod`, or the number of
values is not the channel count. -/
def rejectsRow {D : Type} (stod : String → Option D) (channels : Int) (line : String) :
    Prop :=
  splitDouble stod (trim line) ' ' = none ∨
    ∃ vals, splitDouble stod (trim line) ' ' = some vals ∧ (vals.length : Int) ≠ channels

/-- The line has a second token and `stoi` reads it as `frames`. -/
def framesHeader (line : String) (frames : Int) : Prop :=
  ∃ w, (split (trim line) ' ')[1]? = some w ∧ stoi w = some frames

/-- The line has a third token and `stod` reads it as `frameTime`. -/
def frameTimeHeader {D : Type} (stod : String → Option D) (line : String) (frameTime : D) :
    Prop :=
  ∃ w, (split (trim line) ' ')[2]? = some w ∧ stod w = some frameTime

/-- The line is one the loop of `loadFile` dispatches on. -/
def isMarker (line : String) : Prop := trim line = "HIERARCHY" ∨ trim line = "MOTION"

instance (line : String) : Decidable (isMarker line) := by
  unfold isMarker
  exact inferInstance

/-- What one pass of the hierarchy loop leaves of the state `st` when the lines after the
current one are `rest`: the motion table is as it was, and the position remembered (or
handed back on return) is the one remembered before or `rest`. -/
def Step.Keeps {D : Type} (st : HState D) (rest : List String) : Step D → Prop
  | Step.next st1 =>
    st1.reader.motion = st.reader.motion ∧ (st1.oldpos = st.oldpos ∨ st1.oldpos = rest)
  | Step.ret _ r s => r.motion = st.reader.motion ∧ (s = rest ∨ s = st.oldpos)
  | Step.undefined => True

/-- No line that reads HIERARCHY comes after a line that reads MOTION. -/
def noHierarchyAfterMotion : List String → Prop
  | [] => True
  | l :: rest =>
    (trim l = "MOTION" → ∀ x ∈ rest, trim x ≠ "HIERARCHY") ∧ noHierarchyAfterMotion rest

/-- Whether no HIERARCHY line comes after a MOTION line can be computed. -/
def decideNoHierarchyAfterMotion :
    (s : List String) → Decidable (noHierarchyAfterMotion s)
  | [] => isTrue trivial
  | l :: rest =>
    match decideNoHierarchyAfterMotion rest with
    | isTrue h =>
      if hm : trim l = "MOTION" → ∀ x ∈ rest, trim x ≠ "HIERARCHY" then isTrue ⟨hm, h⟩
      else isFalse (fun hc => hm hc.1)
    | isFalse h => isFalse (fun hc => h hc.2)

instance (s : List String) : Decidable (noHierarchyAfterMotion s) :=
  decideNoHierarchyAfterMotion s


/-! ## Inputs of the worked examples -/

/-- A fresh reader of the worked examples: the fields the constructor leaves without a
value hold 0. -/
def freshReader : BVHReader (Nat × Nat) := BVHReader.init 0 0 (0, 0)

/-- Scenario 2: a `CHANNELS` line that names the unknown channel Foo. -/
def scenario2 : List String :=
  ["HIERARCHY", "ROOT Hips", "\x7b", "OFFSET 0 0 0",
   "CHANNELS 4 Xposition Yposition Zposition Foo", "\x7d"]

/-- A hierarchy whose second root block names an unknown channel, as the `CHANNELS` line
of Scenario 2 does, after a first root block was completed. -/
def unknownChannelAfterRoot : List String :=
  ["HIERARCHY", "ROOT Hips", "\x7b", "OFFSET 0 0 0", "\x7d", "ROOT Spare", "\x7b",
   "CHANNELS 4 Xposition Yposition Zposition Foo", "\x7d"]

/-- An input whose only hierarchy line is a closing brace. -/
def strayBrace : List String := ["HIERARCHY", "\x7d"]

/-- The motion block of Scenario 1 with a header that declares two frames. -/
def twoFramesDeclared : List String := ["Frames: 2", "Frame Time: 0.0333", "1.0 2.0 3.0"]

/-- Scenario 1 with a header that declares two frames, one row following. -/
def scenario1TwoFrames : List String :=
  ["HIERARCHY", "ROOT Hips", "\x7b", "OFFSET 0 0 0", "CHANNELS 3 Xposition Yposition Zposition",
   "\x7d", "MOTION"] ++ twoFramesDeclared

/-- Two sibling roots, as in Scenario 5; the first has a joint that ends in an End Site. -/
def twoRoots : List (Decl (Nat × Nat)) :=
  [Decl.node "ROOT Hips" "\x7b" "OFFSET 0 0 0"
      (some "CHANNELS 3 Xposition Yposition Zposition") "\x7d" ((0, 0), (0, 0), (0, 0))
      [Channel.Xposition, Channel.Yposition, Channel.Zposition]
      [Decl.node "JOINT Spine" "\x7b" "OFFSET 0 1.5 0" (some "CHANNELS 1 Zrotation") "\x7d"
        ((0, 0), (15, 1), (0, 0)) [Channel.Zrotation]
        [Decl.node "End Site" "\x7b" "OFFSET 0 2 0" none "\x7d" ((0, 0), (2, 0), (0, 0)) [] []]],
   Decl.node "ROOT Prop" "\x7b" "OFFSET 1 0 0" (some "CHANNELS 1 Yrotation") "\x7d"
      ((1, 0), (0, 0), (0, 0)) [Channel.Yrotation] []]

/-- A motion block that fails on its second row, followed by a second HIERARCHY line. -/
def hierarchyAfterMotion : List String :=
  ["HIERARCHY", "ROOT Hips", "\x7b", "OFFSET 0 0 0", "CHANNELS 1 Xposition", "\x7d", "MOTION",
   "Frames: 2", "Frame Time: 0.0333", "1.0", "oops", "HIERARCHY"]

/-- Scenario 3 (a row of 2 values with channel count 3) followed by a second motion
block. -/
def motionAfterFailure : List String :=
  ["HIERARCHY", "ROOT Hips", "\x7b", "OFFSET 0 0 0", "CHANNELS 3 Xposition Yposition Zposition",
   "\x7d", "MOTION", "Frames: 2", "Frame Time: 0.0333", "1.0 2.0 3.0", "1.0 2.0", "MOTION",
   "Frames: 1", "Frame Time: 0.0333", "4.0 5.0 6.0"]

/-- Scenario 3: a row of 2 values with channel count 3, and a last row after it. -/
def scenario3 : List String :=
  ["HIERARCHY", "ROOT Hips", "\x7b", "OFFSET 0 0 0", "CHANNELS 3 Xposition Yposition Zposition",
   "\x7d", "MOTION", "Frames: 3", "Frame Time: 0.0333", "1.0 2.0 3.0", "1.0 2.0",
   "4.0 5.0 6.0"]

/-- An input that ends inside its second root block. -/
def unclosedSecondRoot : List String :=
  ["HIERARCHY", "ROOT Hips", "\x7b", "OFFSET 0 0 0", "CHANNELS 1 Xposition", "\x7d",
   "ROOT Spare", "\x7b", "OFFSET 0 0 0", "CHANNELS 1 Yposition"]

/-! ## The tokenizer, as the specification words it -/

/-- The characters that separate tokens: space, tab and carriage return. -/
def isBlank (c : Char) : Bool := c = ' ' || c = '\t' || c = '\r'

/-- The maximal runs of characters that are not separators, in order: a character that is
not a separator opens a run when the next character is a separator or the end, and joins
the run that starts at the next character otherwise. -/
def maximalRuns (sep : Char → Bool) : List Char → List (List Char)
  | [] => []
  | c :: cs =>
    if sep c then maximalRuns sep cs
    else
      match cs with
      | [] => [[c]]
      | d :: _ =>
        if sep d then [c] :: maximalRuns sep cs
        else
          match maximalRuns sep cs with
          | run :: runs => (c :: run) :: runs
          | [] => [[c]]

/-- The characters of a line without its leading and trailing white space (`isspace`). -/
def stripSpace (s : List Char) : List Char :=
  ((s.dropWhile isspace).reverse.dropWhile isspace).reverse

/-! ## More inputs of the worked examples -/

/-- An End Site block that holds a `CHANNELS` line. -/
def endSiteWithChannels : List String :=
  ["HIERARCHY", "ROOT Hips", "\x7b", "OFFSET 0 0 0", "End Site", "\x7b", "OFFSET 0 1 0",
   "CHANNELS 1 Xposition", "\x7d", "\x7d"]

/-- A `CHANNELS` line that declares one channel and names two. -/
def moreNamesThanCount : List String :=
  ["HIERARCHY", "ROOT Hips", "\x7b", "CHANNELS 1 Xposition Yposition", "\x7d"]

/-- An `OFFSET` line between a ROOT line and its opening brace. -/
def offsetBeforeBrace : List String :=
  ["HIERARCHY", "ROOT Hips", "OFFSET 0 0 0", "\x7b", "\x7d"]

/-- A ROOT line directly inside a ROOT block. -/
def rootInsideRoot : List String :=
  ["HIERARCHY", "ROOT Hips", "\x7b", "OFFSET 0 0 0", "ROOT Spare", "\x7b", "\x7d"]

/-- An `OFFSET` line with two fields. -/
def offsetTwoFields : List String :=
  ["HIERARCHY", "ROOT Hips", "\x7b", "OFFSET 1 2", "\x7d"]

/-- An `OFFSET` line before any ROOT line. -/
def offsetWithoutSegment : List String := ["HIERARCHY", "OFFSET 0 0 0"]

/-- An `OFFSET` line with a field that is not a number. -/
def offsetNotNumber : List String :=
  ["HIERARCHY", "ROOT Hips", "\x7b", "OFFSET 1 x 3", "\x7d"]

/-- Scenario 1 with an empty line after the HIERARCHY line. -/
def emptyLineInHierarchy : List String :=
  ["HIERARCHY", "", "ROOT Hips", "\x7b", "OFFSET 0 0 0",
   "CHANNELS 3 Xposition Yposition Zposition", "\x7d", "MOTION", "Frames: 1",
   "Frame Time: 0.0333", "1.0 2.0 3.0"]

/-- Scenario 1 with a second token on the MOTION line. -/
def motionLineWithToken : List String :=
  ["HIERARCHY", "ROOT Hips", "\x7b", "OFFSET 0 0 0",
   "CHANNELS 3 Xposition Yposition Zposition", "\x7d", "MOTION data", "Frames: 1",
   "Frame Time: 0.0333", "1.0 2.0 3.0"]

/-- An unclosed root block with a HIERARCHY line and an `OFFSET` line before MOTION. -/
def hierarchyLineBeforeMotion : List String :=
  ["HIERARCHY", "ROOT Hips", "HIERARCHY", "OFFSET 0 0 0", "MOTION", "Frames: 0",
   "Frame Time: 0.0333"]


/-- The lines of the root block of Scenario 1. -/
def scenario1Block : List String :=
  ["ROOT Hips", "\x7b", "OFFSET 0 0 0", "CHANNELS 3 Xposition Yposition Zposition", "\x7d"]

/-- The lines of Scenario 1 after its MOTION line. -/
def scenario1Motion : List String := ["Frames: 1", "Frame Time: 0.0333", "1.0 2.0 3.0"]

/-! ## Trimming twice -/

section TrimTwice

theorem dropWhile_concat_neg (p : Char → Bool) (a : Char) (ha : p a = false) (l : List Char) :
    (l ++ [a]).dropWhile p = l.dropWhile p ++ [a] := by
  induction l with
  | nil => simp [List.dropWhile, ha]
  | cons c cs ih =>
    by_cases hc : p c = true
    · rw [List.cons_append, List.dropWhile_cons_of_pos hc, List.dropWhile_cons_of_pos hc]
      exact ih
    · rw [List.cons_append, List.dropWhile_cons_of_neg hc, List.dropWhile_cons_of_neg hc]
      rfl

/-- What is left when the characters taken by `p` are erased at both ends has none of them
at its beginning. -/
theorem dropWhile_rdropWhile (p : Char → Bool) (l : List Char) :
    (((l.dropWhile p).reverse.dropWhile p).reverse).dropWhile p =
      ((l.dropWhile p).reverse.dropWhile p).reverse := by
  cases hv : l.dropWhile p with
  | nil => rfl
  | cons a v =>
    have ha : p a = false := by
      have := List.head_dropWhile_not p l (by rw [hv]; exact List.cons_ne_nil _ _)
      simpa [hv] using this
    rw [List.reverse_cons, dropWhile_concat_neg p a ha, List.reverse_append,
      List.reverse_singleton, List.singleton_append,
      List.dropWhile_cons_of_neg (by simp [ha])]

/-- What is left when the characters taken by `p` are erased at both ends has none of them
at its end. -/
theorem rdropWhile_rdropWhile (p : Char → Bool) (l : List Char) :
    (((l.reverse.dropWhile p).reverse).reverse.dropWhile p).reverse =
      (l.reverse.dropWhile p).reverse := by
  rw [List.reverse_reverse, List.dropWhile_idempotent]

theorem replaceChar_not_mem (old new : Char) (s : List Char) (h : ∀ c ∈ s, c ≠ old) :
    replaceChar old new s = s := by
  unfold replaceChar
  have hmap : ∀ c ∈ s, (fun c => if c = old then new else c) c = id c := by
    intro c hc
    simp [h c hc]
  rw [List.map_congr_left hmap]
  simp

theorem trimChars_mem (s : List Char) : ∀ c ∈ trimChars s, c ≠ '\r' ∧ c ≠ '\t' := by
  intro c hc
  have h1 : c ∈ replaceChar '\t' ' ' (replaceChar '\r' ' ' s) := by
    unfold trimChars at hc
    have h2 := List.mem_reverse.mp hc
    have h3 := (List.dropWhile_sublist _).subset h2
    have h4 := List.mem_reverse.mp h3
    exact (List.dropWhile_sublist _).subset h4
  unfold replaceChar at h1
  rw [List.map_map, List.mem_map] at h1
  obtain ⟨x, _, hx⟩ := h1
  subst hx
  simp only [Function.comp]
  by_cases hr : x = '\r'
  · subst hr
    decide
  · by_cases ht : x = '\t'
    · subst ht
      decide
    · simp [hr, ht]

/-- The function `trim` changes nothing in a string that was trimmed. -/
theorem trimChars_trimChars (s : List Char) : trimChars (trimChars s) = trimChars s := by
  have hmem := trimChars_mem s
  have h1 : replaceChar '\r' ' ' (trimChars s) = trimChars s :=
    replaceChar_not_mem _ _ _ (fun c hc => (hmem c hc).1)
  have h2 : replaceChar '\t' ' ' (trimChars s) = trimChars s :=
    replaceChar_not_mem _ _ _ (fun c hc => (hmem c hc).2)
  have h3 : (trimChars s).dropWhile isspace = trimChars s :=
    dropWhile_rdropWhile isspace _
  have h4 : (((trimChars s).reverse.dropWhile isspace).reverse) = trimChars s :=
    rdropWhile_rdropWhile isspace _
  show ((List.dropWhile isspace (replaceChar '\t' ' ' (replaceChar '\r' ' '
    (trimChars s)))).reverse.dropWhile isspace).reverse = trimChars s
  rw [h1, h2, h3, h4]

theorem trim_trim (line : String) : trim (trim line) = trim line := by
  show String.mk (trimChars (trimChars line.data)) = String.mk (trimChars line.data)
  rw [trimChars_trimChars]

end TrimTwice

/-! ## One pass of the hierarchy loop, line kind by line kind -/

section Steps

variable {D : Type} (stod : String → Option D) (lineEnd : Bool)

theorem firstWord_of_split (line w : String) (ws : List String)
    (h : split (trim line) ' ' = w :: ws) : firstWord line = some w := by
  simp [firstWord, h]

/-- The name of the Segment built from a node line: the token after the keyword. -/
theorem nameOf_node (text keyword name : String) (more : List String)
    (h : split text ' ' = keyword :: name :: more)
    (hk : keyword = "ROOT" ∨ keyword = "JOINT") : Segment.nameOf text = name := by
  unfold Segment.nameOf
  rw [h]
  simp [hk]

theorem hierarchyLoop_cons (line : String) (rest : List String) (st : HState D) :
    hierarchyLoop stod (line :: rest) st =
      match hierarchyStep stod st line rest with
      | Step.next st1 => hierarchyLoop stod rest st1
      | Step.ret b r s => Except.ok (b, r, s)
      | Step.undefined => Except.error Fault.undefinedBehaviour := by
  rw [hierarchyLoop]

theorem step_root (st : HState D) (line : String) (rest : List String)
    (h : firstWord line = some "ROOT") (hs : st.stack = []) :
    hierarchyStep stod st line rest =
      Step.next { st with curr := some ((Segment.ofName (trim line)).setColor (1, 1, 0)),
                          newSeg := true } := by
  unfold firstWord at h
  simp [hierarchyStep, h, hs]

theorem step_joint (st : HState D) (line : String) (rest : List String) (c : Segment D)
    (h : firstWord line = some "JOINT") (hc : st.curr = some c) :
    hierarchyStep stod st line rest =
      Step.next { st with stack := c :: st.stack, curr := some (Segment.ofName (trim line)),
                          newSeg := true } := by
  unfold firstWord at h
  simp [hierarchyStep, h, hc]

theorem step_end (st : HState D) (line : String) (rest : List String) (c : Segment D)
    (h : firstWord line = some "End") (hc : st.curr = some c) :
    hierarchyStep stod st line rest =
      Step.next { st with stack := c :: st.stack, curr := some (Segment.ofName "End Site"),
                          newSeg := true } := by
  unfold firstWord at h
  simp [hierarchyStep, h, hc]

theorem step_open (st : HState D) (line : String) (rest : List String)
    (h : firstWord line = some "\x7b") (hn : st.newSeg = true) :
    hierarchyStep stod st line rest = Step.next { st with newSeg := false } := by
  unfold firstWord at h
  simp [hierarchyStep, h, hn]

theorem step_offset (st : HState D) (line : String) (rest : List String) (o : D × D × D)
    (s : Segment D) (h : declaresOffset stod line o) (hs : st.curr = some s) :
    hierarchyStep stod st line rest = Step.next { st with curr := some (s.setOffset o) } := by
  obtain ⟨a, b, c, more, hw, ha, hb, hc⟩ := h
  simp [hierarchyStep, hw, ha, hb, hc, hs]

theorem step_close_child (st : HState D) (line : String) (rest : List String)
    (prev c : Segment D) (stack : List (Segment D))
    (h : firstWord line = some "\x7d") (hk : st.stack = prev :: stack)
    (hc : st.curr = some c) :
    hierarchyStep stod st line rest =
      Step.next { st with stack := stack, curr := some (prev.addSub c) } := by
  unfold firstWord at h
  simp [hierarchyStep, h, hk, hc]

theorem step_close_root (st : HState D) (line : String) (rest : List String)
    (h : firstWord line = some "\x7d") (hk : st.stack = []) :
    hierarchyStep stod st line rest =
      Step.next { st with curr := none,
                          reader := { st.reader with root := st.reader.root ++ [st.curr] },
                          oldpos := rest } := by
  unfold firstWord at h
  simp [hierarchyStep, h, hk]

theorem step_motion (st : HState D) (line : String) (rest : List String)
    (h : firstWord line = some "MOTION") :
    hierarchyStep stod st line rest = Step.ret true st.reader st.oldpos := by
  unfold firstWord at h
  simp [hierarchyStep, h]

/-- The `for` loop over recognised names appends their kinds, in order, to `curr`. -/
theorem channelsLoop_names (names : List String) :
    ∀ (kinds : List Channel) (before after : List String) (i : Nat) (s : Segment D),
      List.Forall₂ (fun w c => channelOfName w = some c) names kinds →
      before.length = i + 2 →
      channelsLoop (before ++ (names ++ after)) names.length i (some s) =
        ChannelsResult.done (some { s with channels := s.channels ++ kinds }) := by
  induction names with
  | nil =>
    intro kinds before after i s hk _
    cases hk
    cases s
    simp [channelsLoop]
  | cons w ws ih =>
    intro kinds before after i s hk hlen
    cases hk with
    | cons hw hrest =>
      rename_i c cs
      have hget : (before ++ (w :: ws ++ after))[i + 2]? = some w := by
        rw [← hlen, List.getElem?_append_right (le_refl _)]
        simp
      have hstep := ih cs (before ++ [w]) after (i + 1) (s.addChannel c) hrest
        (by simp [hlen])
      simp only [List.length_cons, channelsLoop, hget, hw]
      simp only [List.append_assoc, List.singleton_append] at hstep
      rw [List.cons_append, hstep]
      simp [Segment.addChannel]

theorem step_channels (st : HState D) (line : String) (rest : List String)
    (kinds : List Channel) (s : Segment D)
    (h : declaresChannels line kinds) (hs : st.curr = some s) :
    hierarchyStep stod st line rest =
      Step.next { st with
        curr := some { s with channels := s.channels ++ kinds },
        reader := { st.reader with
          channels := wrapInt (st.reader.channels + (kinds.length : Int)) } } := by
  obtain ⟨count, names, hw, hn, hk⟩ := h
  have hlen : names.length = kinds.length := hk.length_eq
  have hloop : channelsLoop ("CHANNELS" :: count :: names) names.length 0 (some s) =
      ChannelsResult.done (some { s with channels := s.channels ++ kinds }) := by
    have := @channelsLoop_names D names kinds ["CHANNELS", count] [] 0 s hk rfl
    simpa using this
  rw [hlen] at hn hloop
  simp [hierarchyStep, hw, hn, hs, hloop]

theorem wrapInt_of_int (x : Int) (hlo : INT_MIN ≤ x) (hhi : x ≤ INT_MAX) : wrapInt x = x := by
  unfold INT_MIN at hlo
  unfold INT_MAX at hhi
  unfold wrapInt
  omega

theorem wrapInt_range (x : Int) : INT_MIN ≤ wrapInt x ∧ wrapInt x ≤ INT_MAX := by
  unfold INT_MIN INT_MAX wrapInt
  omega

theorem wrapInt_add (a b : Int) : wrapInt (wrapInt a + b) = wrapInt (a + b) := by
  unfold wrapInt
  omega

end Steps

/-! ## Blocks of a declared forest -/

section Blocks

variable {D : Type} (stod : String → Option D) (lineEnd : Bool)

theorem hierarchyLoop_next (line : String) (rest : List String) (st st1 : HState D)
    (h : hierarchyStep stod st line rest = Step.next st1) :
    hierarchyLoop stod (line :: rest) st = hierarchyLoop stod rest st1 := by
  rw [hierarchyLoop_cons, h]

/-- The lines of a block between the opening brace and the children: the `OFFSET` line
and the `CHANNELS` line, when there is one. -/
theorem block_body (offsetLine : String) (channelsLine : Option String) (offset : D × D × D)
    (channels : List Channel) (rest : List String) (r : BVHReader D)
    (stack : List (Segment D)) (s : Segment D) (old : List String)
    (hoff : declaresOffset stod offsetLine offset)
    (hch : match channelsLine with
      | none => channels = []
      | some line => declaresChannels line channels)
    (hlo : INT_MIN ≤ r.channels) (hhi : r.channels ≤ INT_MAX) :
    hierarchyLoop stod (offsetLine :: (channelsLine.toList ++ rest))
        ⟨r, stack, some s, old, false⟩ =
      hierarchyLoop stod rest
        ⟨{ r with channels := wrapInt (r.channels + (channels.length : Int)) }, stack,
          some { s with offset := some offset, channels := s.channels ++ channels },
          old, false⟩ := by
  rw [hierarchyLoop_next stod _ _ _ _ (step_offset stod _ _ _ offset s hoff rfl)]
  cases channelsLine with
  | none =>
    simp only at hch
    subst hch
    cases r
    simp only [Option.toList, List.nil_append, List.length_nil, Nat.cast_zero, add_zero,
      List.append_nil] at hlo hhi ⊢
    rw [wrapInt_of_int _ hlo hhi]
    simp [Segment.setOffset]
  | some line =>
    simp only at hch
    simp only [Option.toList, List.singleton_append]
    rw [hierarchyLoop_next stod _ _ _ _
      (step_channels stod _ _ _ channels (s.setOffset offset) hch rfl)]
    simp [Segment.setOffset]

mutual
/-- The block of a declared child leaves it as the last child of the current Segment. -/
theorem child_block : ∀ (d : Decl D), Decl.WellFormed stod false d →
    ∀ (rest : List String) (r : BVHReader D) (stack : List (Segment D)) (p : Segment D)
      (old : List String) (ns : Bool),
      INT_MIN ≤ r.channels → r.channels ≤ INT_MAX →
      hierarchyLoop stod (Decl.text d ++ rest) ⟨r, stack, some p, old, ns⟩ =
        hierarchyLoop stod rest
          ⟨{ r with channels := wrapInt (r.channels + (Decl.channelCount d : Int)) }, stack,
            some (p.addSub (Decl.segment false d)), old, false⟩
  | Decl.node head openLine offsetLine channelsLine closeLine offset channels children,
    hwf, rest, r, stack, p, old, ns, hlo, hhi => by
    simp only [Decl.WellFormed, Bool.false_eq_true, if_false] at hwf
    obtain ⟨hhead, hopen, hoff, hch, hclose, hkids⟩ := hwf
    obtain ⟨h1, h2⟩ := wrapInt_range (r.channels + (channels.length : Int))
    have hstart : hierarchyStep stod ⟨r, stack, some p, old, ns⟩ head
        (openLine :: offsetLine ::
          (channelsLine.toList ++ (Decl.textList children ++ [closeLine])) ++ rest) =
        Step.next ⟨r, p :: stack,
          some (Segment.ofName
            (if firstWord head = some "End" then "End Site" else trim head)),
          old, true⟩ := by
      rcases hhead with hj | ⟨he, _⟩
      · rw [step_joint stod _ _ _ p hj rfl]
        simp [hj]
      · rw [step_end stod _ _ _ p he rfl]
        simp [he]
    simp only [Decl.text, List.cons_append, List.append_assoc]
    simp only [List.cons_append, List.append_assoc] at hstart
    rw [hierarchyLoop_next stod _ _ _ _ hstart]
    rw [hierarchyLoop_next stod _ _ _ _ (step_open stod _ _ _ hopen rfl)]
    rw [block_body stod offsetLine channelsLine offset channels _ r _ _ _ hoff hch hlo hhi]
    rw [children_blocks children hkids _ _ _ _ _ h1 h2]
    rw [hierarchyLoop_next stod _ _ _ _
      (step_close_child stod _ _ _ p _ stack hclose rfl rfl)]
    simp [Decl.segment, Decl.channelCount, Segment.ofName, Segment.addSub, wrapInt_add,
      add_assoc]
/-- The blocks of declared children leave them, in order, as the last children. -/
theorem children_blocks : ∀ (ds : List (Decl D)), Decl.WellFormedList stod ds →
    ∀ (rest : List String) (r : BVHReader D) (stack : List (Segment D)) (p : Segment D)
      (old : List String),
      INT_MIN ≤ r.channels → r.channels ≤ INT_MAX →
      hierarchyLoop stod (Decl.textList ds ++ rest) ⟨r, stack, some p, old, false⟩ =
        hierarchyLoop stod rest
          ⟨{ r with channels := wrapInt (r.channels + (Decl.channelCountList ds : Int)) },
            stack, some { p with children := p.children ++ Decl.segments ds }, old, false⟩
  | [], _, rest, r, stack, p, old, hlo, hhi => by
    cases r
    cases p
    simp only [Decl.textList, Decl.channelCountList, Decl.segments, List.nil_append,
      Nat.cast_zero, add_zero, List.append_nil] at hlo hhi ⊢
    rw [wrapInt_of_int _ hlo hhi]
  | d :: ds, hwf, rest, r, stack, p, old, hlo, hhi => by
    simp only [Decl.WellFormedList] at hwf
    obtain ⟨h1, h2⟩ := wrapInt_range (r.channels + (Decl.channelCount d : Int))
    simp only [Decl.textList, List.append_assoc]
    rw [child_block d hwf.1 _ r stack p old false hlo hhi]
    rw [children_blocks ds hwf.2 _ _ _ _ _ h1 h2]
    simp [Decl.segments, Decl.channelCountList, Segment.addSub, wrapInt_add, add_assoc]
end

end Blocks

section Forest

variable {D : Type} (stod : String → Option D) (lineEnd : Bool)

/-- The block of a declared root appends its Segment to the forest and moves the
remembered position to the line after its closing brace. -/
theorem root_block (d : Decl D) (hwf : Decl.WellFormed stod true d) (rest : List String)
    (r : BVHReader D) (cur : Option (Segment D)) (old : List String) (ns : Bool)
    (hlo : INT_MIN ≤ r.channels) (hhi : r.channels ≤ INT_MAX) :
    hierarchyLoop stod (Decl.text d ++ rest) ⟨r, [], cur, old, ns⟩ =
      hierarchyLoop stod rest
        ⟨{ r with root := r.root ++ [some (Decl.segment true d)],
                  channels := wrapInt (r.channels + (Decl.channelCount d : Int)) },
          [], none, rest, false⟩ := by
  cases d with
  | node head openLine offsetLine channelsLine closeLine offset channels children =>
    simp only [Decl.WellFormed, if_true] at hwf
    obtain ⟨hhead, hopen, hoff, hch, hclose, hkids⟩ := hwf
    obtain ⟨h1, h2⟩ := wrapInt_range (r.channels + (channels.length : Int))
    simp only [Decl.text, List.cons_append, List.append_assoc]
    rw [hierarchyLoop_next stod _ _ _ _ (step_root stod _ _ _ hhead rfl)]
    rw [hierarchyLoop_next stod _ _ _ _ (step_open stod _ _ _ hopen rfl)]
    rw [block_body stod offsetLine channelsLine offset channels _ r _ _ _ hoff hch hlo hhi]
    rw [children_blocks stod children hkids _ _ _ _ _ h1 h2]
    rw [hierarchyLoop_next stod _ _ _ _ (step_close_root stod _ _ _ hclose rfl)]
    have hne : firstWord head ≠ some "End" := by
      rw [hhead]
      decide
    simp [Decl.segment, Decl.channelCount, Segment.ofName, Segment.setColor, hne,
      wrapInt_add, add_assoc]

/-- The blocks of a declared forest, root after root. -/
theorem forest_blocks : ∀ (ds : List (Decl D)), (∀ d ∈ ds, Decl.WellFormed stod true d) →
    ∀ (tail : List String) (r : BVHReader D),
      INT_MIN ≤ r.channels → r.channels ≤ INT_MAX →
      hierarchyLoop stod (Decl.textList ds ++ tail)
          ⟨r, [], none, Decl.textList ds ++ tail, false⟩ =
        hierarchyLoop stod tail
          ⟨{ r with root := r.root ++ ds.map (fun d => some (Decl.segment true d)),
                    channels := wrapInt (r.channels + (Decl.channelCountList ds : Int)) },
            [], none, tail, false⟩
  | [], _, tail, r, hlo, hhi => by
    cases r
    simp only [Decl.textList, Decl.channelCountList, List.nil_append, List.map_nil,
      List.append_nil, Nat.cast_zero, add_zero] at hlo hhi ⊢
    rw [wrapInt_of_int _ hlo hhi]
  | d :: ds, hwf, tail, r, hlo, hhi => by
    obtain ⟨h1, h2⟩ := wrapInt_range (r.channels + (Decl.channelCount d : Int))
    simp only [Decl.textList, List.append_assoc]
    rw [root_block stod d (hwf d (List.mem_cons_self _ _)) _ r none _ false hlo hhi]
    have hrest := forest_blocks ds (fun x hx => hwf x (List.mem_cons_of_mem _ hx)) tail
      { r with root := r.root ++ [some (Decl.segment true d)],
               channels := wrapInt (r.channels + (Decl.channelCount d : Int)) } h1 h2
    rw [hrest]
    simp [Decl.channelCountList, wrapInt_add, add_assoc]

/-- A hierarchy loop that meets the end of input or a `MOTION` line stops there. -/
theorem hierarchyLoop_stop (tail : List String) (r : BVHReader D)
    (htail : tail = [] ∨ ∃ m t, tail = m :: t ∧ firstWord m = some "MOTION") :
    hierarchyLoop stod tail ⟨r, [], none, tail, false⟩ = Except.ok (true, r, tail) := by
  rcases htail with h | ⟨m, t, h, hm⟩
  · subst h
    simp [hierarchyLoop]
  · subst h
    rw [hierarchyLoop_cons, step_motion stod _ _ _ hm]

/-- `loadHierarchy` on the text of a declared forest. -/
theorem loadHierarchy_forest (forest : List (Decl D))
    (hwf : ∀ d ∈ forest, Decl.WellFormed stod true d) (tail : List String)
    (htail : tail = [] ∨ ∃ m t, tail = m :: t ∧ firstWord m = some "MOTION")
    (r : BVHReader D) :
    loadHierarchy stod r (Decl.textList forest ++ tail) =
      Except.ok (true,
        { r with root := r.root ++ forest.map (fun d => some (Decl.segment true d)),
                 channels := wrapInt (Decl.channelCountList forest : Int) },
        tail) := by
  have hlo : INT_MIN ≤ (0 : Int) := by decide
  have hhi : (0 : Int) ≤ INT_MAX := by decide
  unfold loadHierarchy
  rw [forest_blocks stod forest hwf tail { r with channels := 0 } hlo hhi]
  rw [hierarchyLoop_stop stod tail _ htail]
  simp

end Forest

/-! ## The motion block -/

section Motion

variable {D : Type} (stod : String → Option D) (lineEnd : Bool)

theorem motionRows_accept (line : String) (rest : List String) (r : BVHReader D)
    (vals : List D) (h : acceptsRow stod r.channels line vals) :
    motionRows stod (line :: rest) r =
      motionRows stod rest { r with motion := r.motion ++ [vals] } := by
  obtain ⟨h1, h2⟩ := h
  simp [motionRows, h1, h2]

theorem motionRows_reject (line : String) (rest : List String) (r : BVHReader D)
    (h : rejectsRow stod r.channels line) :
    motionRows stod (line :: rest) r = (false, r, rest) := by
  rcases h with h | ⟨vals, h1, h2⟩
  · simp [motionRows, h]
  · simp [motionRows, h1, h2]

theorem accepts_or_rejects (channels : Int) (line : String) :
    (∃ vals, acceptsRow stod channels line vals) ∨ rejectsRow stod channels line := by
  unfold acceptsRow rejectsRow
  cases h : splitDouble stod (trim line) ' ' with
  | none => exact Or.inr (Or.inl rfl)
  | some vals =>
    by_cases hw : (vals.length : Int) = channels
    · exact Or.inl ⟨vals, rfl, hw⟩
    · exact Or.inr (Or.inr ⟨vals, rfl, hw⟩)

/-- Rows that are accepted go to the end of the motion table, in order. -/
theorem motionRows_append (good : List String) :
    ∀ (rows : List (List D)) (rest : List String) (r : BVHReader D),
      List.Forall₂ (acceptsRow stod r.channels) good rows →
      motionRows stod (good ++ rest) r =
        motionRows stod rest { r with motion := r.motion ++ rows } := by
  induction good with
  | nil =>
    intro rows rest r h
    cases h
    cases r
    simp
  | cons l ls ih =>
    intro rows rest r h
    cases h with
    | cons hl hls =>
      rename_i v vs
      rw [List.cons_append, motionRows_accept stod l _ r v hl]
      rw [ih vs rest { r with motion := r.motion ++ [v] } hls]
      simp

/-- What the motion loop does, read off its result: it took a run of accepted lines and
then either met the end of input or failed on the next line. -/
theorem motionRows_spec (s : List String) :
    ∀ (r : BVHReader D) (b : Bool) (r1 : BVHReader D) (s1 : List String),
      motionRows stod s r = (b, r1, s1) →
      ∃ (good : List String) (rows : List (List D)),
        List.Forall₂ (acceptsRow stod r.channels) good rows ∧
        r1 = { r with motion := r.motion ++ rows } ∧
        ((b = true ∧ s = good ∧ s1 = []) ∨
          (b = false ∧ ∃ bad, s = good ++ bad :: s1 ∧ rejectsRow stod r.channels bad)) := by
  induction s with
  | nil =>
    intro r b r1 s1 h
    simp only [motionRows, Prod.mk.injEq] at h
    obtain ⟨hb, hr, hs⟩ := h
    refine ⟨[], [], List.Forall₂.nil, ?_, Or.inl ⟨hb.symm, rfl, hs.symm⟩⟩
    subst hr
    simp
  | cons l ls ih =>
    intro r b r1 s1 h
    rcases accepts_or_rejects stod r.channels l with ⟨v, hv⟩ | hrej
    · rw [motionRows_accept stod l ls r v hv] at h
      obtain ⟨good, rows, hgood, hr1, hcase⟩ := ih _ b r1 s1 h
      refine ⟨l :: good, v :: rows, List.Forall₂.cons hv hgood, ?_, ?_⟩
      · rw [hr1]
        simp
      · rcases hcase with ⟨hb, hs, hs1⟩ | ⟨hb, bad, hs, hbad⟩
        · exact Or.inl ⟨hb, by rw [hs], hs1⟩
        · exact Or.inr ⟨hb, bad, by rw [hs]; rfl, hbad⟩
    · rw [motionRows_reject stod l ls r hrej] at h
      simp only [Prod.mk.injEq] at h
      obtain ⟨hb, hr, hs⟩ := h
      refine ⟨[], [], List.Forall₂.nil, ?_, Or.inr ⟨hb.symm, l, ?_, hrej⟩⟩
      · subst hr
        simp
      · rw [hs]
        rfl

/-- With both header lines well formed, `loadMotion` stores the frame count and the frame
time and goes on to the rows. -/
theorem loadMotion_headers (r : BVHReader D) (h1 h2 : String) (rest : List String)
    (frames : Int) (frameTime : D) (hf : framesHeader h1 frames)
    (ht : frameTimeHeader stod h2 frameTime) :
    loadMotion stod lineEnd r (h1 :: h2 :: rest) =
      motionRows stod rest { r with frames := frames, frameTime := frameTime } := by
  obtain ⟨w1, hw1, hs1⟩ := hf
  obtain ⟨w2, hw2, hs2⟩ := ht
  have hl1 : ¬ (split (trim h1) ' ').length < 2 := by
    intro hlt
    rw [List.getElem?_eq_none (by omega)] at hw1
    cases hw1
  have hl2 : ¬ (split (trim h2) ' ').length < 3 := by
    intro hlt
    rw [List.getElem?_eq_none (by omega)] at hw2
    cases hw2
  simp [loadMotion, getlineAndTrim, hl1, hl2, hw1, hw2, hs1, hs2]

/-- When the only line left is a well formed first header and the file has no line end
after it, the second read finds `buffer` as the first read left it: the third token of
the first header is the frame time and `loadMotion` returns true with no row read. -/
theorem loadMotion_stale (r : BVHReader D) (h1 : String) (frames : Int) (frameTime : D)
    (hf : framesHeader h1 frames) (ht : frameTimeHeader stod h1 frameTime) :
    loadMotion stod false r [h1] =
      (true, { r with frames := frames, frameTime := frameTime }, []) := by
  obtain ⟨w1, hw1, hs1⟩ := hf
  obtain ⟨w2, hw2, hs2⟩ := ht
  have hl1 : ¬ (split (trim h1) ' ').length < 2 := by
    intro hlt
    rw [List.getElem?_eq_none (by omega)] at hw1
    cases hw1
  have hl2 : ¬ (split (trim h1) ' ').length < 3 := by
    intro hlt
    rw [List.getElem?_eq_none (by omega)] at hw2
    cases hw2
  simp [loadMotion, getlineAndTrim, trim_trim, hl1, hl2, hw1, hw2, hs1, hs2, motionRows]

/-- The ways `loadMotion` can go: the first header is refused, the second header is
refused, both are read and the rows follow, or the first header, the last line of a file
without a line end, is read a second time as the second header. -/
theorem loadMotion_cases (r : BVHReader D) (s : List String) :
    loadMotion stod lineEnd r s = (false, r, s.tail) ∨
    (∃ h1 rest frames, s = h1 :: rest ∧ framesHeader h1 frames ∧
      loadMotion stod lineEnd r s = (false, { r with frames := frames }, rest.tail)) ∨
    (∃ h1 h2 rest frames frameTime, s = h1 :: h2 :: rest ∧ framesHeader h1 frames ∧
      frameTimeHeader stod h2 frameTime ∧
      loadMotion stod lineEnd r s =
        motionRows stod rest { r with frames := frames, frameTime := frameTime }) ∨
    (∃ h1 frames frameTime, s = [h1] ∧ lineEnd = false ∧ framesHeader h1 frames ∧
      frameTimeHeader stod h1 frameTime ∧
      loadMotion stod lineEnd r s =
        (true, { r with frames := frames, frameTime := frameTime }, [])) := by
  have hempty : split "" ' ' = [] := by decide
  have htrim : trim "" = "" := by decide
  cases s with
  | nil =>
    left
    cases lineEnd <;> simp [loadMotion, getlineAndTrim, hempty, htrim]
  | cons h1 rest1 =>
    by_cases hl1 : (split (trim h1) ' ').length < 2
    · left
      simp [loadMotion, getlineAndTrim, hl1]
    · obtain ⟨w1, hw1⟩ : ∃ w, (split (trim h1) ' ')[1]? = some w :=
        ⟨_, List.getElem?_eq_getElem (by omega)⟩
      cases hs1 : stoi w1 with
      | none =>
        left
        simp [loadMotion, getlineAndTrim, hl1, hw1, hs1]
      | some frames =>
        right
        have hf : framesHeader h1 frames := ⟨w1, hw1, hs1⟩
        cases rest1 with
        | nil =>
          cases lineEnd with
          | true =>
            left
            refine ⟨h1, [], frames, rfl, hf, ?_⟩
            simp [loadMotion, getlineAndTrim, hl1, hw1, hs1, hempty, htrim]
          | false =>
            by_cases hl2 : (split (trim h1) ' ').length < 3
            · left
              refine ⟨h1, [], frames, rfl, hf, ?_⟩
              simp [loadMotion, getlineAndTrim, trim_trim, hl1, hw1, hs1, hl2]
            · obtain ⟨w2, hw2⟩ : ∃ w, (split (trim h1) ' ')[2]? = some w :=
                ⟨_, List.getElem?_eq_getElem (by omega)⟩
              cases hs2 : stod w2 with
              | none =>
                left
                refine ⟨h1, [], frames, rfl, hf, ?_⟩
                simp [loadMotion, getlineAndTrim, trim_trim, hl1, hw1, hs1, hl2, hw2, hs2]
              | some frameTime =>
                right
                right
                exact ⟨h1, frames, frameTime, rfl, rfl, hf, ⟨w2, hw2, hs2⟩,
                  loadMotion_stale stod r h1 frames frameTime hf ⟨w2, hw2, hs2⟩⟩
        | cons h2 rest =>
          by_cases hl2 : (split (trim h2) ' ').length < 3
          · left
            refine ⟨h1, h2 :: rest, frames, rfl, hf, ?_⟩
            simp [loadMotion, getlineAndTrim, hl1, hw1, hs1, hl2]
          · obtain ⟨w2, hw2⟩ : ∃ w, (split (trim h2) ' ')[2]? = some w :=
              ⟨_, List.getElem?_eq_getElem (by omega)⟩
            cases hs2 : stod w2 with
            | none =>
              left
              refine ⟨h1, h2 :: rest, frames, rfl, hf, ?_⟩
              simp [loadMotion, getlineAndTrim, hl1, hw1, hs1, hl2, hw2, hs2]
            | some frameTime =>
              right
              left
              exact ⟨h1, h2, rest, frames, frameTime, rfl, hf, ⟨w2, hw2, hs2⟩,
                loadMotion_headers stod lineEnd r h1 h2 rest frames frameTime hf
                  ⟨w2, hw2, hs2⟩⟩

end Motion

/-! ## The loop of `loadFile` -/

section Loop

variable {D : Type} (stod : String → Option D) (lineEnd : Bool)

theorem loadFileLoop_hierarchy (fuel : Nat) (line : String) (rest : List String)
    (r r1 : BVHReader D) (b : Bool) (s1 : List String) (hl : trim line = "HIERARCHY")
    (hh : loadHierarchy stod r rest = Except.ok (b, r1, s1)) :
    loadFileLoop stod lineEnd (fuel + 1) (line :: rest) r =
      loadFileLoop stod lineEnd fuel s1 r1 := by
  have hne : ¬ ("HIERARCHY" = "MOTION") := by decide
  simp [loadFileLoop, hl, hh, hne]

theorem loadFileLoop_hierarchy_undefined (fuel : Nat) (line : String) (rest : List String)
    (r : BVHReader D) (e : Fault) (hl : trim line = "HIERARCHY")
    (hh : loadHierarchy stod r rest = Except.error e) :
    loadFileLoop stod lineEnd (fuel + 1) (line :: rest) r = Except.error e := by
  simp [loadFileLoop, hl, hh]

theorem loadFileLoop_motion (fuel : Nat) (line : String) (rest : List String)
    (r r1 : BVHReader D) (b : Bool) (s1 : List String) (hl : trim line = "MOTION")
    (hm : loadMotion stod lineEnd r rest = (b, r1, s1)) :
    loadFileLoop stod lineEnd (fuel + 1) (line :: rest) r =
      loadFileLoop stod lineEnd fuel s1
        (if b then r1 else { r1 with cout := r1.cout ++ [motionFailureMessage] }) := by
  have hne : ¬ ("MOTION" = "HIERARCHY") := by decide
  cases b <;> simp [loadFileLoop, hl, hm, hne]

theorem loadFileLoop_other (fuel : Nat) (line : String) (rest : List String)
    (r : BVHReader D) (hl : ¬ isMarker line) :
    loadFileLoop stod lineEnd (fuel + 1) (line :: rest) r =
      loadFileLoop stod lineEnd fuel rest r := by
  unfold isMarker at hl
  push_neg at hl
  simp [loadFileLoop, hl.1, hl.2]

/-- Lines that are not markers are read and passed over. -/
theorem loadFileLoop_skip (s : List String) :
    ∀ (fuel : Nat) (r : BVHReader D), s.length ≤ fuel → (∀ l ∈ s, ¬ isMarker l) →
      loadFileLoop stod lineEnd fuel s r = Except.ok r := by
  induction s with
  | nil =>
    intro fuel r _ _
    cases fuel <;> simp [loadFileLoop]
  | cons l ls ih =>
    intro fuel r hlen hno
    cases fuel with
    | zero => simp at hlen
    | succ n =>
      rw [loadFileLoop_other stod lineEnd n l ls r (hno l (List.mem_cons_self _ _))]
      exact ih n r (by simpa using hlen) (fun x hx => hno x (List.mem_cons_of_mem _ hx))

/-- A run of lines that are not markers is read and passed over, one iteration each. -/
theorem loadFileLoop_skip_run (skipped : List String) :
    ∀ (fuel : Nat) (s : List String) (r : BVHReader D), (∀ l ∈ skipped, ¬ isMarker l) →
      loadFileLoop stod lineEnd (skipped.length + fuel) (skipped ++ s) r =
        loadFileLoop stod lineEnd fuel s r := by
  induction skipped with
  | nil =>
    intro fuel s r _
    simp
  | cons l ls ih =>
    intro fuel s r hno
    have hfuel : (l :: ls).length + fuel = (ls.length + fuel) + 1 := by
      simp only [List.length_cons]
      omega
    rw [hfuel, List.cons_append,
      loadFileLoop_other stod lineEnd _ l _ r (hno l (List.mem_cons_self _ _))]
    exact ih fuel s r (fun x hx => hno x (List.mem_cons_of_mem _ hx))

end Loop

/-! ## What the hierarchy parser leaves alone -/

section Frame

variable {D : Type} (stod : String → Option D) (lineEnd : Bool)

/-- The `for` loop of the `CHANNELS` branch, entered with a current Segment, ends with
one. -/
theorem channelsLoop_some (words : List String) (n : Nat) :
    ∀ (i : Nat) (c : Segment D) (curr1 : Option (Segment D)),
      channelsLoop words n i (some c) = ChannelsResult.done curr1 → curr1 ≠ none := by
  induction n with
  | zero =>
    intro i c curr1 h
    simp only [channelsLoop, ChannelsResult.done.injEq] at h
    rw [← h]
    simp
  | succ k ih =>
    intro i c curr1 h
    simp only [channelsLoop] at h
    split at h
    · cases h
    · split at h
      · cases h
      · exact ih _ _ _ h

/-- One pass of the hierarchy loop does not touch the motion table, and the position it
remembers or hands back is the old remembered position or the line after the current
one. -/
theorem hierarchyStep_keeps (st : HState D) (line : String) (rest : List String) :
    Step.Keeps st rest (hierarchyStep stod st line rest) := by
  unfold hierarchyStep
  simp only
  cases (split (trim line) ' ')[0]? with
  | none => simp [Step.Keeps]
  | some w0 =>
    simp only
    by_cases h1 : w0 = "ROOT"
    · rw [if_pos h1]
      split <;> simp [Step.Keeps]
    rw [if_neg h1]
    by_cases h2 : w0 = "JOINT"
    · rw [if_pos h2]
      split <;> simp [Step.Keeps]
    rw [if_neg h2]
    by_cases h3 : w0 = "End"
    · rw [if_pos h3]
      split <;> simp [Step.Keeps]
    rw [if_neg h3]
    by_cases h4 : w0 = "\x7b"
    · rw [if_pos h4]
      split <;> simp [Step.Keeps]
    rw [if_neg h4]
    by_cases h5 : w0 = "OFFSET"
    · rw [if_pos h5]
      split
      · split
        · split <;> simp [Step.Keeps]
        · simp [Step.Keeps]
      · simp [Step.Keeps]
    rw [if_neg h5]
    by_cases h6 : w0 = "CHANNELS"
    · rw [if_pos h6]
      split
      · simp [Step.Keeps]
      · split
        · simp [Step.Keeps]
        · split <;> simp [Step.Keeps]
    rw [if_neg h6]
    by_cases h7 : w0 = "\x7d"
    · rw [if_pos h7]
      split
      · split <;> simp [Step.Keeps]
      · simp [Step.Keeps]
    rw [if_neg h7]
    by_cases h8 : w0 = "MOTION"
    · rw [if_pos h8]
      simp [Step.Keeps]
    rw [if_neg h8]
    simp [Step.Keeps]

/-- The hierarchy loop does not touch the motion table, and it leaves the stream at a
position that is not before the one it was entered at, unless it is the position it
remembered on entry. -/
theorem hierarchyLoop_keeps (s : List String) :
    ∀ (st : HState D) (b : Bool) (r : BVHReader D) (s1 : List String),
      hierarchyLoop stod s st = Except.ok (b, r, s1) →
      r.motion = st.reader.motion ∧ (s1 <:+ s ∨ s1 = st.oldpos) := by
  induction s with
  | nil =>
    intro st b r s1 h
    simp only [hierarchyLoop, Except.ok.injEq, Prod.mk.injEq] at h
    obtain ⟨_, hr, hs⟩ := h
    subst hr hs
    exact ⟨rfl, Or.inl (List.suffix_refl _)⟩
  | cons l ls ih =>
    intro st b r s1 h
    rw [hierarchyLoop_cons] at h
    have hk := hierarchyStep_keeps stod st l ls
    cases hstep : hierarchyStep stod st l ls with
    | next st1 =>
      rw [hstep] at h hk
      simp only [Step.Keeps] at hk
      obtain ⟨hm, hpos⟩ := ih st1 b r s1 h
      refine ⟨hm.trans hk.1, ?_⟩
      rcases hpos with hp | hp
      · exact Or.inl (hp.trans (List.suffix_cons l ls))
      · rcases hk.2 with ho | ho
        · exact Or.inr (hp.trans ho)
        · left
          rw [hp, ho]
          exact List.suffix_cons l ls
    | ret b1 r1 s2 =>
      rw [hstep] at h hk
      simp only [Step.Keeps] at hk
      simp only [Except.ok.injEq, Prod.mk.injEq] at h
      obtain ⟨_, hr, hs⟩ := h
      subst hr hs
      refine ⟨hk.1, ?_⟩
      rcases hk.2 with ho | ho
      · left
        rw [ho]
        exact List.suffix_cons l ls
      · exact Or.inr ho
    | undefined =>
      rw [hstep] at h
      cases h

/-- `loadHierarchy` does not touch the motion table and leaves the stream at or after the
position it was entered at. -/
theorem loadHierarchy_keeps (r r1 : BVHReader D) (s s1 : List String) (b : Bool)
    (h : loadHierarchy stod r s = Except.ok (b, r1, s1)) :
    r1.motion = r.motion ∧ s1 <:+ s := by
  unfold loadHierarchy at h
  obtain ⟨hm, hpos⟩ := hierarchyLoop_keeps stod s _ b r1 s1 h
  refine ⟨hm, ?_⟩
  rcases hpos with hp | hp
  · exact hp
  · exact hp ▸ List.suffix_refl _

/-- What `loadMotion` does, read off its result: it took up to two header lines, then a run
of accepted lines, then stopped at the end of input or on a line it did not take; it
changed nothing but the motion table, the frame count and the frame time. -/
theorem loadMotion_spec (r r1 : BVHReader D) (s s1 : List String) (b : Bool)
    (h : loadMotion stod lineEnd r s = (b, r1, s1)) :
    ∃ (headers good failing : List String) (rows : List (List D)) (frames : Int)
      (frameTime : D),
      s = headers ++ (good ++ (failing ++ s1)) ∧ headers.length ≤ 2 ∧ failing.length ≤ 1 ∧
      List.Forall₂ (acceptsRow stod r.channels) good rows ∧
      r1 = { r with motion := r.motion ++ rows, frames := frames, frameTime := frameTime } ∧
      (b = true → failing = [] ∧ s1 = []) := by
  rcases loadMotion_cases stod lineEnd r s with hc | ⟨h1, rest, frames, hs, _, hc⟩ |
      ⟨h1, h2, rest, frames, frameTime, hs, _, _, hc⟩ |
      ⟨h1, frames, frameTime, hs, _, _, _, hc⟩
  · rw [hc] at h
    simp only [Prod.mk.injEq] at h
    obtain ⟨hb, hr, hs1⟩ := h
    subst hb hr hs1
    refine ⟨[], [], s.take 1, [], r.frames, r.frameTime, ?_, by simp, ?_,
      List.Forall₂.nil, by simp, by simp⟩
    · cases s <;> simp
    · cases s <;> simp
  · rw [hc] at h
    simp only [Prod.mk.injEq] at h
    obtain ⟨hb, hr, hs1⟩ := h
    subst hb hr hs1 hs
    refine ⟨[h1], [], rest.take 1, [], frames, r.frameTime, ?_, by simp, ?_,
      List.Forall₂.nil, by simp, by simp⟩
    · cases rest <;> simp
    · cases rest <;> simp
  · rw [hc] at h
    obtain ⟨good, rows, hgood, hr1, hcase⟩ := motionRows_spec stod rest _ _ _ _ h
    rcases hcase with ⟨hb, hrest, hs1⟩ | ⟨hb, bad, hrest, _⟩
    · refine ⟨[h1, h2], good, [], rows, frames, frameTime, ?_, by simp, by simp, hgood,
        by rw [hr1], fun _ => ⟨rfl, hs1⟩⟩
      rw [hs, hrest, hs1]
      simp
    · refine ⟨[h1, h2], good, [bad], rows, frames, frameTime, ?_, by simp, by simp, hgood,
        by rw [hr1], ?_⟩
      · rw [hs, hrest]
        simp
      · intro hbt
        rw [hb] at hbt
        cases hbt
  · rw [hc] at h
    simp only [Prod.mk.injEq] at h
    obtain ⟨_, hr, hs1⟩ := h
    subst hr hs1 hs
    exact ⟨[h1], [], [], [], frames, frameTime, by simp, by simp, by simp,
      List.Forall₂.nil, by simp, fun _ => ⟨rfl, rfl⟩⟩

/-- While the stack holds a Segment, `curr` is not null: a pass of the hierarchy loop
keeps it so. -/
theorem hierarchyStep_curr_of_stack (st st1 : HState D) (line : String) (rest : List String)
    (hinv : st.stack ≠ [] → st.curr ≠ none)
    (hstep : hierarchyStep stod st line rest = Step.next st1) :
    st1.stack ≠ [] → st1.curr ≠ none := by
  unfold hierarchyStep at hstep
  simp only at hstep
  cases hw : (split (trim line) ' ')[0]? with
  | none =>
    rw [hw] at hstep
    cases hstep
  | some w0 =>
    rw [hw] at hstep
    simp only at hstep
    by_cases h1 : w0 = "ROOT"
    · rw [if_pos h1] at hstep
      split at hstep
      · cases hstep
      · simp only [Step.next.injEq] at hstep
        subst hstep
        simp
    rw [if_neg h1] at hstep
    by_cases h2 : w0 = "JOINT"
    · rw [if_pos h2] at hstep
      split at hstep
      · cases hstep
      · simp only [Step.next.injEq] at hstep
        subst hstep
        simp
    rw [if_neg h2] at hstep
    by_cases h3 : w0 = "End"
    · rw [if_pos h3] at hstep
      split at hstep
      · cases hstep
      · simp only [Step.next.injEq] at hstep
        subst hstep
        simp
    rw [if_neg h3] at hstep
    by_cases h4 : w0 = "\x7b"
    · rw [if_pos h4] at hstep
      split at hstep
      · simp only [Step.next.injEq] at hstep
        subst hstep
        exact hinv
      · cases hstep
    rw [if_neg h4] at hstep
    by_cases h5 : w0 = "OFFSET"
    · rw [if_pos h5] at hstep
      split at hstep
      · split at hstep
        · split at hstep
          · cases hstep
          · simp only [Step.next.injEq] at hstep
            subst hstep
            simp
        · cases hstep
      · cases hstep
    rw [if_neg h5] at hstep
    by_cases h6 : w0 = "CHANNELS"
    · rw [if_pos h6] at hstep
      split at hstep
      · cases hstep
      · split at hstep
        · cases hstep
        · split at hstep
          · cases hstep
          · cases hstep
          · rename_i curr1 hloop
            simp only [Step.next.injEq] at hstep
            subst hstep
            intro hstack
            have hcur := hinv hstack
            obtain ⟨c, hc⟩ := Option.ne_none_iff_exists'.mp hcur
            rw [hc] at hloop
            exact channelsLoop_some _ _ _ _ _ hloop
    rw [if_neg h6] at hstep
    by_cases h7 : w0 = "\x7d"
    · rw [if_pos h7] at hstep
      split at hstep
      · split at hstep
        · cases hstep
        · simp only [Step.next.injEq] at hstep
          subst hstep
          simp
      · rename_i hempty
        simp only [Step.next.injEq] at hstep
        subst hstep
        simp [hempty]
    rw [if_neg h7] at hstep
    by_cases h8 : w0 = "MOTION"
    · rw [if_pos h8] at hstep
      cases hstep
    rw [if_neg h8] at hstep
    simp only [Step.next.injEq] at hstep
    subst hstep
    exact hinv

/-- The hierarchy loop is never cut short: it takes one line per pass. -/
theorem hierarchyLoop_fault (s : List String) :
    ∀ (st : HState D) (e : Fault), hierarchyLoop stod s st = Except.error e →
      e = Fault.undefinedBehaviour := by
  induction s with
  | nil =>
    intro st e h
    simp [hierarchyLoop] at h
  | cons l ls ih =>
    intro st e h
    rw [hierarchyLoop_cons] at h
    split at h
    · exact ih _ e h
    · cases h
    · simp only [Except.error.injEq] at h
      exact h.symm

/-- One iteration per line is enough for the loop of `loadFile`: it is never cut short. -/
theorem loadFileLoop_fuel (fuel : Nat) :
    ∀ (s : List String) (r : BVHReader D), s.length ≤ fuel →
      loadFileLoop stod lineEnd fuel s r ≠ Except.error Fault.outOfFuel := by
  induction fuel with
  | zero =>
    intro s r hlen
    cases s with
    | nil => simp [loadFileLoop]
    | cons l ls => simp at hlen
  | succ n ih =>
    intro s r hlen
    cases s with
    | nil => simp [loadFileLoop]
    | cons l ls =>
      have hls : ls.length ≤ n := by simpa using hlen
      by_cases hH : trim l = "HIERARCHY"
      · cases hh : loadHierarchy stod r ls with
        | error e =>
          rw [loadFileLoop_hierarchy_undefined stod lineEnd n l ls r e hH hh]
          have he := hierarchyLoop_fault stod ls _ e hh
          rw [he]
          simp
        | ok res =>
          obtain ⟨b, r2, s2⟩ := res
          rw [loadFileLoop_hierarchy stod lineEnd n l ls r r2 b s2 hH hh]
          obtain ⟨_, hsuf⟩ := loadHierarchy_keeps stod r r2 ls s2 b hh
          exact ih s2 r2 (le_trans hsuf.length_le hls)
      · by_cases hM : trim l = "MOTION"
        · rcases hres : loadMotion stod lineEnd r ls with ⟨b, r2, s2⟩
          rw [loadFileLoop_motion stod lineEnd n l ls r r2 b s2 hM hres]
          obtain ⟨headers, good, failing, rows, frames, frameTime, hs, _, _, _, _, _⟩ :=
            loadMotion_spec stod lineEnd r r2 ls s2 b hres
          have hlen2 : ls.length =
              headers.length + (good.length + (failing.length + s2.length)) := by
            rw [hs]
            simp
          exact ih s2 _ (by omega)
        · rw [loadFileLoop_other stod lineEnd n l ls r (by unfold isMarker; tauto)]
          exact ih ls r hls

/-- The run of `loadFile` is never cut short by the iteration budget. -/
theorem loadFile_fuel (file : Option (List String)) (r : BVHReader D) :
    loadFile stod lineEnd file r ≠ Except.error Fault.outOfFuel := by
  cases file with
  | none => simp [loadFile]
  | some lines =>
    have h := loadFileLoop_fuel stod lineEnd lines.length lines r (le_refl _)
    simp only [loadFile]
    split
    · rename_i e he
      intro hcontra
      simp only [Except.error.injEq] at hcontra
      rw [hcontra] at he
      exact h he
    · split <;> simp

end Frame

/-! ## The claims -/

section Claims

variable {D : Type} (stod : String → Option D) (lineEnd : Bool)

theorem stoi_range (s : String) (v : Int) (h : stoi s = some v) :
    INT_MIN ≤ v ∧ v ≤ INT_MAX := by
  unfold stoi at h
  split_ifs at h with h0 h1
  simp only [Option.some.injEq] at h
  rw [h] at h1
  push_neg at h1
  exact h1

/-- Accepted rows up to the end of input: the motion loop succeeds with all of them. -/
theorem motionRows_all (rowLines : List String) (rows : List (List D)) (r : BVHReader D)
    (h : List.Forall₂ (acceptsRow stod r.channels) rowLines rows) :
    motionRows stod rowLines r = (true, { r with motion := r.motion ++ rows }, []) := by
  have := motionRows_append stod rowLines rows [] r h
  rw [List.append_nil] at this
  rw [this, motionRows]

/-- The reader after `loadFile` when the loop ends with at least one entry in the
forest. -/
theorem loadFile_of_loop (lines : List String) (r r1 : BVHReader D)
    (h : loadFileLoop stod lineEnd lines.length lines r = Except.ok r1) (hroot : r1.root ≠ []) :
    loadFile stod lineEnd (some lines) r = Except.ok (true, { r1 with isLoaded := true }) := by
  have : ¬ r1.root.length = 0 := by
    intro h0
    exact hroot (List.length_eq_zero.mp h0)
  simp [loadFile, h, this]

/-- C1: an input made of the line HIERARCHY, one ROOT block without nested blocks (the ROOT
line, the opening brace, an OFFSET line with three numbers, a CHANNELS line with the count
`k` and `k` recognised names, the closing brace), the line MOTION, a header whose second
token is the integer `m`, a header whose third token is a number, and `m` rows of `k`
numbers each, is loaded by a fresh reader with result true: `loaded()` is true, the forest
is one Segment without children, `getChannels()` is `k`, `frameSize()` is `m` and the
motion table is the rows in file order. -/
theorem loadFile_single_root
    (hierarchyLine rootLine openLine offsetLine channelsLine closeLine motionLine framesLine
      timeLine : String)
    (rows : List String) (name a b c count label frameCount label1 label2 time : String)
    (names more1 more2 : List String) (x y z frameTime : D) (kinds : List Channel)
    (k m : Nat) (vals : List (List D)) (c0 f0 : Int) (t0 : D)
    (hH : trim hierarchyLine = "HIERARCHY")
    (hroot : split (trim rootLine) ' ' = ["ROOT", name])
    (hopen : split (trim openLine) ' ' = ["\x7b"])
    (hoff : split (trim offsetLine) ' ' = ["OFFSET", a, b, c])
    (hx : stod a = some x) (hy : stod b = some y) (hz : stod c = some z)
    (hch : split (trim channelsLine) ' ' = "CHANNELS" :: count :: names)
    (hk : stoi count = some (k : Int)) (hnames : names.length = k)
    (hkinds : List.Forall₂ (fun w ch => channelOfName w = some ch) names kinds)
    (hclose : split (trim closeLine) ' ' = ["\x7d"])
    (hM : trim motionLine = "MOTION")
    (hframes : split (trim framesLine) ' ' = label :: frameCount :: more1)
    (hm : stoi frameCount = some (m : Int))
    (htime : split (trim timeLine) ' ' = label1 :: label2 :: time :: more2)
    (ht : stod time = some frameTime)
    (hcount : rows.length = m)
    (hrows : List.Forall₂
      (fun line v => splitDouble stod (trim line) ' ' = some v ∧ v.length = k) rows vals) :
    ∃ r : BVHReader D,
      loadFile stod lineEnd
          (some (hierarchyLine :: rootLine :: openLine :: offsetLine :: channelsLine ::
            closeLine :: motionLine :: framesLine :: timeLine :: rows))
          (BVHReader.init c0 f0 t0) = Except.ok (true, r) ∧
        r.loaded = true ∧
        r.root = [some { name := name, color := some (1, 1, 0),
                         offset := some (x, y, z), channels := kinds, children := [] }] ∧
        r.getChannels = k ∧ r.frameSize = m ∧ r.getMotion = vals ∧
        r.getMotion.length = m := by
  have hlen : kinds.length = k := by rw [← hkinds.length_eq, hnames]
  have hwf : ∀ d ∈ [Decl.node rootLine openLine offsetLine (some channelsLine) closeLine
      (x, y, z) kinds ([] : List (Decl D))], Decl.WellFormed stod true d := by
    intro d hd
    simp only [List.mem_singleton] at hd
    subst hd
    simp only [Decl.WellFormed, if_true, Decl.WellFormedList, and_true]
    refine ⟨firstWord_of_split _ _ _ hroot, firstWord_of_split _ _ _ hopen,
      ⟨a, b, c, [], hoff, hx, hy, hz⟩, ⟨count, names, hch, ?_, hkinds⟩,
      firstWord_of_split _ _ _ hclose⟩
    rw [hnames, hk]
  have hmotionWord : firstWord motionLine = some "MOTION" := by
    unfold firstWord
    rw [hM]
    decide
  have hne : firstWord rootLine ≠ some "End" := by
    rw [firstWord_of_split _ _ _ hroot]
    decide
  have hname : Segment.nameOf (trim rootLine) = name :=
    nameOf_node _ _ _ _ hroot (Or.inl rfl)
  have hhier := loadHierarchy_forest stod _ hwf (motionLine :: framesLine :: timeLine :: rows)
    (Or.inr ⟨_, _, rfl, hmotionWord⟩) (BVHReader.init c0 f0 t0)
  have hkr := stoi_range _ _ hk
  simp only [Decl.textList, Decl.text, Option.toList, List.append_nil, List.nil_append,
    List.cons_append, List.singleton_append, List.map_cons, List.map_nil,
    Decl.channelCountList, Decl.channelCount, BVHReader.init, hlen, add_zero,
    Decl.segment, Decl.segments, if_neg hne, if_true, hname,
    wrapInt_of_int _ hkr.1 hkr.2] at hhier
  have hrows2 : List.Forall₂ (acceptsRow stod (k : Int)) rows vals :=
    hrows.imp (fun _ _ h => ⟨h.1, by rw [h.2]⟩)
  have hmot := loadMotion_headers stod lineEnd
    ({ isLoaded := false,
       root := [some { name := name, color := some (1, 1, 0),
                       offset := some (x, y, z), channels := kinds, children := [] }],
       channels := (k : Int), motion := [], frames := f0,
       frameTime := t0, cout := [] } : BVHReader D)
    framesLine timeLine rows (m : Int) frameTime
    ⟨frameCount, by simp [hframes], hm⟩ ⟨time, by simp [htime], ht⟩
  rw [motionRows_all stod rows vals _ hrows2] at hmot
  have hloop : loadFileLoop stod lineEnd
      (hierarchyLine :: rootLine :: openLine :: offsetLine :: channelsLine ::
        closeLine :: motionLine :: framesLine :: timeLine :: rows).length
      (hierarchyLine :: rootLine :: openLine :: offsetLine :: channelsLine ::
        closeLine :: motionLine :: framesLine :: timeLine :: rows)
      (BVHReader.init c0 f0 t0) =
      Except.ok
        { isLoaded := false,
          root := [some { name := name, color := some (1, 1, 0),
                          offset := some (x, y, z), channels := kinds, children := [] }],
          channels := (k : Int), motion := vals, frames := (m : Int),
          frameTime := frameTime, cout := [] } := by
    simp only [List.length_cons, BVHReader.init]
    rw [loadFileLoop_hierarchy stod lineEnd _ _ _ _ _ _ _ hH hhier]
    rw [loadFileLoop_motion stod lineEnd _ _ _ _ _ _ _ hM hmot]
    simp [loadFileLoop]
  refine ⟨_, loadFile_of_loop stod lineEnd _ _ _ hloop (by simp), ?_⟩
  simp [BVHReader.loaded, BVHReader.getChannels, BVHReader.frameSize, BVHReader.getMotion,
    ← hrows.length_eq, hcount]

/-- Witness of C1: Scenario 1, with `k = 3`, `m = 1` and the row `1.0 2.0 3.0`. -/
theorem loadFile_single_root_witness :
    ∃ r : BVHReader (Nat × Nat),
      loadFile decimalStod true (some scenario1) (BVHReader.init 0 0 (0, 0)) = Except.ok (true, r) ∧
        r.loaded = true ∧
        r.root = [some { name := "Hips", color := some (1, 1, 0),
                         offset := some ((0, 0), (0, 0), (0, 0)),
                         channels := [Channel.Xposition, Channel.Yposition, Channel.Zposition],
                         children := [] }] ∧
        r.getChannels = 3 ∧ r.frameSize = 1 ∧ r.getMotion = [[(10, 1), (20, 1), (30, 1)]] ∧
        r.getMotion.length = 1 :=
  loadFile_single_root decimalStod true "HIERARCHY" "ROOT Hips" "\x7b" "OFFSET 0 0 0"
    "CHANNELS 3 Xposition Yposition Zposition" "\x7d" "MOTION" "Frames: 1"
    "Frame Time: 0.0333" ["1.0 2.0 3.0"] "Hips" "0" "0" "0" "3" "Frames:" "1" "Frame" "Time:"
    "0.0333" ["Xposition", "Yposition", "Zposition"] [] [] (0, 0) (0, 0) (0, 0) (333, 4)
    [Channel.Xposition, Channel.Yposition, Channel.Zposition] 3 1 [[(10, 1), (20, 1), (30, 1)]]
    0 0 (0, 0) (by decide) (by decide) (by decide) (by decide) (by decide) (by decide)
    (by decide) (by decide) (by decide) (by decide)
    (List.Forall₂.cons (by decide) (List.Forall₂.cons (by decide)
      (List.Forall₂.cons (by decide) List.Forall₂.nil)))
    (by decide) (by decide) (by decide) (by decide) (by decide) (by decide) (by decide)
    (List.Forall₂.cons ⟨by decide, by decide⟩ List.Forall₂.nil)

/-- C2, the code at the failing input: the second root block names the unknown channel
Foo, `loadHierarchy` returns false there, and `loadFile` still returns true with
`loaded()` true and the forest holding the first root only.  (On Scenario 2 itself, where
no root was completed before the violation, `loadFile` returns false.) -/
theorem loadFile_unknown_channel_after_root :
    (∃ r s, loadHierarchy decimalStod freshReader unknownChannelAfterRoot.tail =
        Except.ok (false, r, s)) ∧
    (∃ r, loadFile decimalStod true (some unknownChannelAfterRoot) freshReader =
        Except.ok (true, r) ∧
      r.loaded = true ∧
      r.root = [some { name := "Hips", color := some (1, 1, 0),
                       offset := some ((0, 0), (0, 0), (0, 0)), channels := [],
                       children := [] }]) ∧
    ∃ r, loadFile decimalStod true (some scenario2) freshReader = Except.ok (false, r) ∧
      r.loaded = false :=
  ⟨⟨_, _, rfl⟩, ⟨_, rfl, rfl, rfl⟩, ⟨_, rfl, rfl⟩⟩

/-- C4: the hierarchy text that declares a forest (roots written with ROOT lines, the other
nodes with JOINT lines or, for leaves, End lines; each block made of the node line, the
opening brace, the OFFSET line, the CHANNELS line, the blocks of the children in order and
the closing brace), followed by the end of input or a MOTION line, is parsed into the
forest of the same shape: `loadHierarchy` returns true and appends to the forest the roots
in declaration order, each node with its children in declaration order and its channel
sequence as declared; the channel count is the number of channels declared, as an
`int`. -/
theorem loadHierarchy_declared_forest (forest : List (Decl D))
    (hwf : ∀ d ∈ forest, Decl.WellFormed stod true d) (tail : List String)
    (htail : tail = [] ∨ ∃ m t, tail = m :: t ∧ firstWord m = some "MOTION")
    (r : BVHReader D) :
    loadHierarchy stod r (Decl.textList forest ++ tail) =
      Except.ok (true,
        { r with root := r.root ++ forest.map (fun d => some (Decl.segment true d)),
                 channels := wrapInt (Decl.channelCountList forest : Int) },
        tail) := by
  have hlo : INT_MIN ≤ (0 : Int) := by decide
  have hhi : (0 : Int) ≤ INT_MAX := by decide
  unfold loadHierarchy
  rw [forest_blocks stod forest hwf tail { r with channels := 0 } hlo hhi]
  rw [hierarchyLoop_stop stod tail _ htail]
  simp

/-- The declared forest of the worked example is well formed. -/
theorem twoRoots_wellFormed : ∀ d ∈ twoRoots, Decl.WellFormed decimalStod true d := by
  intro d hd
  simp only [twoRoots, List.mem_cons, List.mem_singleton, List.not_mem_nil, or_false] at hd
  rcases hd with h | h
  · subst h
    simp only [Decl.WellFormed, Decl.WellFormedList, if_true, Bool.false_eq_true, if_false,
      and_true]
    refine ⟨by decide, by decide, ⟨"0", "0", "0", [], by decide, by decide, by decide, by decide⟩,
      ⟨"3", ["Xposition", "Yposition", "Zposition"], by decide, by decide,
        List.Forall₂.cons (by decide) (List.Forall₂.cons (by decide)
          (List.Forall₂.cons (by decide) List.Forall₂.nil))⟩,
      by decide, ?_⟩
    refine ⟨Or.inl (by decide), by decide,
      ⟨"0", "1.5", "0", [], by decide, by decide, by decide, by decide⟩,
      ⟨"1", ["Zrotation"], by decide, by decide,
        List.Forall₂.cons (by decide) List.Forall₂.nil⟩,
      by decide, ?_⟩
    exact ⟨Or.inr (by decide), by decide,
      ⟨"0", "2", "0", [], by decide, by decide, by decide, by decide⟩, by decide⟩
  · subst h
    simp only [Decl.WellFormed, Decl.WellFormedList, if_true, and_true]
    exact ⟨by decide, by decide, ⟨"1", "0", "0", [], by decide, by decide, by decide, by decide⟩,
      ⟨"1", ["Yrotation"], by decide, by decide,
        List.Forall₂.cons (by decide) List.Forall₂.nil⟩,
      by decide⟩

/-- Witness of C4: two sibling ROOT blocks before MOTION, as in Scenario 5, give two roots
in declaration order; the joint and the End Site of the first are where they were
declared. -/
theorem loadHierarchy_declared_forest_witness :
    Decl.textList twoRoots ++ ["MOTION"] =
      ["ROOT Hips", "\x7b", "OFFSET 0 0 0", "CHANNELS 3 Xposition Yposition Zposition",
       "JOINT Spine", "\x7b", "OFFSET 0 1.5 0", "CHANNELS 1 Zrotation",
       "End Site", "\x7b", "OFFSET 0 2 0", "\x7d", "\x7d", "\x7d",
       "ROOT Prop", "\x7b", "OFFSET 1 0 0", "CHANNELS 1 Yrotation", "\x7d", "MOTION"] ∧
    loadHierarchy decimalStod freshReader (Decl.textList twoRoots ++ ["MOTION"]) =
      Except.ok (true,
        { freshReader with
            root :=
              [some { name := "Hips", color := some (1, 1, 0),
                      offset := some ((0, 0), (0, 0), (0, 0)),
                      channels := [Channel.Xposition, Channel.Yposition, Channel.Zposition],
                      children :=
                        [{ name := "Spine", color := none,
                           offset := some ((0, 0), (15, 1), (0, 0)),
                           channels := [Channel.Zrotation],
                           children :=
                             [{ name := "End Site", color := none,
                                offset := some ((0, 0), (2, 0), (0, 0)),
                                channels := [], children := [] }] }] },
               some { name := "Prop", color := some (1, 1, 0),
                      offset := some ((1, 0), (0, 0), (0, 0)),
                      channels := [Channel.Yrotation], children := [] }],
            channels := 5 },
        ["MOTION"]) :=
  ⟨by decide,
    loadHierarchy_declared_forest decimalStod twoRoots twoRoots_wellFormed ["MOTION"]
      (Or.inr ⟨"MOTION", [], rfl, by decide⟩) freshReader⟩

/-- C5, counterexample: the header declares two frames and one row follows.  The Motion
Parser reports success with one row in the table and `frameSize()` equal to 2; for the
whole file `loadFile` returns true and prints no failure message.  And when the file ends,
with no line end, after the header `Frames: 1 0.5`, the Motion Parser reports success with
`frameSize()` equal to 1 and no row in the table. -/
theorem loadMotion_frame_count_counterexample :
    (∃ r, loadMotion decimalStod true { freshReader with channels := 3 } twoFramesDeclared =
        (true, r, []) ∧
      r.getMotion = [[(10, 1), (20, 1), (30, 1)]] ∧ r.frameSize = 2) ∧
    (∃ r, loadFile decimalStod true (some scenario1TwoFrames) freshReader = Except.ok (true, r) ∧
      r.cout = [] ∧ r.getMotion.length = 1 ∧ r.frameSize = 2 ∧
      (r.getMotion.length : Int) ≠ r.frameSize) ∧
    ∃ r, loadMotion decimalStod false { freshReader with channels := 3 } ["Frames: 1 0.5"] =
        (true, r, []) ∧
      r.getMotion = [] ∧ r.frameSize = 1 ∧ r.frameTime = (5, 1) :=
  ⟨⟨_, rfl, rfl, rfl⟩, ⟨_, rfl, rfl, rfl, rfl, by decide⟩, ⟨_, rfl, rfl, rfl, rfl⟩⟩

/-- C5 as amended.  When the Motion Parser reports success it has read the input to its
end, `frameSize()` is the number read from the second token of the first header, and the
rows it appended to the motion table are the lines after the two header lines, one row per
line and in order, each of the width of the channel count; the one other way to success is
a file that ends, with no line end, after the first header: that line is then read a second
time as the second header and no row is appended.  The frame count is not compared with
the number of rows: whatever number the first header declares, a block of two well formed
headers followed by any number of lines that are rows of the width of the channel count
is a success, with all these rows in the table. -/
theorem loadMotion_success_rows (r : BVHReader D) :
    (∀ (stream s1 : List String) (r1 : BVHReader D),
      loadMotion stod lineEnd r stream = (true, r1, s1) →
      s1 = [] ∧
      ∃ (h1 : String) (rows : List (List D)) (frameTime : D),
        framesHeader h1 r1.frameSize ∧
        r1.getMotion = r.motion ++ rows ∧
        r1 = { r with motion := r.motion ++ rows, frames := r1.frameSize,
                      frameTime := frameTime } ∧
        ((∃ (h2 : String) (rowLines : List String),
            stream = h1 :: h2 :: rowLines ∧ frameTimeHeader stod h2 frameTime ∧
            List.Forall₂ (acceptsRow stod r.channels) rowLines rows ∧
            rows.length = rowLines.length) ∨
          (stream = [h1] ∧ lineEnd = false ∧ frameTimeHeader stod h1 frameTime ∧
            rows = []))) ∧
    (∀ (h1 h2 : String) (rowLines : List String) (rows : List (List D)) (frames : Int)
        (frameTime : D),
      framesHeader h1 frames → frameTimeHeader stod h2 frameTime →
      List.Forall₂ (acceptsRow stod r.channels) rowLines rows →
      loadMotion stod lineEnd r (h1 :: h2 :: rowLines) =
        (true, { r with motion := r.motion ++ rows, frames := frames,
                        frameTime := frameTime }, [])) := by
  constructor
  · intro stream s1 r1 h
    rcases loadMotion_cases stod lineEnd r stream with hc | ⟨_, _, _, _, _, hc⟩ |
        ⟨h1, h2, rest, frames, frameTime, hs, hf, ht, hc⟩ |
        ⟨h1, frames, frameTime, hs, hle, hf, ht, hc⟩
    · rw [hc] at h
      simp at h
    · rw [hc] at h
      simp at h
    · rw [hc] at h
      obtain ⟨good, rows, hgood, hr1, hcase⟩ := motionRows_spec stod rest _ _ _ _ h
      rcases hcase with ⟨_, hrest, hs1⟩ | ⟨hb, _⟩
      · subst hr1
        refine ⟨hs1, h1, rows, frameTime, hf, rfl, rfl, Or.inl ⟨h2, rest, hs, ht, ?_, ?_⟩⟩
        · rw [hrest]
          exact hgood
        · rw [hrest]
          exact hgood.length_eq.symm
      · cases hb
    · rw [hc] at h
      simp only [Prod.mk.injEq, true_and] at h
      obtain ⟨hr1, hs1⟩ := h
      subst hr1
      refine ⟨hs1.symm, h1, [], frameTime, hf, ?_, ?_, Or.inr ⟨hs, hle, ht, rfl⟩⟩
      · simp [BVHReader.getMotion]
      · simp [BVHReader.frameSize]
  · intro h1 h2 rowLines rows frames frameTime hf ht hrows
    rw [loadMotion_headers stod lineEnd r h1 h2 rowLines frames frameTime hf ht,
      motionRows_all stod rowLines rows
        ({ r with frames := frames, frameTime := frameTime } : BVHReader D) hrows]

/-- Witness of C5 as amended: the motion block of Scenario 1 is read as the claim says, and
the same block with a header that declares five frames is a success with its one row. -/
theorem loadMotion_success_rows_witness :
    loadMotion decimalStod true { freshReader with channels := 3 }
        ["Frames: 1", "Frame Time: 0.0333", "1.0 2.0 3.0"] =
      (true, { freshReader with channels := 3, frames := 1, frameTime := (333, 4),
                                motion := [[(10, 1), (20, 1), (30, 1)]] }, []) ∧
    ([] : List String) = [] ∧
    framesHeader "Frames: 5" 5 ∧ frameTimeHeader decimalStod "Frame Time: 0.0333" (333, 4) ∧
    List.Forall₂ (acceptsRow decimalStod 3) ["1.0 2.0 3.0"] [[(10, 1), (20, 1), (30, 1)]] ∧
    loadMotion decimalStod true { freshReader with channels := 3 }
        ["Frames: 5", "Frame Time: 0.0333", "1.0 2.0 3.0"] =
      (true, { freshReader with channels := 3, frames := 5, frameTime := (333, 4),
                                motion := [[(10, 1), (20, 1), (30, 1)]] }, []) :=
  ⟨rfl,
    ((loadMotion_success_rows decimalStod true { freshReader with channels := 3 }).1
      ["Frames: 1", "Frame Time: 0.0333", "1.0 2.0 3.0"] []
      { freshReader with channels := 3, frames := 1, frameTime := (333, 4),
                         motion := [[(10, 1), (20, 1), (30, 1)]] } rfl).1,
    ⟨"5", rfl, rfl⟩, ⟨"0.0333", rfl, rfl⟩,
    List.Forall₂.cons ⟨rfl, rfl⟩ List.Forall₂.nil,
    (loadMotion_success_rows decimalStod true { freshReader with channels := 3 }).2
      "Frames: 5" "Frame Time: 0.0333" ["1.0 2.0 3.0"] [[(10, 1), (20, 1), (30, 1)]] 5
      (333, 4) ⟨"5", rfl, rfl⟩ ⟨"0.0333", rfl, rfl⟩
      (List.Forall₂.cons ⟨rfl, rfl⟩ List.Forall₂.nil)⟩

/-- C7, the code at the failing input: the only hierarchy line is a closing brace, no
ROOT line occurs, and `loadFile` returns true with `loaded()` true and a forest whose
single entry is null. -/
theorem loadFile_stray_brace :
    (∀ l ∈ strayBrace, firstWord l ≠ some "ROOT") ∧
    ∃ r, loadFile decimalStod true (some strayBrace) freshReader = Except.ok (true, r) ∧
      r.loaded = true ∧ r.root = [none] :=
  ⟨by decide, _, rfl, rfl, rfl⟩

/-- C9: a line `ROOT <name>` or `JOINT <name>` that the Hierarchy Parser accepts starts a
Segment named `<name>`, the token that follows the keyword, with no channel and no child
yet.  The parser hands the constructor of `Segment` the whole trimmed line (a ROOT line
is coloured besides); the name is the one the class, modelled from the specification,
gives the Segment built from that line.  A ROOT line is accepted when the stack is empty
and a JOINT line when a current Segment exists. -/
theorem node_line_name (st : HState D) (line keyword name : String) (rest more : List String)
    (hkw : keyword = "ROOT" ∨ keyword = "JOINT")
    (hline : split (trim line) ' ' = keyword :: name :: more) :
    (∀ st1, hierarchyStep stod st line rest = Step.next st1 →
      ∃ seg, st1.curr = some seg ∧ seg.name = name ∧
        (seg = Segment.ofName (trim line) ∨
          seg = (Segment.ofName (trim line)).setColor (1, 1, 0)) ∧
        seg.channels = [] ∧ seg.children = []) ∧
    ((keyword = "ROOT" ∧ st.stack = [] ∨ keyword = "JOINT" ∧ st.curr ≠ none) →
      ∃ st1, hierarchyStep stod st line rest = Step.next st1) := by
  have hw := firstWord_of_split _ _ _ hline
  have hname : Segment.nameOf (trim line) = name := nameOf_node _ _ _ _ hline hkw
  constructor
  · intro st1 hstep
    rcases hkw with hk | hk
    · subst hk
      cases hs : st.stack with
      | nil =>
        rw [step_root stod st line rest hw hs] at hstep
        simp only [Step.next.injEq] at hstep
        subst hstep
        exact ⟨_, rfl, hname, Or.inr rfl, rfl, rfl⟩
      | cons p ps =>
        simp [hierarchyStep, hline, hs] at hstep
    · subst hk
      cases hc : st.curr with
      | none =>
        simp [hierarchyStep, hline, hc] at hstep
      | some c =>
        rw [step_joint stod st line rest c hw hc] at hstep
        simp only [Step.next.injEq] at hstep
        subst hstep
        exact ⟨_, rfl, hname, Or.inl rfl, rfl, rfl⟩
  · intro hacc
    rcases hacc with ⟨hk, hs⟩ | ⟨hk, hc⟩
    · subst hk
      exact ⟨_, step_root stod st line rest hw hs⟩
    · subst hk
      cases hcur : st.curr with
      | none => exact absurd hcur hc
      | some c => exact ⟨_, step_joint stod st line rest c hw hcur⟩

/-- Witness of C9: the line `ROOT Hips` of Scenario 1 starts a Segment named "Hips", and
the root of the forest loaded from Scenario 1 has that name. -/
theorem node_line_name_witness :
    split (trim "ROOT Hips") ' ' = ["ROOT", "Hips"] ∧
    (∃ seg : Segment (Nat × Nat),
      some ((Segment.ofName "ROOT Hips").setColor (1, 1, 0)) = some seg ∧ seg.name = "Hips" ∧
      (seg = Segment.ofName (trim "ROOT Hips") ∨
        seg = (Segment.ofName (trim "ROOT Hips")).setColor (1, 1, 0)) ∧
      seg.channels = [] ∧ seg.children = []) ∧
    ∃ r seg, loadFile decimalStod true (some scenario1) freshReader = Except.ok (true, r) ∧
      r.root = [some seg] ∧ seg.name = "Hips" :=
  ⟨by decide,
    (node_line_name decimalStod ⟨freshReader, [], none, [], false⟩ "ROOT Hips" "ROOT" "Hips"
      [] [] (Or.inl rfl) (by decide)).1
      ⟨freshReader, [], some ((Segment.ofName "ROOT Hips").setColor (1, 1, 0)), [], true⟩ rfl,
    ⟨_, _, rfl, rfl, rfl⟩⟩

/-- C10: a line `CHANNELS n c1 .. cn` whose `n` names are all recognised, met while a
current Segment exists, appends the kinds of `c1 .. cn` to the channel sequence of the
current Segment, in that order and with repetitions kept, after the channels already
there, and adds `n` to the running channel total (an `int` addition); nothing else
changes and the loop goes on. -/
theorem channels_line_appends (st : HState D) (line : String) (rest : List String)
    (count : String) (names : List String) (kinds : List Channel) (seg : Segment D)
    (hline : split (trim line) ' ' = "CHANNELS" :: count :: names)
    (hcount : stoi count = some (names.length : Int))
    (hkinds : List.Forall₂ (fun w ch => channelOfName w = some ch) names kinds)
    (hcurr : st.curr = some seg) :
    hierarchyStep stod st line rest =
      Step.next { st with
        curr := some { seg with channels := seg.channels ++ kinds },
        reader := { st.reader with
          channels := wrapInt (st.reader.channels + (names.length : Int)) } } := by
  have hlen : names.length = kinds.length := hkinds.length_eq
  have hstep := step_channels stod st line rest kinds seg ⟨count, names, hline, hcount, hkinds⟩
    hcurr
  rw [hstep, hlen]

/-- Witness of C10: a line that names `Xposition` twice, read while the current Segment
already has a channel. -/
theorem channels_line_appends_witness :
    hierarchyStep decimalStod
        ⟨{ freshReader with channels := 1 }, [],
          some ((Segment.ofName "ROOT Hips").addChannel Channel.Zrotation), [], false⟩
        "CHANNELS 3 Xposition Yrotation Xposition" [] =
      Step.next
        ⟨{ freshReader with channels := 4 }, [],
          some { name := "Hips", color := none, offset := none,
                 channels := [Channel.Zrotation, Channel.Xposition, Channel.Yrotation,
                   Channel.Xposition],
                 children := [] },
          [], false⟩ :=
  channels_line_appends decimalStod
    ⟨{ freshReader with channels := 1 }, [],
      some ((Segment.ofName "ROOT Hips").addChannel Channel.Zrotation), [], false⟩
    "CHANNELS 3 Xposition Yrotation Xposition" [] "3" ["Xposition", "Yrotation", "Xposition"]
    [Channel.Xposition, Channel.Yrotation, Channel.Xposition]
    ((Segment.ofName "ROOT Hips").addChannel Channel.Zrotation)
    (by decide) (by decide)
    (List.Forall₂.cons (by decide) (List.Forall₂.cons (by decide)
      (List.Forall₂.cons (by decide) List.Forall₂.nil)))
    rfl

end Claims

/-! ## Row widths and the channel count -/

section Rows

variable {D : Type} (stod : String → Option D) (lineEnd : Bool)

theorem acceptsRow_width (channels : Int) (good : List String) (rows : List (List D))
    (h : List.Forall₂ (acceptsRow stod channels) good rows) :
    ∀ row ∈ rows, (row.length : Int) = channels := by
  induction h with
  | nil => simp
  | cons hrow _ ih =>
    intro row hmem
    rcases List.mem_cons.mp hmem with hr | hr
    · rw [hr]
      exact hrow.2
    · exact ih row hr

theorem noHierarchyAfterMotion_suffix (s : List String) :
    ∀ s1, s1 <:+ s → noHierarchyAfterMotion s → noHierarchyAfterMotion s1 := by
  induction s with
  | nil =>
    intro s1 hs h
    rw [List.suffix_nil.mp hs]
    exact h
  | cons l ls ih =>
    intro s1 hs h
    rcases List.suffix_cons_iff.mp hs with heq | hsuf
    · rw [heq]
      exact h
    · exact ih s1 hsuf h.2

/-- The loop of `loadFile` keeps every row of the motion table as wide as the channel
count, as long as no HIERARCHY line is dispatched once rows are there. -/
theorem loadFileLoop_rows (fuel : Nat) :
    ∀ (s : List String) (r r1 : BVHReader D),
      loadFileLoop stod lineEnd fuel s r = Except.ok r1 →
      ((r.motion = [] ∧ noHierarchyAfterMotion s) ∨
        ((∀ row ∈ r.motion, (row.length : Int) = r.channels) ∧
          ∀ l ∈ s, trim l ≠ "HIERARCHY")) →
      ∀ row ∈ r1.motion, (row.length : Int) = r1.channels := by
  induction fuel with
  | zero =>
    intro s r r1 h hinv
    cases s with
    | nil =>
      simp only [loadFileLoop, Except.ok.injEq] at h
      subst h
      rcases hinv with ⟨hm, _⟩ | ⟨hw, _⟩
      · simp [hm]
      · exact hw
    | cons l ls => simp [loadFileLoop] at h
  | succ n ih =>
    intro s r r1 h hinv
    cases s with
    | nil =>
      simp only [loadFileLoop, Except.ok.injEq] at h
      subst h
      rcases hinv with ⟨hm, _⟩ | ⟨hw, _⟩
      · simp [hm]
      · exact hw
    | cons l ls =>
      by_cases hH : trim l = "HIERARCHY"
      · rcases hinv with ⟨hm, hno⟩ | ⟨_, hnoH⟩
        · cases hh : loadHierarchy stod r ls with
          | error e =>
            rw [loadFileLoop_hierarchy_undefined stod lineEnd n l ls r e hH hh] at h
            cases h
          | ok res =>
            obtain ⟨b, r2, s2⟩ := res
            rw [loadFileLoop_hierarchy stod lineEnd n l ls r r2 b s2 hH hh] at h
            obtain ⟨hmot, hsuf⟩ := loadHierarchy_keeps stod r r2 ls s2 b hh
            exact ih s2 r2 r1 h
              (Or.inl ⟨hmot.trans hm, noHierarchyAfterMotion_suffix ls s2 hsuf hno.2⟩)
        · exact absurd hH (hnoH l (List.mem_cons_self _ _))
      · by_cases hM : trim l = "MOTION"
        · have hrest : ∀ x ∈ ls, trim x ≠ "HIERARCHY" := by
            rcases hinv with ⟨_, hno⟩ | ⟨_, hnoH⟩
            · exact hno.1 hM
            · exact fun x hx => hnoH x (List.mem_cons_of_mem _ hx)
          have hwidth : ∀ row ∈ r.motion, (row.length : Int) = r.channels := by
            rcases hinv with ⟨hm, _⟩ | ⟨hw, _⟩
            · simp [hm]
            · exact hw
          rcases hres : loadMotion stod lineEnd r ls with ⟨b, r2, s2⟩
          rw [loadFileLoop_motion stod lineEnd n l ls r r2 b s2 hM hres] at h
          obtain ⟨headers, good, failing, rows, frames, frameTime, hs, _, _, hgood, hr2, _⟩ :=
            loadMotion_spec stod lineEnd r r2 ls s2 b hres
          have hnew := acceptsRow_width stod r.channels good rows hgood
          refine ih s2 _ r1 h (Or.inr ⟨?_, ?_⟩)
          · intro row hrow
            have hrow2 : row ∈ r.motion ++ rows := by
              cases b <;> simpa [hr2] using hrow
            have hch : (if b = true then r2
                else { r2 with cout := r2.cout ++ [motionFailureMessage] }).channels =
                r.channels := by
              cases b <;> simp [hr2]
            rw [hch]
            rcases List.mem_append.mp hrow2 with hmem | hmem
            · exact hwidth row hmem
            · exact hnew row hmem
          · intro x hx
            apply hrest x
            rw [hs]
            simp [hx]
        · rw [loadFileLoop_other stod lineEnd n l ls r (by unfold isMarker; tauto)] at h
          refine ih ls r r1 h ?_
          rcases hinv with ⟨hm, hno⟩ | ⟨hw, hnoH⟩
          · exact Or.inl ⟨hm, hno.2⟩
          · exact Or.inr ⟨hw, fun x hx => hnoH x (List.mem_cons_of_mem _ hx)⟩

/-- C6, counterexample: the motion block fails on its second row and a HIERARCHY line
follows; `loadFile` returns true, the motion table holds a row of one value and
`getChannels()` is 0. -/
theorem loadFile_row_width_counterexample :
    ∃ r, loadFile decimalStod true (some hierarchyAfterMotion) freshReader = Except.ok (true, r) ∧
      r.getMotion = [[(10, 1)]] ∧ r.getChannels = 0 ∧
      ¬ ∀ row ∈ r.getMotion, (row.length : Int) = r.getChannels :=
  ⟨_, rfl, rfl, rfl, by decide⟩

/-- C6 as amended: for an input in which no HIERARCHY line comes after a MOTION line,
loaded by a fresh reader with result true, every row of the motion table has as many
values as `getChannels()` returns.  (Rows are checked against the count of the moment;
a HIERARCHY line dispatched later sets the count anew and leaves the rows.) -/
theorem loadFile_row_width (lines : List String) (c0 f0 : Int) (t0 : D) (r : BVHReader D)
    (hno : noHierarchyAfterMotion lines)
    (h : loadFile stod lineEnd (some lines) (BVHReader.init c0 f0 t0) = Except.ok (true, r)) :
    ∀ row ∈ r.getMotion, (row.length : Int) = r.getChannels := by
  unfold loadFile at h
  simp only at h
  cases hloop : loadFileLoop stod lineEnd lines.length lines (BVHReader.init c0 f0 t0) with
  | error e =>
    rw [hloop] at h
    cases h
  | ok r1 =>
    rw [hloop] at h
    have hrows := loadFileLoop_rows stod lineEnd lines.length lines _ r1 hloop (Or.inl ⟨rfl, hno⟩)
    simp only at h
    split at h
    · simp at h
    · simp only [Except.ok.injEq, Prod.mk.injEq, true_and] at h
      subst h
      exact hrows

/-- Witness of C6 as amended: Scenario 1. -/
theorem loadFile_row_width_witness :
    noHierarchyAfterMotion scenario1 ∧
    ∀ row ∈ [[((10, 1) : Nat × Nat), (20, 1), (30, 1)]], (row.length : Int) = 3 :=
  ⟨by decide,
    loadFile_row_width decimalStod true scenario1 0 0 (0, 0)
      { isLoaded := true,
        root := [some { name := "Hips", color := some (1, 1, 0),
                        offset := some ((0, 0), (0, 0), (0, 0)),
                        channels := [Channel.Xposition, Channel.Yposition, Channel.Zposition],
                        children := [] }],
        channels := 3, motion := [[(10, 1), (20, 1), (30, 1)]], frames := 1,
        frameTime := (333, 4), cout := [] }
      (by decide) rfl⟩

end Rows

/-! ## A failing motion block, and the channel total of a declared forest -/

section Totals

variable {D : Type} (stod : String → Option D) (lineEnd : Bool)

/-- The reader after `loadFile`, whatever it returns, holds the forest, the channel count
and the motion table the loop ended with. -/
theorem loadFile_of_loop_fields (lines : List String) (r r1 : BVHReader D)
    (h : loadFileLoop stod lineEnd lines.length lines r = Except.ok r1) :
    ∃ b r2, loadFile stod lineEnd (some lines) r = Except.ok (b, r2) ∧ r2.root = r1.root ∧
      r2.channels = r1.channels ∧ r2.motion = r1.motion := by
  by_cases h0 : r1.root.length = 0
  · exact ⟨false, r1, by simp [loadFile, h, h0], rfl, rfl, rfl⟩
  · exact ⟨true, { r1 with isLoaded := true }, by simp [loadFile, h, h0], rfl, rfl, rfl⟩

mutual
/-- The pre-order sum of channel-list lengths of the Segment of a declared node. -/
theorem preorder_channelCount : ∀ (isRoot : Bool) (d : Decl D),
    ((Segment.preorder (Decl.segment isRoot d)).map (fun s => s.channels.length)).sum =
      Decl.channelCount d
  | isRoot, Decl.node head openLine offsetLine channelsLine closeLine offset channels children => by
    simp only [Decl.segment, Segment.preorder, List.map_cons, List.sum_cons,
      Decl.channelCount]
    rw [preorderList_channelCount children]
/-- The pre-order sum of channel-list lengths of the Segments of declared children. -/
theorem preorderList_channelCount : ∀ (ds : List (Decl D)),
    ((Segment.preorderList (Decl.segments ds)).map (fun s => s.channels.length)).sum =
      Decl.channelCountList ds
  | [] => by simp [Decl.segments, Segment.preorderList, Decl.channelCountList]
  | d :: ds => by
    simp only [Decl.segments, Segment.preorderList, List.map_append, List.sum_append,
      Decl.channelCountList]
    rw [preorder_channelCount false d, preorderList_channelCount ds]
end

/-- The pre-order channel total of the forest of a declared forest. -/
theorem forestChannelTotal_declared (forest : List (Decl D)) :
    forestChannelTotal (forest.map (fun d => some (Decl.segment true d))) =
      Decl.channelCountList forest := by
  unfold forestChannelTotal
  induction forest with
  | nil => simp [Segment.preorderList, Decl.channelCountList]
  | cons d ds ih =>
    simp only [List.map_cons, List.filterMap_cons, id_eq, Segment.preorderList,
      List.map_append, List.sum_append, Decl.channelCountList]
    rw [preorder_channelCount true d, ih]

/-- C3, counterexample: the input ends inside its second root block; `loadFile` returns
true, the forest holds the first root with its one channel, and `getChannels()` is 2. -/
theorem loadFile_channel_total_counterexample :
    ∃ r, loadFile decimalStod true (some unclosedSecondRoot) freshReader = Except.ok (true, r) ∧
      forestChannelTotal r.root = 1 ∧ r.getChannels = 2 ∧
      (forestChannelTotal r.root : Int) ≠ r.getChannels :=
  ⟨_, rfl, rfl, rfl, by decide⟩

/-- C3 as amended: for an input made of the HIERARCHY line, the text that declares a forest
(every block closed, every CHANNELS line with as many names as its count; the total has to
fit an `int`) and then the end of input or a MOTION line followed by lines none of which
is a marker, loaded by a fresh reader: the sum of the channel-list lengths over a
pre-order traversal of the forest is the number `getChannels()` returns, and every row
the Motion Parser has put in the motion table has that many values. -/
theorem loadFile_channel_total (hierarchyLine : String) (forest : List (Decl D))
    (tail : List String) (c0 f0 : Int) (t0 : D)
    (hH : trim hierarchyLine = "HIERARCHY")
    (hwf : ∀ d ∈ forest, Decl.WellFormed stod true d)
    (hsize : (Decl.channelCountList forest : Int) ≤ INT_MAX)
    (htail : tail = [] ∨ ∃ motionLine block, tail = motionLine :: block ∧
      trim motionLine = "MOTION" ∧ ∀ l ∈ block, ¬ isMarker l) :
    ∃ b r, loadFile stod lineEnd (some (hierarchyLine :: (Decl.textList forest ++ tail)))
        (BVHReader.init c0 f0 t0) = Except.ok (b, r) ∧
      (forestChannelTotal r.root : Int) = r.getChannels ∧
      ∀ row ∈ r.getMotion, (row.length : Int) = r.getChannels := by
  have htail2 : tail = [] ∨ ∃ m t, tail = m :: t ∧ firstWord m = some "MOTION" := by
    rcases htail with h | ⟨m, t, h, hm, _⟩
    · exact Or.inl h
    · refine Or.inr ⟨m, t, h, ?_⟩
      unfold firstWord
      rw [hm]
      decide
  have hzero : INT_MIN ≤ ((Decl.channelCountList forest : Nat) : Int) := by
    unfold INT_MIN
    omega
  have hhier := loadHierarchy_forest stod forest hwf tail htail2 (BVHReader.init c0 f0 t0)
  rw [wrapInt_of_int _ hzero hsize] at hhier
  have htotal := forestChannelTotal_declared forest
  rcases htail with h | ⟨motionLine, block, h, hM, hblock⟩
  · subst h
    have hloop : loadFileLoop stod lineEnd (hierarchyLine :: (Decl.textList forest ++ [])).length
        (hierarchyLine :: (Decl.textList forest ++ [])) (BVHReader.init c0 f0 t0) =
        Except.ok { BVHReader.init c0 f0 t0 with
          root := (BVHReader.init c0 f0 t0).root ++
            forest.map (fun d => some (Decl.segment true d)),
          channels := (Decl.channelCountList forest : Int) } := by
      rw [List.length_cons, loadFileLoop_hierarchy stod lineEnd _ _ _ _ _ _ _ hH hhier, loadFileLoop]
    obtain ⟨b, r2, hload, hr, hc, hm⟩ := loadFile_of_loop_fields stod lineEnd _ _ _ hloop
    refine ⟨b, r2, hload, ?_, ?_⟩
    · simp only [BVHReader.getChannels, hr, hc, BVHReader.init, List.nil_append, htotal]
    · simp [BVHReader.getMotion, hm, BVHReader.init]
  · subst h
    rcases hres : loadMotion stod lineEnd
      { BVHReader.init c0 f0 t0 with
          root := (BVHReader.init c0 f0 t0).root ++
            forest.map (fun d => some (Decl.segment true d)),
          channels := (Decl.channelCountList forest : Int) } block with ⟨b1, r2, s2⟩
    obtain ⟨headers, good, failing, rows, frames, frameTime, hs, _, _, hgood, hr2, _⟩ :=
      loadMotion_spec stod lineEnd _ r2 block s2 b1 hres
    have hwidth := acceptsRow_width stod _ good rows hgood
    have hs2 : ∀ l ∈ s2, ¬ isMarker l := by
      intro l hl
      apply hblock l
      rw [hs]
      simp [hl]
    have hlen : s2.length ≤ (Decl.textList forest).length + block.length := by
      have : block.length = headers.length + (good.length + (failing.length + s2.length)) := by
        rw [hs]
        simp
      omega
    have hloop : loadFileLoop stod lineEnd
        (hierarchyLine :: (Decl.textList forest ++ motionLine :: block)).length
        (hierarchyLine :: (Decl.textList forest ++ motionLine :: block))
        (BVHReader.init c0 f0 t0) =
        Except.ok (if b1 = true then r2
          else { r2 with cout := r2.cout ++ [motionFailureMessage] }) := by
      rw [List.length_cons, loadFileLoop_hierarchy stod lineEnd _ _ _ _ _ _ _ hH hhier,
        List.length_append, List.length_cons, ← Nat.add_assoc,
        loadFileLoop_motion stod lineEnd _ _ _ _ _ _ _ hM hres,
        loadFileLoop_skip stod lineEnd s2 _ _ hlen hs2]
    obtain ⟨b, r3, hload, hr, hc, hm⟩ := loadFile_of_loop_fields stod lineEnd _ _ _ hloop
    have hr' : r3.root = forest.map (fun d => some (Decl.segment true d)) := by
      rw [hr]
      cases b1 <;> simp [hr2, BVHReader.init]
    have hc' : r3.channels = (Decl.channelCountList forest : Int) := by
      rw [hc]
      cases b1 <;> simp [hr2]
    have hm' : r3.motion = rows := by
      rw [hm]
      cases b1 <;> simp [hr2, BVHReader.init]
    refine ⟨b, r3, hload, ?_, ?_⟩
    · simp only [BVHReader.getChannels, hr', hc', htotal]
    · intro row hrow
      simp only [BVHReader.getMotion, hm'] at hrow
      simp only [BVHReader.getChannels, hc']
      exact hwidth row hrow

/-- Witness of C3 as amended: the two roots of Scenario 5, with five channels in all,
followed by a motion block with one row of five values. -/
theorem loadFile_channel_total_witness :
    ∃ b r, loadFile decimalStod true
        (some ("HIERARCHY" :: (Decl.textList twoRoots ++
          ["MOTION", "Frames: 1", "Frame Time: 0.0333", "1 2 3 4 5"])))
        (BVHReader.init 0 0 (0, 0)) = Except.ok (b, r) ∧
      (forestChannelTotal r.root : Int) = r.getChannels ∧
      ∀ row ∈ r.getMotion, (row.length : Int) = r.getChannels :=
  loadFile_channel_total decimalStod true "HIERARCHY" twoRoots
    ["MOTION", "Frames: 1", "Frame Time: 0.0333", "1 2 3 4 5"] 0 0 (0, 0) (by decide)
    twoRoots_wellFormed (by decide)
    (Or.inr ⟨"MOTION", ["Frames: 1", "Frame Time: 0.0333", "1 2 3 4 5"], rfl, by decide,
      by decide⟩)

/-- C8, counterexample: the motion block fails on a row of 2 values, and a second MOTION
line with a well-formed block follows; `loadFile` returns true and the motion table holds
the row accepted before the failing line and the row of the second block. -/
theorem loadFile_motion_failure_counterexample :
    ∃ r, loadFile decimalStod true (some motionAfterFailure) freshReader = Except.ok (true, r) ∧
      r.loaded = true ∧
      r.getMotion = [[(10, 1), (20, 1), (30, 1)], [(40, 1), (50, 1), (60, 1)]] ∧
      r.getMotion ≠ [[(10, 1), (20, 1), (30, 1)]] :=
  ⟨_, rfl, rfl, rfl, by decide⟩

/-- C8 as amended: when the Hierarchy Parser has produced at least one root and the loop of
`loadFile` then comes to a MOTION line (at once, the parser having stopped on that line,
or after passing over lines that are not markers), and the Motion Parser fails on the
block after it, then, provided no line after the failing one is a marker (a line that
reads HIERARCHY or MOTION is dispatched again), `loadFile` of a fresh reader returns true
with `loaded()` true, the failure is reported, the forest is the one the Hierarchy Parser
produced and the motion table is made of the rows accepted before the failing line. -/
theorem loadFile_motion_failure (hierarchyLine motionLine : String)
    (rest skipped block after : List String) (c0 f0 : Int) (t0 : D) (b : Bool)
    (r1 r2 : BVHReader D)
    (hH : trim hierarchyLine = "HIERARCHY")
    (hhier : loadHierarchy stod (BVHReader.init c0 f0 t0) rest =
      Except.ok (b, r1, skipped ++ motionLine :: block))
    (hskipped : ∀ l ∈ skipped, ¬ isMarker l)
    (hroot : r1.root ≠ [])
    (hM : trim motionLine = "MOTION")
    (hfail : loadMotion stod lineEnd r1 block = (false, r2, after))
    (hafter : ∀ l ∈ after, ¬ isMarker l) :
    loadFile stod lineEnd (some (hierarchyLine :: rest)) (BVHReader.init c0 f0 t0) =
      Except.ok (true,
        { r2 with isLoaded := true, cout := r2.cout ++ [motionFailureMessage] }) ∧
    r2.root = r1.root ∧
    ∃ (headers good failing : List String) (rows : List (List D)),
      block = headers ++ (good ++ (failing ++ after)) ∧ headers.length ≤ 2 ∧
      failing.length ≤ 1 ∧ List.Forall₂ (acceptsRow stod r1.channels) good rows ∧
      r2.motion = rows := by
  obtain ⟨headers, good, failing, rows, frames, frameTime, hs, hh, hf, hgood, hr2, _⟩ :=
    loadMotion_spec stod lineEnd r1 r2 block after false hfail
  obtain ⟨hmot, hsuf⟩ := loadHierarchy_keeps stod _ r1 _ _ b hhier
  have hblock : block.length =
      headers.length + (good.length + (failing.length + after.length)) := by
    rw [hs]
    simp
  have hrest : (skipped ++ motionLine :: block).length ≤ rest.length := hsuf.length_le
  simp only [List.length_append, List.length_cons] at hrest
  obtain ⟨k, hk⟩ : ∃ k, rest.length = skipped.length + ((k + block.length) + 1) :=
    ⟨rest.length - (skipped.length + (block.length + 1)), by omega⟩
  have hloop : loadFileLoop stod lineEnd (hierarchyLine :: rest).length (hierarchyLine :: rest)
      (BVHReader.init c0 f0 t0) =
      Except.ok { r2 with cout := r2.cout ++ [motionFailureMessage] } := by
    rw [List.length_cons, loadFileLoop_hierarchy stod lineEnd _ _ _ _ _ _ _ hH hhier, hk,
      loadFileLoop_skip_run stod lineEnd skipped _ _ _ hskipped,
      loadFileLoop_motion stod lineEnd _ _ _ _ _ _ _ hM hfail,
      loadFileLoop_skip stod lineEnd after _ _ (by omega) hafter]
    simp
  have hroot2 : r2.root = r1.root := by rw [hr2]
  refine ⟨?_, hroot2, headers, good, failing, rows, hs, hh, hf, hgood, ?_⟩
  · rw [loadFile_of_loop stod lineEnd _ _ _ hloop (by simpa [hroot2] using hroot)]
  · rw [hr2]
    simp [hmot, BVHReader.init]

/-- Witness of C8 as amended: Scenario 3, a row of 2 values with channel count 3. -/
theorem loadFile_motion_failure_witness :
    loadFile decimalStod true (some scenario3) (BVHReader.init 0 0 (0, 0)) =
      Except.ok (true,
        { isLoaded := true,
          root := [some { name := "Hips", color := some (1, 1, 0),
                          offset := some ((0, 0), (0, 0), (0, 0)),
                          channels := [Channel.Xposition, Channel.Yposition, Channel.Zposition],
                          children := [] }],
          channels := 3, motion := [[(10, 1), (20, 1), (30, 1)]], frames := 3,
          frameTime := (333, 4), cout := [motionFailureMessage] }) :=
  (loadFile_motion_failure decimalStod true "HIERARCHY" "MOTION" scenario3.tail []
    ["Frames: 3", "Frame Time: 0.0333", "1.0 2.0 3.0", "1.0 2.0", "4.0 5.0 6.0"]
    ["4.0 5.0 6.0"] 0 0 (0, 0) true
    { isLoaded := false,
      root := [some { name := "Hips", color := some (1, 1, 0),
                      offset := some ((0, 0), (0, 0), (0, 0)),
                      channels := [Channel.Xposition, Channel.Yposition, Channel.Zposition],
                      children := [] }],
      channels := 3, motion := [], frames := 0, frameTime := (0, 0), cout := [] }
    { isLoaded := false,
      root := [some { name := "Hips", color := some (1, 1, 0),
                      offset := some ((0, 0), (0, 0), (0, 0)),
                      channels := [Channel.Xposition, Channel.Yposition, Channel.Zposition],
                      children := [] }],
      channels := 3, motion := [[(10, 1), (20, 1), (30, 1)]], frames := 3,
      frameTime := (333, 4), cout := [] }
    (by decide) rfl (by simp) (by simp) (by decide) rfl (by decide)).1

end Totals

/-! ## Lines the hierarchy parser accepts, refuses or cannot read -/

section Lines

variable {D : Type} (stod : String → Option D) (lineEnd : Bool)

/-- A line without a token: `words[0]` is read past the end of `words`. -/
theorem step_no_token (st : HState D) (line : String) (rest : List String)
    (h : split (trim line) ' ' = []) :
    hierarchyStep stod st line rest = Step.undefined := by
  simp [hierarchyStep, h]

/-- A line whose first token is none of the eight keywords is passed over. -/
theorem step_other (st : HState D) (line w : String) (rest : List String)
    (h : firstWord line = some w)
    (hw : w ≠ "ROOT" ∧ w ≠ "JOINT" ∧ w ≠ "End" ∧ w ≠ "\x7b" ∧ w ≠ "OFFSET" ∧
      w ≠ "CHANNELS" ∧ w ≠ "\x7d" ∧ w ≠ "MOTION") :
    hierarchyStep stod st line rest = Step.next st := by
  unfold firstWord at h
  obtain ⟨h1, h2, h3, h4, h5, h6, h7, h8⟩ := hw
  simp [hierarchyStep, h, h1, h2, h3, h4, h5, h6, h7, h8]

/-- C11, counterexample: an End Site block that holds the line `CHANNELS 1 Xposition`;
`loadFile` returns true and the End Site of the forest has the sentinel name and one
channel. -/
theorem endSite_channels_counterexample :
    ∃ r root child, loadFile decimalStod true (some endSiteWithChannels) freshReader =
        Except.ok (true, r) ∧
      r.root = [some root] ∧ root.children = [child] ∧ child.name = "End Site" ∧
      child.channels = [Channel.Xposition] ∧ child.channels ≠ [] :=
  ⟨_, _, _, rfl, rfl, rfl, rfl, rfl, by decide⟩

/-- C11 as amended: a line whose first token is `End`, whatever follows that token, read
while a current Segment exists, starts a Segment with the sentinel name "End Site"; its
channel sequence is what the `CHANNELS` line of its block declares (the line is taken as
in the block of any node) and is empty when the block has no such line.  The End Site is
attached, under that name and with those channels, as the last child of the Segment that
was current. -/
theorem endSite_block (head openLine offsetLine closeLine : String)
    (channelsLine : Option String) (offset : D × D × D) (channels : List Channel)
    (rest : List String) (r : BVHReader D) (stack : List (Segment D)) (p : Segment D)
    (old : List String) (ns : Bool)
    (hhead : firstWord head = some "End")
    (hopen : firstWord openLine = some "\x7b")
    (hoff : declaresOffset stod offsetLine offset)
    (hch : match channelsLine with
      | none => channels = []
      | some line => declaresChannels line channels)
    (hclose : firstWord closeLine = some "\x7d")
    (hlo : INT_MIN ≤ r.channels) (hhi : r.channels ≤ INT_MAX) :
    hierarchyLoop stod
        (head :: openLine :: offsetLine :: (channelsLine.toList ++ closeLine :: rest))
        ⟨r, stack, some p, old, ns⟩ =
      hierarchyLoop stod rest
        ⟨{ r with channels := wrapInt (r.channels + (channels.length : Int)) }, stack,
          some (p.addSub { name := "End Site", color := none, offset := some offset,
                           channels := channels, children := [] }),
          old, false⟩ := by
  have hwf : Decl.WellFormed stod false
      (Decl.node head openLine offsetLine channelsLine closeLine offset channels []) := by
    simp only [Decl.WellFormed, Bool.false_eq_true, if_false, Decl.WellFormedList]
    exact ⟨Or.inr ⟨hhead, trivial⟩, hopen, hoff, hch, hclose, trivial⟩
  have hblock := child_block stod _ hwf rest r stack p old ns hlo hhi
  simp only [Decl.text, Decl.textList, List.nil_append, List.cons_append, List.append_assoc,
    List.singleton_append, Decl.channelCount, Decl.channelCountList, Nat.add_zero,
    Decl.segment, Decl.segments, hhead, if_true] at hblock
  simpa using hblock

/-- Witness of C11 as amended: the End Site block of the counterexample, and the same
block without its `CHANNELS` line. -/
theorem endSite_block_witness :
    hierarchyLoop decimalStod
        ["End Site", "\x7b", "OFFSET 0 1 0", "CHANNELS 1 Xposition", "\x7d"]
        ⟨freshReader, [], some (Segment.ofName "ROOT Hips"), [], false⟩ =
      hierarchyLoop decimalStod []
        ⟨{ freshReader with channels := 1 }, [],
          some ((Segment.ofName "ROOT Hips").addSub
            { name := "End Site", color := none, offset := some ((0, 0), (1, 0), (0, 0)),
              channels := [Channel.Xposition], children := [] }),
          [], false⟩ ∧
    hierarchyLoop decimalStod ["End Site", "\x7b", "OFFSET 0 1 0", "\x7d"]
        ⟨freshReader, [], some (Segment.ofName "ROOT Hips"), [], false⟩ =
      hierarchyLoop decimalStod []
        ⟨{ freshReader with channels := 0 }, [],
          some ((Segment.ofName "ROOT Hips").addSub
            { name := "End Site", color := none, offset := some ((0, 0), (1, 0), (0, 0)),
              channels := [], children := [] }),
          [], false⟩ :=
  ⟨endSite_block decimalStod "End Site" "\x7b" "OFFSET 0 1 0" "\x7d"
      (some "CHANNELS 1 Xposition") ((0, 0), (1, 0), (0, 0)) [Channel.Xposition] []
      freshReader [] (Segment.ofName "ROOT Hips") [] false (by decide) (by decide)
      ⟨"0", "1", "0", [], by decide, by decide, by decide, by decide⟩
      ⟨"1", ["Xposition"], by decide, by decide,
        List.Forall₂.cons (by decide) List.Forall₂.nil⟩
      (by decide) (by decide) (by decide),
    endSite_block decimalStod "End Site" "\x7b" "OFFSET 0 1 0" "\x7d"
      none ((0, 0), (1, 0), (0, 0)) [] []
      freshReader [] (Segment.ofName "ROOT Hips") [] false (by decide) (by decide)
      ⟨"0", "1", "0", [], by decide, by decide, by decide, by decide⟩
      rfl (by decide) (by decide) (by decide)⟩

end Lines

/-! ## Checks the hierarchy parser makes and checks it does not make -/

section Checks

variable {D : Type} (stod : String → Option D) (lineEnd : Bool)

/-- C13, counterexample: the line `CHANNELS 1 Xposition Yposition` declares one channel and
names two; the Hierarchy Parser takes the first name and goes on, and `loadFile` returns
true with a root of one channel. -/
theorem channels_count_counterexample :
    (∃ st, hierarchyStep decimalStod
        ⟨freshReader, [], some (Segment.ofName "ROOT Hips"), [], false⟩
        "CHANNELS 1 Xposition Yposition" [] = Step.next st ∧
      st.curr = some ((Segment.ofName "ROOT Hips").addChannel Channel.Xposition)) ∧
    ∃ r root, loadFile decimalStod true (some moreNamesThanCount) freshReader =
        Except.ok (true, r) ∧
      r.root = [some root] ∧ root.channels = [Channel.Xposition] ∧ r.getChannels = 1 :=
  ⟨⟨_, rfl, rfl⟩, ⟨_, _, rfl, rfl, rfl, rfl⟩⟩

/-- C13 as amended: on a line `CHANNELS n c1 ..` the Hierarchy Parser signals failure when
`n` is not read as a number by `stoi`.  The names after the `n`-th are not looked at: a line
with more names than `n`, its first `n` names recognised, read while a current Segment
exists, appends the kinds of those `n` names and adds `n` to the running total. -/
theorem channels_count (st : HState D) (line : String) (rest : List String)
    (count : String) (names : List String)
    (hline : split (trim line) ' ' = "CHANNELS" :: count :: names) :
    (stoi count = none → hierarchyStep stod st line rest = Step.ret false st.reader rest) ∧
    ∀ (kept extra : List String) (kinds : List Channel) (seg : Segment D),
      names = kept ++ extra → stoi count = some (kept.length : Int) →
      List.Forall₂ (fun w ch => channelOfName w = some ch) kept kinds →
      st.curr = some seg →
      hierarchyStep stod st line rest =
        Step.next { st with
          curr := some { seg with channels := seg.channels ++ kinds },
          reader := { st.reader with
            channels := wrapInt (st.reader.channels + (kept.length : Int)) } } := by
  constructor
  · intro hn
    simp [hierarchyStep, hline, hn]
  · intro kept extra kinds seg hnames hn hk hcurr
    have hloop := @channelsLoop_names D kept kinds ["CHANNELS", count] extra 0 seg hk rfl
    subst hnames
    simp only [List.cons_append, List.nil_append] at hloop
    simp [hierarchyStep, hline, hn, hcurr, hloop]

/-- Witness of C13 as amended: a count that is not a number, and a line with one name more
than its count. -/
theorem channels_count_witness :
    hierarchyStep decimalStod ⟨freshReader, [], some (Segment.ofName "ROOT Hips"), [], false⟩
        "CHANNELS three Xposition Yposition Zposition" ["\x7d"] =
      Step.ret false freshReader ["\x7d"] ∧
    hierarchyStep decimalStod ⟨freshReader, [], some (Segment.ofName "ROOT Hips"), [], false⟩
        "CHANNELS 1 Xposition Yposition" ["\x7d"] =
      Step.next ⟨{ freshReader with channels := 1 }, [],
        some { name := "Hips", color := none, offset := none,
               channels := [Channel.Xposition], children := [] }, [], false⟩ :=
  ⟨(channels_count decimalStod
      ⟨freshReader, [], some (Segment.ofName "ROOT Hips"), [], false⟩
      "CHANNELS three Xposition Yposition Zposition" ["\x7d"] "three"
      ["Xposition", "Yposition", "Zposition"] (by decide)).1 (by decide),
    (channels_count decimalStod
      ⟨freshReader, [], some (Segment.ofName "ROOT Hips"), [], false⟩
      "CHANNELS 1 Xposition Yposition" ["\x7d"] "1" ["Xposition", "Yposition"]
      (by decide)).2 ["Xposition"] ["Yposition"] [Channel.Xposition]
      (Segment.ofName "ROOT Hips") rfl (by decide)
      (List.Forall₂.cons (by decide) List.Forall₂.nil) rfl⟩

/-- C14, counterexample: an `OFFSET` line stands between the ROOT line and its opening
brace; `loadHierarchy` returns true and `loadFile` returns true with the root in the
forest, its offset set. -/
theorem brace_after_node_counterexample :
    (∃ r s, loadHierarchy decimalStod freshReader offsetBeforeBrace.tail =
        Except.ok (true, r, s)) ∧
    ∃ r, loadFile decimalStod true (some offsetBeforeBrace) freshReader = Except.ok (true, r) ∧
      r.root = [some { name := "Hips", color := some (1, 1, 0),
                       offset := some ((0, 0), (0, 0), (0, 0)), channels := [],
                       children := [] }] :=
  ⟨⟨_, _, rfl⟩, ⟨_, rfl, rfl⟩⟩

/-- On a line whose first token is not an opening brace the brace flag is not looked at:
with the flag at any value `b` the pass ends as it does from `st`, with the same state but
for the flag, which a ROOT, JOINT or End line sets and any other line leaves at `b`. -/
theorem hierarchyStep_flag (st : HState D) (line w : String) (rest : List String)
    (hw : firstWord line = some w) (hne : w ≠ "\x7b") (b : Bool) :
    hierarchyStep stod { st with newSeg := b } line rest =
      match hierarchyStep stod st line rest with
      | Step.next st1 =>
        Step.next { st1 with newSeg :=
          if w = "ROOT" ∨ w = "JOINT" ∨ w = "End" then true else b }
      | Step.ret result r s => Step.ret result r s
      | Step.undefined => Step.undefined := by
  unfold firstWord at hw
  unfold hierarchyStep
  simp only [hw]
  by_cases h1 : w = "ROOT"
  · simp only [if_pos h1]
    split <;> simp [h1]
  simp only [if_neg h1]
  by_cases h2 : w = "JOINT"
  · simp only [if_pos h2]
    split <;> simp [h2]
  simp only [if_neg h2]
  by_cases h3 : w = "End"
  · simp only [if_pos h3]
    split <;> simp [h3]
  simp only [if_neg h3, if_neg hne, h1, h2, h3, or_self, if_false]
  by_cases h5 : w = "OFFSET"
  · simp only [if_pos h5]
    split
    · split
      · split <;> rfl
      · rfl
    · rfl
  simp only [if_neg h5]
  by_cases h6 : w = "CHANNELS"
  · simp only [if_pos h6]
    split
    · rfl
    · split
      · rfl
      · split <;> rfl
  simp only [if_neg h6]
  by_cases h7 : w = "\x7d"
  · simp only [if_pos h7]
    split
    · split <;> rfl
    · rfl
  simp only [if_neg h7]
  by_cases h8 : w = "MOTION"
  · simp only [if_pos h8]
  simp only [if_neg h8]

/-- Up to the first line whose first token is an opening brace, the hierarchy loop does the
same whatever the brace flag is. -/
theorem hierarchyLoop_flag (s : List String) (hs : ∀ l ∈ s, firstWord l ≠ some "\x7b") :
    ∀ (st : HState D) (b : Bool),
      hierarchyLoop stod s { st with newSeg := b } = hierarchyLoop stod s st := by
  induction s with
  | nil =>
    intro st b
    simp [hierarchyLoop]
  | cons l ls ih =>
    intro st b
    have hls : ∀ x ∈ ls, firstWord x ≠ some "\x7b" :=
      fun x hx => hs x (List.mem_cons_of_mem _ hx)
    rw [hierarchyLoop_cons, hierarchyLoop_cons]
    cases hw : firstWord l with
    | none =>
      have hsplit : split (trim l) ' ' = [] := by
        unfold firstWord at hw
        cases hsp : split (trim l) ' ' with
        | nil => rfl
        | cons a as =>
          rw [hsp] at hw
          simp at hw
      rw [step_no_token stod _ l ls hsplit, step_no_token stod _ l ls hsplit]
    | some w =>
      have hne : w ≠ "\x7b" := by
        intro h
        rw [h] at hw
        exact hs l (List.mem_cons_self _ _) hw
      rw [hierarchyStep_flag stod st l w ls hw hne b]
      cases hierarchyStep stod st l ls with
      | next st1 => exact ih hls st1 _
      | ret result r s1 => rfl
      | undefined => rfl

/-- The brace flag after an accepted line. -/
theorem hierarchyStep_newSeg (st st1 : HState D) (line w : String) (rest : List String)
    (hw : firstWord line = some w)
    (hstep : hierarchyStep stod st line rest = Step.next st1) :
    st1.newSeg =
      if w = "ROOT" ∨ w = "JOINT" ∨ w = "End" then true
      else if w = "\x7b" then false else st.newSeg := by
  unfold firstWord at hw
  unfold hierarchyStep at hstep
  simp only [hw] at hstep
  by_cases h1 : w = "ROOT"
  · rw [if_pos h1] at hstep
    split at hstep
    · cases hstep
    · simp only [Step.next.injEq] at hstep
      subst hstep
      simp [h1]
  rw [if_neg h1] at hstep
  by_cases h2 : w = "JOINT"
  · rw [if_pos h2] at hstep
    split at hstep
    · cases hstep
    · simp only [Step.next.injEq] at hstep
      subst hstep
      simp [h2]
  rw [if_neg h2] at hstep
  by_cases h3 : w = "End"
  · rw [if_pos h3] at hstep
    split at hstep
    · cases hstep
    · simp only [Step.next.injEq] at hstep
      subst hstep
      simp [h3]
  rw [if_neg h3] at hstep
  by_cases h4 : w = "\x7b"
  · rw [if_pos h4] at hstep
    split at hstep
    · simp only [Step.next.injEq] at hstep
      subst hstep
      simp [h1, h2, h3, h4]
    · cases hstep
  rw [if_neg h4] at hstep
  simp only [h1, h2, h3, h4, or_self, if_false]
  by_cases h5 : w = "OFFSET"
  · rw [if_pos h5] at hstep
    split at hstep
    · split at hstep
      · split at hstep
        · cases hstep
        · simp only [Step.next.injEq] at hstep
          subst hstep
          rfl
      · cases hstep
    · cases hstep
  rw [if_neg h5] at hstep
  by_cases h6 : w = "CHANNELS"
  · rw [if_pos h6] at hstep
    split at hstep
    · cases hstep
    · split at hstep
      · cases hstep
      · split at hstep
        · cases hstep
        · cases hstep
        · simp only [Step.next.injEq] at hstep
          subst hstep
          rfl
  rw [if_neg h6] at hstep
  by_cases h7 : w = "\x7d"
  · rw [if_pos h7] at hstep
    split at hstep
    · split at hstep
      · cases hstep
      · simp only [Step.next.injEq] at hstep
        subst hstep
        rfl
    · simp only [Step.next.injEq] at hstep
      subst hstep
      rfl
  rw [if_neg h7] at hstep
  by_cases h8 : w = "MOTION"
  · rw [if_pos h8] at hstep
    cases hstep
  rw [if_neg h8] at hstep
  simp only [Step.next.injEq] at hstep
  subst hstep
  rfl

/-- C14 as amended: the brace flag is set by every accepted ROOT, JOINT and End line,
cleared by an opening brace, and looked at only on an opening brace: an opening brace read
while the flag is clear makes the Hierarchy Parser signal failure, and one read while it is
set is accepted.  Every other line leaves the flag as it is and is handled as
usual whatever the flag says: the pass over it ends the same way, with the same state, for
either value of the flag, and so does the whole loop over lines none of which is an opening
brace.  So lines between a node line and its brace, or a node line without a brace, are
not refused on account of the flag. -/
theorem brace_flag (st : HState D) (line w : String) (rest : List String)
    (hw : firstWord line = some w) :
    (w = "\x7b" → st.newSeg = false →
      hierarchyStep stod st line rest = Step.ret false st.reader rest) ∧
    (w = "\x7b" → st.newSeg = true →
      hierarchyStep stod st line rest = Step.next { st with newSeg := false }) ∧
    (∀ st1, hierarchyStep stod st line rest = Step.next st1 →
      st1.newSeg =
        if w = "ROOT" ∨ w = "JOINT" ∨ w = "End" then true
        else if w = "\x7b" then false else st.newSeg) ∧
    (w ≠ "\x7b" → ∀ (b : Bool),
      hierarchyStep stod { st with newSeg := b } line rest =
        match hierarchyStep stod st line rest with
        | Step.next st1 =>
          Step.next { st1 with newSeg :=
            if w = "ROOT" ∨ w = "JOINT" ∨ w = "End" then true else b }
        | Step.ret result r s => Step.ret result r s
        | Step.undefined => Step.undefined) ∧
    (∀ (s : List String), (∀ l ∈ s, firstWord l ≠ some "\x7b") → ∀ (b : Bool),
      hierarchyLoop stod s { st with newSeg := b } = hierarchyLoop stod s st) := by
  refine ⟨?_, ?_, ?_, ?_, ?_⟩
  · intro h hn
    subst h
    unfold firstWord at hw
    simp [hierarchyStep, hw, hn]
  · intro h hn
    subst h
    unfold firstWord at hw
    simp [hierarchyStep, hw, hn]
  · intro st1 hstep
    exact hierarchyStep_newSeg stod st st1 line w rest hw hstep
  · intro hne b
    exact hierarchyStep_flag stod st line w rest hw hne b
  · intro s hs b
    exact hierarchyLoop_flag stod s hs st b

/-- Witness of C14 as amended: an opening brace with the flag clear is refused; an
`OFFSET` line read while the flag is set is accepted and leaves the flag set, as it is
accepted while the flag is clear; the lines `OFFSET 0 0 0` and the closing brace after
a ROOT line give the same result for either value of the flag. -/
theorem brace_flag_witness :
    hierarchyStep decimalStod ⟨freshReader, [], some (Segment.ofName "ROOT Hips"), [], false⟩
        "\x7b" [] = Step.ret false freshReader [] ∧
    (HState.mk freshReader []
        (some ((Segment.ofName "ROOT Hips").setOffset ((0, 0), (0, 0), (0, 0)))) []
        true).newSeg =
      (if "OFFSET" = "ROOT" ∨ "OFFSET" = "JOINT" ∨ "OFFSET" = "End" then true
        else if "OFFSET" = "\x7b" then false else true) ∧
    hierarchyStep decimalStod
        ⟨freshReader, [], some (Segment.ofName "ROOT Hips"), [], true⟩ "OFFSET 0 0 0" [] =
      Step.next ⟨freshReader, [],
        some ((Segment.ofName "ROOT Hips").setOffset ((0, 0), (0, 0), (0, 0))), [], true⟩ ∧
    hierarchyLoop decimalStod ["OFFSET 0 0 0", "\x7d"]
        ⟨freshReader, [], some (Segment.ofName "ROOT Hips"), [], true⟩ =
      hierarchyLoop decimalStod ["OFFSET 0 0 0", "\x7d"]
        ⟨freshReader, [], some (Segment.ofName "ROOT Hips"), [], false⟩ :=
  ⟨(brace_flag decimalStod ⟨freshReader, [], some (Segment.ofName "ROOT Hips"), [], false⟩
      "\x7b" "\x7b" [] (by decide)).1 rfl rfl,
    (brace_flag decimalStod ⟨freshReader, [], some (Segment.ofName "ROOT Hips"), [], true⟩
      "OFFSET 0 0 0" "OFFSET" [] (by decide)).2.2.1
      ⟨freshReader, [], some ((Segment.ofName "ROOT Hips").setOffset ((0, 0), (0, 0), (0, 0))),
        [], true⟩ rfl,
    (brace_flag decimalStod ⟨freshReader, [], some (Segment.ofName "ROOT Hips"), [], false⟩
      "OFFSET 0 0 0" "OFFSET" [] (by decide)).2.2.2.1 (by decide) true,
    (brace_flag decimalStod ⟨freshReader, [], some (Segment.ofName "ROOT Hips"), [], false⟩
      "OFFSET 0 0 0" "OFFSET" [] (by decide)).2.2.2.2 ["OFFSET 0 0 0", "\x7d"] (by decide)
      true⟩

/-- C15, the code at the failing input: a ROOT line directly inside the block of the root
Hips.  The stack is empty there, so the line is accepted and replaces the current
Segment: `loadHierarchy` returns true and `loadFile` returns true with a forest that holds
Spare alone; Hips is gone. -/
theorem loadFile_root_inside_root :
    (∃ st, hierarchyStep decimalStod
        ⟨freshReader, [], some ((Segment.ofName "ROOT Hips").setColor (1, 1, 0)), [], false⟩
        "ROOT Spare" [] = Step.next st ∧
      st.curr = some ((Segment.ofName "ROOT Spare").setColor (1, 1, 0))) ∧
    (∃ r s, loadHierarchy decimalStod freshReader rootInsideRoot.tail =
        Except.ok (true, r, s)) ∧
    ∃ r, loadFile decimalStod true (some rootInsideRoot) freshReader = Except.ok (true, r) ∧
      r.root = [some { name := "Spare", color := some (1, 1, 0), offset := none,
                       channels := [], children := [] }] :=
  ⟨⟨_, rfl, rfl⟩, ⟨_, _, rfl⟩, ⟨_, rfl, rfl⟩⟩

/-- C16, the code at the failing inputs: an `OFFSET` line with two fields makes the parser
read `words[3]`, which the line does not have, and an `OFFSET` line before any ROOT line
makes it write through the null `curr`; neither is a signalled failure.  (A field that is
not a number is a signalled failure: `loadHierarchy` returns false.) -/
theorem loadFile_offset_undefined :
    hierarchyStep decimalStod
        ⟨freshReader, [], some (Segment.ofName "ROOT Hips"), [], false⟩ "OFFSET 1 2" [] =
      Step.undefined ∧
    loadFile decimalStod true (some offsetTwoFields) freshReader =
      Except.error Fault.undefinedBehaviour ∧
    hierarchyStep decimalStod ⟨freshReader, [], none, [], false⟩ "OFFSET 0 0 0" [] =
      Step.undefined ∧
    loadFile decimalStod true (some offsetWithoutSegment) freshReader =
      Except.error Fault.undefinedBehaviour ∧
    ∃ r s, loadHierarchy decimalStod freshReader offsetNotNumber.tail =
      Except.ok (false, r, s) :=
  ⟨rfl, rfl, rfl, rfl, _, _, rfl⟩

/-- C17, the code at the failing input: an empty line has no token, the lookup of the
first token reads `words[0]` of an empty `words`, and the run of `loadFile` on Scenario 1
with an empty line after the HIERARCHY line is undefined from there.  (A line whose first
token is none of the eight keywords is passed over: `step_other`.) -/
theorem loadFile_empty_line :
    split (trim "") ' ' = [] ∧
    hierarchyStep decimalStod ⟨freshReader, [], none, [], false⟩ "" [] = Step.undefined ∧
    loadFile decimalStod true (some emptyLineInHierarchy) freshReader =
      Except.error Fault.undefinedBehaviour ∧
    hierarchyStep decimalStod ⟨freshReader, [], none, [], false⟩ "# a comment" [] =
      Step.next ⟨freshReader, [], none, [], false⟩ :=
  ⟨by decide, rfl, rfl, rfl⟩

end Checks

/-! ## A second run on the same reader -/

section Twice

variable {D : Type} (stod : String → Option D) (lineEnd : Bool)

/-- A well-formed input (the HIERARCHY line, the text of a declared forest with at least
one root, the MOTION line, the two headers and rows of the width of the channel count)
loaded by a reader in any state: the forest and the rows of the input go after what the
reader holds. -/
theorem loadFile_declared (hierarchyLine motionLine framesLine timeLine : String)
    (forest : List (Decl D)) (rows : List String) (vals : List (List D)) (frames : Int)
    (frameTime : D) (r : BVHReader D)
    (hH : trim hierarchyLine = "HIERARCHY")
    (hwf : ∀ d ∈ forest, Decl.WellFormed stod true d) (hne : forest ≠ [])
    (hM : trim motionLine = "MOTION")
    (hf : framesHeader framesLine frames) (ht : frameTimeHeader stod timeLine frameTime)
    (hrows : List.Forall₂
      (acceptsRow stod (wrapInt (Decl.channelCountList forest : Int))) rows vals) :
    loadFile stod lineEnd
        (some (hierarchyLine ::
          (Decl.textList forest ++ motionLine :: framesLine :: timeLine :: rows))) r =
      Except.ok (true,
        { r with isLoaded := true,
                 root := r.root ++ forest.map (fun d => some (Decl.segment true d)),
                 channels := wrapInt (Decl.channelCountList forest : Int),
                 motion := r.motion ++ vals, frames := frames, frameTime := frameTime }) := by
  have hword : firstWord motionLine = some "MOTION" := by
    unfold firstWord
    rw [hM]
    decide
  have hhier := loadHierarchy_forest stod forest hwf
    (motionLine :: framesLine :: timeLine :: rows) (Or.inr ⟨_, _, rfl, hword⟩) r
  have hmot := loadMotion_headers stod lineEnd
    ({ r with root := r.root ++ forest.map (fun d => some (Decl.segment true d)),
              channels := wrapInt (Decl.channelCountList forest : Int) } : BVHReader D)
    framesLine timeLine rows frames frameTime hf ht
  rw [motionRows_all stod rows vals
    ({ r with root := r.root ++ forest.map (fun d => some (Decl.segment true d)),
              channels := wrapInt (Decl.channelCountList forest : Int),
              frames := frames, frameTime := frameTime } : BVHReader D) hrows] at hmot
  have hloop : loadFileLoop stod lineEnd
      (hierarchyLine ::
        (Decl.textList forest ++ motionLine :: framesLine :: timeLine :: rows)).length
      (hierarchyLine ::
        (Decl.textList forest ++ motionLine :: framesLine :: timeLine :: rows)) r =
      Except.ok
        { r with root := r.root ++ forest.map (fun d => some (Decl.segment true d)),
                 channels := wrapInt (Decl.channelCountList forest : Int),
                 motion := r.motion ++ vals, frames := frames, frameTime := frameTime } := by
    rw [List.length_cons, loadFileLoop_hierarchy stod lineEnd _ _ _ _ _ _ _ hH hhier,
      List.length_append, List.length_cons, ← Nat.add_assoc,
      loadFileLoop_motion stod lineEnd _ _ _ _ _ _ _ hM hmot]
    simp [loadFileLoop]
  rw [loadFile_of_loop stod lineEnd _ _ _ hloop]
  cases forest with
  | nil => exact absurd rfl hne
  | cons d ds => simp

/-- C12, counterexample: Scenario 1 loaded twice by the same reader; after the second run
the forest has two roots and the motion table two rows, where the first run left one of
each. -/
theorem loadFile_twice_counterexample :
    ∃ r1 r2, loadFile decimalStod true (some scenario1) freshReader = Except.ok (true, r1) ∧
      loadFile decimalStod true (some scenario1) r1 = Except.ok (true, r2) ∧
      r1.root.length = 1 ∧ r2.root.length = 2 ∧
      r1.getMotion = [[(10, 1), (20, 1), (30, 1)]] ∧
      r2.getMotion = [[(10, 1), (20, 1), (30, 1)], [(10, 1), (20, 1), (30, 1)]] ∧
      r2.getMotion ≠ r1.getMotion :=
  ⟨_, _, rfl, rfl, rfl, rfl, rfl, rfl, by decide⟩

/-- C12 as amended: `loadFile` clears neither the forest nor the motion table.  For a
well-formed input a run appends the forest and the rows of the input to what the reader
holds: after a first run on a fresh reader they are the forest and the rows of the input,
and after a second run on the same reader the forest is that forest twice over and the
motion table those rows twice over. -/
theorem loadFile_twice (hierarchyLine motionLine framesLine timeLine : String)
    (forest : List (Decl D)) (rows : List String) (vals : List (List D)) (frames : Int)
    (frameTime : D) (c0 f0 : Int) (t0 : D)
    (hH : trim hierarchyLine = "HIERARCHY")
    (hwf : ∀ d ∈ forest, Decl.WellFormed stod true d) (hne : forest ≠ [])
    (hM : trim motionLine = "MOTION")
    (hf : framesHeader framesLine frames) (ht : frameTimeHeader stod timeLine frameTime)
    (hrows : List.Forall₂
      (acceptsRow stod (wrapInt (Decl.channelCountList forest : Int))) rows vals) :
    ∃ r1 r2,
      loadFile stod lineEnd
          (some (hierarchyLine ::
            (Decl.textList forest ++ motionLine :: framesLine :: timeLine :: rows)))
          (BVHReader.init c0 f0 t0) = Except.ok (true, r1) ∧
      loadFile stod lineEnd
          (some (hierarchyLine ::
            (Decl.textList forest ++ motionLine :: framesLine :: timeLine :: rows)))
          r1 = Except.ok (true, r2) ∧
      r1.root = forest.map (fun d => some (Decl.segment true d)) ∧
      r1.getMotion = vals ∧
      r2.root = r1.root ++ r1.root ∧
      r2.getMotion = r1.getMotion ++ r1.getMotion ∧
      r2.getChannels = r1.getChannels := by
  refine ⟨_, _,
    loadFile_declared stod lineEnd hierarchyLine motionLine framesLine timeLine forest rows vals
      frames frameTime _ hH hwf hne hM hf ht hrows,
    loadFile_declared stod lineEnd hierarchyLine motionLine framesLine timeLine forest rows vals
      frames frameTime _ hH hwf hne hM hf ht hrows, ?_⟩
  refine ⟨?_, ?_, ?_, ?_, ?_⟩
  · show ([] : List (Option (Segment D))) ++ _ = _
    rw [List.nil_append]
  · show ([] : List (List D)) ++ _ = _
    rw [List.nil_append]
  · show (([] : List (Option (Segment D))) ++ _) ++ _ = ([] ++ _) ++ ([] ++ _)
    rw [List.nil_append]
  · show (([] : List (List D)) ++ _) ++ _ = ([] ++ _) ++ ([] ++ _)
    rw [List.nil_append]
  · rfl

/-- Witness of C12 as amended: the two roots of Scenario 5 with a row of five values. -/
theorem loadFile_twice_witness :
    ∃ r1 r2,
      loadFile decimalStod true
          (some ("HIERARCHY" ::
            (Decl.textList twoRoots ++ "MOTION" :: "Frames: 1" :: "Frame Time: 0.0333" ::
              ["1 2 3 4 5"])))
          (BVHReader.init 0 0 (0, 0)) = Except.ok (true, r1) ∧
      loadFile decimalStod true
          (some ("HIERARCHY" ::
            (Decl.textList twoRoots ++ "MOTION" :: "Frames: 1" :: "Frame Time: 0.0333" ::
              ["1 2 3 4 5"])))
          r1 = Except.ok (true, r2) ∧
      r1.root = twoRoots.map (fun d => some (Decl.segment true d)) ∧
      r1.getMotion = [[(1, 0), (2, 0), (3, 0), (4, 0), (5, 0)]] ∧
      r2.root = r1.root ++ r1.root ∧
      r2.getMotion = r1.getMotion ++ r1.getMotion ∧
      r2.getChannels = r1.getChannels :=
  loadFile_twice decimalStod true "HIERARCHY" "MOTION" "Frames: 1" "Frame Time: 0.0333" twoRoots
    ["1 2 3 4 5"] [[(1, 0), (2, 0), (3, 0), (4, 0), (5, 0)]] 1 (333, 4) 0 0 (0, 0)
    (by decide) twoRoots_wellFormed (List.cons_ne_nil _ _) (by decide)
    ⟨"1", by decide, by decide⟩
    ⟨"0.0333", by decide, by decide⟩
    (List.Forall₂.cons ⟨by decide, by decide⟩ List.Forall₂.nil)

end Twice

/-! ## The tokenizer -/

section Tokenizer

theorem maximalRuns_cons_sep (sep : Char → Bool) (c : Char) (cs : List Char)
    (h : sep c = true) : maximalRuns sep (c :: cs) = maximalRuns sep cs := by
  simp [maximalRuns, h]

/-- A run of characters that are not separators, ended by a separator or by the end, is
the first maximal run. -/
theorem maximalRuns_run (sep : Char → Bool) (rest : List Char)
    (hrest : rest = [] ∨ ∃ d ds, rest = d :: ds ∧ sep d = true) :
    ∀ (b : List Char), b ≠ [] → (∀ c ∈ b, sep c = false) →
      maximalRuns sep (b ++ rest) = b :: maximalRuns sep rest := by
  intro b
  induction b with
  | nil => intro h; exact absurd rfl h
  | cons c cs ih =>
    intro _ hall
    have hc : sep c = false := hall c (List.mem_cons_self _ _)
    cases cs with
    | nil =>
      rcases hrest with h | ⟨d, ds, h, hd⟩
      · subst h
        simp [maximalRuns, hc]
      · subst h
        simp [maximalRuns, hc, hd]
    | cons e es =>
      have he : sep e = false := hall e (List.mem_cons_of_mem _ (List.mem_cons_self _ _))
      have hih := ih (List.cons_ne_nil _ _) (fun x hx => hall x (List.mem_cons_of_mem _ hx))
      simp only [List.cons_append] at hih ⊢
      rw [maximalRuns]
      simp only [hc, he, Bool.false_eq_true, if_false]
      rw [hih]

/-- The loop of `split` gathers the maximal runs of characters other than the delimiter;
what it holds in `buffer` is the beginning of the first run. -/
theorem splitChars_runs (d : Char) (s : List Char) :
    ∀ (buffer : List Char), (∀ c ∈ buffer, c ≠ d) →
      splitChars d s buffer = maximalRuns (fun c => decide (c = d)) (buffer ++ s) := by
  induction s with
  | nil =>
    intro buffer hbuf
    cases buffer with
    | nil => simp [splitChars, maximalRuns]
    | cons b bs =>
      have := maximalRuns_run (fun c => decide (c = d)) [] (Or.inl rfl) (b :: bs)
        (List.cons_ne_nil _ _) (fun c hc => by simpa using hbuf c hc)
      rw [this]
      simp [splitChars, maximalRuns]
  | cons c cs ih =>
    intro buffer hbuf
    by_cases hcd : c = d
    · subst hcd
      cases buffer with
      | nil =>
        have := ih [] (by simp)
        simp only [List.nil_append] at this
        simp [splitChars, maximalRuns, this]
      | cons b bs =>
        have hrun := maximalRuns_run (fun x => decide (x = c)) (c :: cs)
          (Or.inr ⟨c, cs, rfl, by simp⟩) (b :: bs)
          (List.cons_ne_nil _ _) (fun x hx => by simpa using hbuf x hx)
        have := ih [] (by simp)
        simp only [List.nil_append] at this
        rw [hrun, maximalRuns_cons_sep _ _ _ (by simp)]
        simp [splitChars, this]
    · have := ih (buffer ++ [c]) (by
        intro x hx
        rcases List.mem_append.mp hx with h | h
        · exact hbuf x h
        · simp only [List.mem_singleton] at h
          rw [h]
          exact hcd)
      simp only [List.append_assoc, List.singleton_append] at this
      simp [splitChars, hcd, this]

/-- The maximal runs are not empty and hold no separator. -/
theorem maximalRuns_mem (sep : Char → Bool) (s : List Char) :
    ∀ t ∈ maximalRuns sep s, t ≠ [] ∧ ∀ c ∈ t, sep c = false := by
  induction s with
  | nil => simp [maximalRuns]
  | cons c cs ih =>
    intro t ht
    by_cases hc : sep c = true
    · rw [maximalRuns_cons_sep sep c cs hc] at ht
      exact ih t ht
    · have hc2 : sep c = false := by simpa using hc
      cases cs with
      | nil =>
        simp only [maximalRuns, hc2, Bool.false_eq_true, if_false, List.mem_singleton] at ht
        subst ht
        simp [hc2]
      | cons e es =>
        by_cases he : sep e = true
        · simp only [maximalRuns, hc2, he, Bool.false_eq_true, if_false, if_true,
            List.mem_cons] at ht ih
          rcases ht with h | h
          · subst h
            simp [hc2]
          · exact ih t (by simpa [maximalRuns, he] using h)
        · have he2 : sep e = false := by simpa using he
          rw [maximalRuns] at ht
          simp only [hc2, he2, Bool.false_eq_true, if_false] at ht
          cases hruns : maximalRuns sep (e :: es) with
          | nil =>
            rw [hruns] at ht
            simp only [List.mem_singleton] at ht
            subst ht
            simp [hc2]
          | cons run runs =>
            rw [hruns] at ht ih
            simp only [List.mem_cons] at ht
            rcases ht with h | h
            · subst h
              obtain ⟨_, hrun⟩ := ih run (List.mem_cons_self _ _)
              refine ⟨List.cons_ne_nil _ _, ?_⟩
              intro x hx
              rcases List.mem_cons.mp hx with hxc | hxr
              · rw [hxc]
                exact hc2
              · exact hrun x hxr
            · exact ih t (List.mem_cons_of_mem _ h)

/-- Renaming the characters by a map that keeps separators and the other characters apart
renames the maximal runs. -/
theorem maximalRuns_map (sep sep1 : Char → Bool) (g : Char → Char)
    (hg : ∀ c, sep1 (g c) = sep c) (s : List Char) :
    maximalRuns sep1 (s.map g) = (maximalRuns sep s).map (List.map g) := by
  induction s with
  | nil => simp [maximalRuns]
  | cons c cs ih =>
    cases cs with
    | nil =>
      by_cases hc : sep c = true
      · simp [maximalRuns, hg, hc]
      · simp [maximalRuns, hg, hc]
    | cons e es =>
      simp only [List.map_cons] at ih ⊢
      by_cases hc : sep c = true
      · simp only [maximalRuns_cons_sep sep c _ hc,
          maximalRuns_cons_sep sep1 (g c) _ (by rw [hg]; exact hc)]
        exact ih
      · have hc2 : sep c = false := by simpa using hc
        by_cases he : sep e = true
        · rw [maximalRuns, maximalRuns]
          simp only [hg, hc2, he, Bool.false_eq_true, if_false, if_true, List.map_cons,
            List.map_nil]
          rw [ih]
        · have he2 : sep e = false := by simpa using he
          rw [maximalRuns, maximalRuns]
          simp only [hg, hc2, he2, Bool.false_eq_true, if_false]
          rw [ih]
          cases maximalRuns sep (e :: es) <;> simp

/-- Leading characters that are separators do not change the maximal runs. -/
theorem maximalRuns_dropWhile (sep p : Char → Bool) (s : List Char)
    (hp : ∀ c ∈ s, p c = true → sep c = true) :
    maximalRuns sep (s.dropWhile p) = maximalRuns sep s := by
  induction s with
  | nil => simp
  | cons c cs ih =>
    by_cases hc : p c = true
    · rw [List.dropWhile_cons_of_pos hc,
        maximalRuns_cons_sep sep c cs (hp c (List.mem_cons_self _ _) hc)]
      exact ih (fun x hx => hp x (List.mem_cons_of_mem _ hx))
    · rw [List.dropWhile_cons_of_neg hc]

/-- A separator at the end does not change the maximal runs. -/
theorem maximalRuns_concat_sep (sep : Char → Bool) (d : Char) (hd : sep d = true)
    (s : List Char) : maximalRuns sep (s ++ [d]) = maximalRuns sep s := by
  induction s with
  | nil => simp [maximalRuns, hd]
  | cons c cs ih =>
    by_cases hc : sep c = true
    · rw [List.cons_append, maximalRuns_cons_sep sep c _ hc, maximalRuns_cons_sep sep c _ hc]
      exact ih
    · have hc2 : sep c = false := by simpa using hc
      cases cs with
      | nil => simp [maximalRuns, hc2, hd]
      | cons e es =>
        simp only [List.cons_append] at ih ⊢
        rw [maximalRuns, maximalRuns]
        simp only [hc2, Bool.false_eq_true, if_false]
        rw [ih]

/-- Trailing characters that are separators do not change the maximal runs. -/
theorem maximalRuns_rdropWhile (sep p : Char → Bool) (s : List Char)
    (hp : ∀ c ∈ s, p c = true → sep c = true) :
    maximalRuns sep ((s.reverse.dropWhile p).reverse) = maximalRuns sep s := by
  induction s using List.reverseRecOn with
  | nil => simp
  | append_singleton cs c ih =>
    by_cases hc : p c = true
    · rw [List.reverse_append, List.reverse_singleton, List.singleton_append,
        List.dropWhile_cons_of_pos hc,
        maximalRuns_concat_sep sep c (hp c (by simp) hc)]
      exact ih (fun x hx => hp x (by simp [hx]))
    · rw [List.reverse_append, List.reverse_singleton, List.singleton_append,
        List.dropWhile_cons_of_neg hc]
      simp

end Tokenizer

section TokenizerClaim

/-- The two calls of `std::replace` in `trim`, as one map over the characters. -/
theorem replaceChar_twice (s : List Char) :
    replaceChar '\t' ' ' (replaceChar '\r' ' ' s) =
      s.map (fun c => if isBlank c then ' ' else c) := by
  unfold replaceChar
  rw [List.map_map]
  apply List.map_congr_left
  intro c _
  by_cases h1 : c = '\r'
  · subst h1
    decide
  · by_cases h2 : c = '\t'
    · subst h2
      decide
    · by_cases h3 : c = ' '
      · subst h3
        decide
      · simp [isBlank, h1, h2, h3]

theorem isspace_blank (c : Char) :
    isspace (if isBlank c then ' ' else c) = isspace c := by
  by_cases h : isBlank c = true
  · rw [if_pos h]
    simp only [isBlank, Bool.or_eq_true, decide_eq_true_eq] at h
    rcases h with (h | h) | h <;> subst h <;> decide
  · rw [if_neg h]

theorem space_blank (c : Char) :
    decide ((if isBlank c then ' ' else c) = ' ') = isBlank c := by
  by_cases h : isBlank c = true
  · rw [if_pos h, h]
    decide
  · rw [if_neg h]
    have h2 : isBlank c = false := by simpa using h
    rw [h2]
    simp only [isBlank, Bool.or_eq_false_iff, decide_eq_false_iff_not] at h2
    simpa using h2.1.1

/-- The function `trim` on the characters: the white space at both ends is erased, and
each space, tab and carriage return left is a space. -/
theorem trimChars_strip (s : List Char) :
    trimChars s = (stripSpace s).map (fun c => if isBlank c then ' ' else c) := by
  have hfun : (isspace ∘ fun c => if isBlank c then ' ' else c) = isspace :=
    funext isspace_blank
  show ((List.dropWhile isspace (replaceChar '\t' ' ' (replaceChar '\r' ' ' s))).reverse.dropWhile
    isspace).reverse = _
  rw [replaceChar_twice, List.dropWhile_map, hfun, ← List.map_reverse, List.dropWhile_map,
    hfun, ← List.map_reverse]
  rfl

/-- The tokens of a line are the maximal runs of characters other than space, tab and
carriage return of the line without the white space at its ends. -/
theorem split_trim_eq (line : String) :
    split (trim line) ' ' = (maximalRuns isBlank (stripSpace line.data)).map String.mk := by
  show (splitChars ' ' (trimChars line.data) []).map String.mk = _
  rw [splitChars_runs ' ' _ [] (by simp), List.nil_append, trimChars_strip,
    maximalRuns_map isBlank (fun c => decide (c = ' ')) _ space_blank]
  congr 1
  have hruns : ∀ t ∈ maximalRuns isBlank (stripSpace line.data),
      List.map (fun c => if isBlank c then ' ' else c) t = id t := by
    intro t ht
    obtain ⟨_, hall⟩ := maximalRuns_mem isBlank _ t ht
    have hchars : ∀ c ∈ t, (fun c => if isBlank c then ' ' else c) c = id c := by
      intro c hc
      simp [hall c hc]
    rw [List.map_congr_left hchars]
    simp
  rw [List.map_congr_left hruns]
  simp

/-- The white space that `trim` erases and that is not space, tab or carriage return. -/
theorem stripSpace_runs (s : List Char) (h : ∀ c ∈ s, isspace c = true → isBlank c = true) :
    maximalRuns isBlank (stripSpace s) = maximalRuns isBlank s := by
  unfold stripSpace
  rw [maximalRuns_rdropWhile isBlank isspace _
    (fun c hc => h c ((List.dropWhile_sublist isspace).subset hc)),
    maximalRuns_dropWhile isBlank isspace s h]

theorem maximalRuns_all_sep (sep : Char → Bool) (s : List Char)
    (h : ∀ c ∈ s, sep c = true) : maximalRuns sep s = [] := by
  induction s with
  | nil => rfl
  | cons c cs ih =>
    rw [maximalRuns_cons_sep sep c cs (h c (List.mem_cons_self _ _))]
    exact ih (fun x hx => h x (List.mem_cons_of_mem _ hx))

theorem stripSpace_all (s : List Char) (h : ∀ c ∈ s, isspace c = true) : stripSpace s = [] := by
  unfold stripSpace
  have : s.dropWhile isspace = [] := by
    rw [List.dropWhile_eq_nil_iff]
    exact h
  rw [this]
  rfl

/-- Claim C19 refuted as written: the line made of a vertical tab and `Hips` has the one
token `Hips`, while its one maximal run of characters other than space, tab and carriage
return is the whole line, vertical tab included. -/
theorem tokens_raw_runs_counterexample :
    split (trim "\x0bHips") ' ' = ["Hips"] ∧
    (maximalRuns isBlank "\x0bHips".data).map String.mk = ["\x0bHips"] ∧
    split (trim "\x0bHips") ' ' ≠ (maximalRuns isBlank "\x0bHips".data).map String.mk := by
  refine ⟨by rfl, by rfl, by decide⟩

/-- Claim C19, amended: trimming a raw line and splitting it on the space character
returns, in order, exactly the maximal runs of characters other than space, tab and
carriage return of the line without the white space at its two ends, where white space is
what `isspace` takes (vertical tab, form feed and line feed too); on a line whose white
space is only space, tab and carriage return these are the maximal runs of the line
itself; no token is empty, none holds a space, a tab or a carriage return, and a line of
white space only, or an empty one, yields no token. -/
theorem tokens_runs (line : String) :
    split (trim line) ' ' = (maximalRuns isBlank (stripSpace line.data)).map String.mk ∧
    ((∀ c ∈ line.data, isspace c = true → isBlank c = true) →
      split (trim line) ' ' = (maximalRuns isBlank line.data).map String.mk) ∧
    (∀ t ∈ split (trim line) ' ', t ≠ "" ∧ ∀ c ∈ t.data, isBlank c = false) ∧
    ((∀ c ∈ line.data, isspace c = true) → split (trim line) ' ' = []) := by
  refine ⟨split_trim_eq line, ?_, ?_, ?_⟩
  · intro h
    rw [split_trim_eq, stripSpace_runs _ h]
  · intro t ht
    rw [split_trim_eq, List.mem_map] at ht
    obtain ⟨run, hrun, rfl⟩ := ht
    obtain ⟨hne, hall⟩ := maximalRuns_mem isBlank _ run hrun
    refine ⟨?_, hall⟩
    intro h
    exact hne (congrArg String.data h)
  · intro h
    rw [split_trim_eq, stripSpace_all _ h]
    rfl

/-- The amended claim C19 on the line ` ROOT  Hips` written with tabs and a carriage
return: its tokens are `ROOT` and `Hips`, the maximal runs of the line itself. -/
theorem tokens_runs_witness :
    (∀ c ∈ " \tROOT\t Hips \r".data, isspace c = true → isBlank c = true) ∧
    split (trim " \tROOT\t Hips \r") ' ' =
      (maximalRuns isBlank " \tROOT\t Hips \r".data).map String.mk ∧
    split (trim " \tROOT\t Hips \r") ' ' = ["ROOT", "Hips"] :=
  ⟨by decide, (tokens_runs " \tROOT\t Hips \r").2.1 (by decide), by rfl⟩

end TokenizerClaim

/-! ## Termination of `loadFile` -/

section Termination

variable {D : Type} (stod : String → Option D) (lineEnd : Bool)

/-- The motion parser only reads forward. -/
theorem loadMotion_suffix (r r1 : BVHReader D) (s s1 : List String) (b : Bool)
    (h : loadMotion stod lineEnd r s = (b, r1, s1)) : s1 <:+ s := by
  obtain ⟨headers, good, failing, _, _, _, hs, _⟩ := loadMotion_spec stod lineEnd r r1 s s1 b h
  refine ⟨headers ++ (good ++ failing), ?_⟩
  rw [hs]
  simp

/-- One iteration of the loop of `loadFile` takes the line it reads off the stream and goes
on from a position in what follows that line, unless it ends in an access that is not
defined. -/
theorem loadFileLoop_progress (fuel : Nat) (line : String) (rest : List String)
    (r : BVHReader D) :
    loadFileLoop stod lineEnd (fuel + 1) (line :: rest) r = Except.error Fault.undefinedBehaviour ∨
    ∃ (r1 : BVHReader D) (s1 : List String), s1 <:+ rest ∧
      loadFileLoop stod lineEnd (fuel + 1) (line :: rest) r =
        loadFileLoop stod lineEnd fuel s1 r1 := by
  by_cases hH : trim line = "HIERARCHY"
  · cases hh : loadHierarchy stod r rest with
    | error e =>
      left
      rw [loadFileLoop_hierarchy_undefined stod lineEnd fuel line rest r e hH hh,
        hierarchyLoop_fault stod rest _ e hh]
    | ok res =>
      obtain ⟨b, r2, s2⟩ := res
      right
      exact ⟨r2, s2, (loadHierarchy_keeps stod r r2 rest s2 b hh).2,
        loadFileLoop_hierarchy stod lineEnd fuel line rest r r2 b s2 hH hh⟩
  · by_cases hM : trim line = "MOTION"
    · rcases hres : loadMotion stod lineEnd r rest with ⟨b, r2, s2⟩
      right
      exact ⟨_, s2, loadMotion_suffix stod lineEnd r r2 rest s2 b hres,
        loadFileLoop_motion stod lineEnd fuel line rest r r2 b s2 hM hres⟩
    · right
      exact ⟨r, rest, List.suffix_refl _,
        loadFileLoop_other stod lineEnd fuel line rest r (by unfold isMarker; tauto)⟩

/-- Iterations beyond one per line are never used by the loop of `loadFile`. -/
theorem loadFileLoop_fuel_eq (fuel1 : Nat) :
    ∀ (fuel2 : Nat) (s : List String) (r : BVHReader D), s.length ≤ fuel1 → s.length ≤ fuel2 →
      loadFileLoop stod lineEnd fuel1 s r = loadFileLoop stod lineEnd fuel2 s r := by
  induction fuel1 with
  | zero =>
    intro fuel2 s r h1 _
    cases s with
    | nil => cases fuel2 <;> simp [loadFileLoop]
    | cons l ls => simp at h1
  | succ n ih =>
    intro fuel2 s r h1 h2
    cases s with
    | nil => cases fuel2 <;> simp [loadFileLoop]
    | cons l ls =>
      cases fuel2 with
      | zero => simp at h2
      | succ m =>
        have hn : ls.length ≤ n := by simpa using h1
        have hm : ls.length ≤ m := by simpa using h2
        by_cases hH : trim l = "HIERARCHY"
        · cases hh : loadHierarchy stod r ls with
          | error e =>
            rw [loadFileLoop_hierarchy_undefined stod lineEnd n l ls r e hH hh,
              loadFileLoop_hierarchy_undefined stod lineEnd m l ls r e hH hh]
          | ok res =>
            obtain ⟨b, r2, s2⟩ := res
            rw [loadFileLoop_hierarchy stod lineEnd n l ls r r2 b s2 hH hh,
              loadFileLoop_hierarchy stod lineEnd m l ls r r2 b s2 hH hh]
            have hsuf := (loadHierarchy_keeps stod r r2 ls s2 b hh).2
            exact ih m s2 r2 (le_trans hsuf.length_le hn) (le_trans hsuf.length_le hm)
        · by_cases hM : trim l = "MOTION"
          · rcases hres : loadMotion stod lineEnd r ls with ⟨b, r2, s2⟩
            rw [loadFileLoop_motion stod lineEnd n l ls r r2 b s2 hM hres,
              loadFileLoop_motion stod lineEnd m l ls r r2 b s2 hM hres]
            have hsuf := loadMotion_suffix stod lineEnd r r2 ls s2 b hres
            exact ih m s2 _ (le_trans hsuf.length_le hn) (le_trans hsuf.length_le hm)
          · rw [loadFileLoop_other stod lineEnd n l ls r (by unfold isMarker; tauto),
              loadFileLoop_other stod lineEnd m l ls r (by unfold isMarker; tauto)]
            exact ih m ls r hn hm

/-- Claim C20: `loadFile` terminates on every finite input.  One iteration per line of
the file is enough for its loop, which is never cut short and does the same with any
larger number of iterations; each iteration takes the line it reads off the stream and
goes on from a position in what follows that line (or the run ends at an access that is
not defined); and the position the hierarchy parser leaves, after its rewind at a `MOTION`
line too, is never before the position at which it was invoked. -/
theorem loadFile_terminates (file : Option (List String)) (r : BVHReader D) :
    loadFile stod lineEnd file r ≠ Except.error Fault.outOfFuel ∧
    (∀ (lines : List String) (fuel : Nat), lines.length ≤ fuel →
      loadFileLoop stod lineEnd fuel lines r = loadFileLoop stod lineEnd lines.length lines r) ∧
    (∀ (fuel : Nat) (line : String) (rest : List String),
      loadFileLoop stod lineEnd (fuel + 1) (line :: rest) r =
        Except.error Fault.undefinedBehaviour ∨
      ∃ (r1 : BVHReader D) (s1 : List String), s1 <:+ rest ∧
        loadFileLoop stod lineEnd (fuel + 1) (line :: rest) r =
          loadFileLoop stod lineEnd fuel s1 r1) ∧
    (∀ (s s1 : List String) (b : Bool) (r1 : BVHReader D),
      loadHierarchy stod r s = Except.ok (b, r1, s1) → s1 <:+ s) := by
  refine ⟨loadFile_fuel stod lineEnd file r, ?_, ?_, ?_⟩
  · intro lines fuel h
    exact loadFileLoop_fuel_eq stod lineEnd fuel lines.length lines r h (le_refl _)
  · intro fuel line rest
    exact loadFileLoop_progress stod lineEnd fuel line rest r
  · intro s s1 b r1 h
    exact (loadHierarchy_keeps stod r r1 s s1 b h).2

/-- Claim C20 on Scenario 1: the hierarchy parser, invoked after the `HIERARCHY` line,
rewinds to the `MOTION` line, which is after the position where it was invoked, and the run
of `loadFile` is not cut short. -/
theorem loadFile_terminates_witness :
    (∃ r1, loadHierarchy decimalStod freshReader (scenario1.drop 1) =
      Except.ok (true, r1, scenario1.drop 6)) ∧
    scenario1.drop 6 <:+ scenario1.drop 1 ∧
    loadFile decimalStod true (some scenario1) freshReader ≠ Except.error Fault.outOfFuel :=
  ⟨⟨_, rfl⟩,
   (loadFile_terminates decimalStod true (some scenario1) freshReader).2.2.2 _ _ _ _ rfl,
   (loadFile_terminates decimalStod true (some scenario1) freshReader).1⟩

end Termination

/-! ## The MOTION line -/

section MotionLine

variable {D : Type} (stod : String → Option D) (lineEnd : Bool)

theorem firstWord_of_trim (line word : String) (h : trim line = word)
    (hw : split word ' ' = [word]) : firstWord line = some word := by
  unfold firstWord
  rw [h, hw]
  rfl

/-- Where the loop of `loadHierarchy` leaves the stream when a line whose first token is
`MOTION` lies ahead: at the remembered position, or at a line between the one it is at and
that line, that line included. -/
theorem hierarchyLoop_position (m : String) (after : List String)
    (hfirst : firstWord m = some "MOTION") (pre : List String) :
    ∀ (st : HState D) (b : Bool) (r1 : BVHReader D) (s1 : List String),
      hierarchyLoop stod (pre ++ m :: after) st = Except.ok (b, r1, s1) →
      s1 = st.oldpos ∨ ∃ between, between <:+ pre ∧ s1 = between ++ m :: after := by
  induction pre with
  | nil =>
    intro st b r1 s1 h
    rw [List.nil_append, hierarchyLoop_cons, step_motion stod _ _ _ hfirst] at h
    simp only [Except.ok.injEq, Prod.mk.injEq] at h
    exact Or.inl h.2.2.symm
  | cons l ls ih =>
    intro st b r1 s1 h
    rw [List.cons_append, hierarchyLoop_cons] at h
    have hk := hierarchyStep_keeps stod st l (ls ++ m :: after)
    cases hstep : hierarchyStep stod st l (ls ++ m :: after) with
    | next st1 =>
      rw [hstep] at h hk
      rcases ih st1 b r1 s1 h with h1 | ⟨between, hb, hs⟩
      · rcases hk.2 with ho | ho
        · exact Or.inl (h1.trans ho)
        · exact Or.inr ⟨ls, List.suffix_cons l ls, h1.trans ho⟩
      · exact Or.inr ⟨between, hb.trans (List.suffix_cons l ls), hs⟩
    | ret b2 r2 s2 =>
      rw [hstep] at h hk
      simp only [Except.ok.injEq, Prod.mk.injEq] at h
      obtain ⟨_, _, hs⟩ := h
      subst hs
      rcases hk.2 with ho | ho
      · exact Or.inr ⟨ls, List.suffix_cons l ls, ho⟩
      · exact Or.inl ho
    | undefined =>
      rw [hstep] at h
      cases h

/-- The position `loadHierarchy` leaves the stream at when a line whose first token is
`MOTION` lies ahead: at that line or at a line before it. -/
theorem loadHierarchy_position (m : String) (after : List String)
    (hfirst : firstWord m = some "MOTION") (pre : List String) (r r1 : BVHReader D) (b : Bool)
    (s1 : List String)
    (h : loadHierarchy stod r (pre ++ m :: after) = Except.ok (b, r1, s1)) :
    ∃ between, between <:+ pre ∧ s1 = between ++ m :: after := by
  unfold loadHierarchy at h
  rcases hierarchyLoop_position stod m after hfirst pre _ b r1 s1 h with h1 | h1
  · exact ⟨pre, List.suffix_refl _, h1⟩
  · exact h1

/-- The loop of `loadFile`, reading lines none of which reads `MOTION` before a line whose
first token is `MOTION`, comes to that line, unless a `HIERARCHY` line among them leads
into an access that is not defined. -/
theorem loadFileLoop_reread (m : String) (after : List String)
    (hfirst : firstWord m = some "MOTION") (n : Nat) :
    ∀ (between : List String) (r : BVHReader D), between.length ≤ n →
      (∀ l ∈ between, trim l ≠ "MOTION") →
      loadFileLoop stod lineEnd (between ++ m :: after).length (between ++ m :: after) r =
        Except.error Fault.undefinedBehaviour ∨
      ∃ r2, loadFileLoop stod lineEnd (between ++ m :: after).length (between ++ m :: after) r =
        loadFileLoop stod lineEnd (after.length + 1) (m :: after) r2 := by
  induction n with
  | zero =>
    intro between r hlen _
    have : between = [] := List.length_eq_zero.mp (Nat.le_zero.mp hlen)
    subst this
    exact Or.inr ⟨r, rfl⟩
  | succ n ih =>
    intro between r hlen hbetween
    cases between with
    | nil => exact Or.inr ⟨r, rfl⟩
    | cons l ls =>
      have hls : ls.length ≤ n := by simpa using hlen
      have hrest : ∀ x ∈ ls, trim x ≠ "MOTION" :=
        fun x hx => hbetween x (List.mem_cons_of_mem _ hx)
      have hM : trim l ≠ "MOTION" := hbetween l (List.mem_cons_self _ _)
      rw [List.cons_append, List.length_cons]
      by_cases hH : trim l = "HIERARCHY"
      · cases hh : loadHierarchy stod r (ls ++ m :: after) with
        | error e =>
          left
          rw [loadFileLoop_hierarchy_undefined stod lineEnd _ l _ r e hH hh,
            hierarchyLoop_fault stod _ _ e hh]
        | ok res =>
          obtain ⟨b, r2, s2⟩ := res
          rw [loadFileLoop_hierarchy stod lineEnd _ l _ r r2 b s2 hH hh]
          obtain ⟨between, hsuf, hs⟩ := loadHierarchy_position stod m after hfirst ls r r2 b s2 hh
          have hlen2 : s2.length ≤ (ls ++ m :: after).length :=
            (loadHierarchy_keeps stod r r2 _ s2 b hh).2.length_le
          rw [loadFileLoop_fuel_eq stod lineEnd _ s2.length s2 r2 hlen2 (le_refl _), hs]
          exact ih between r2 (le_trans hsuf.length_le hls)
            (fun x hx => hrest x (hsuf.subset hx))
      · rw [loadFileLoop_other stod lineEnd _ l _ r (by unfold isMarker; tauto)]
        exact ih ls r hls hrest

/-- Claim C18 refuted as written: in Scenario 1 with the line `MOTION data` for the MOTION
line, the hierarchy parser stops on that line and leaves the stream at it, and the loop of
`loadFile` passes over it: the frame count and the motion table are as before the run,
though the motion parser, entered at the line after it, reads the frame count 1; in
Scenario 1 itself the row is read.  And after an unclosed root block with a `HIERARCHY`
line in it, the lines the loop of `loadFile` reads again lead into an access that is not
defined before the MOTION line is reached. -/
theorem motion_line_token_counterexample :
    firstWord "MOTION data" = some "MOTION" ∧
    (∃ r1, loadHierarchy decimalStod freshReader (motionLineWithToken.drop 1) =
        Except.ok (true, r1, motionLineWithToken.drop 6) ∧
      (loadMotion decimalStod true r1 (motionLineWithToken.drop 7)).2.1.frames = 1) ∧
    (∃ r2, loadFile decimalStod true (some motionLineWithToken) freshReader = Except.ok (true, r2) ∧
      r2.motion = [] ∧ r2.frames = 0) ∧
    (∃ r2, loadFile decimalStod true (some scenario1) freshReader = Except.ok (true, r2) ∧
      r2.motion = [[(10, 1), (20, 1), (30, 1)]] ∧ r2.frames = 1) ∧
    (∃ r1, loadHierarchy decimalStod freshReader (hierarchyLineBeforeMotion.drop 1) =
        Except.ok (true, r1, hierarchyLineBeforeMotion.drop 1)) ∧
    loadFile decimalStod true (some hierarchyLineBeforeMotion) freshReader =
      Except.error Fault.undefinedBehaviour :=
  ⟨rfl, ⟨_, rfl, rfl⟩, ⟨_, rfl, rfl, rfl⟩, ⟨_, rfl, rfl, rfl⟩, ⟨_, rfl⟩, rfl⟩

/-- Claim C18, amended: when the hierarchy parser, invoked at a `HIERARCHY` line, stops on
the first line whose first token is `MOTION`, it leaves the stream at its remembered
position, which is that line or a line before it and not before the line after the
`HIERARCHY` line; the loop of `loadFile` goes on from there and reads again the lines from
the remembered position on.  When none of them reads `HIERARCHY` it comes to the `MOTION`
line with the reader as the parser left it; in any case it comes to that line or ends in an
access that is not defined.  At that line, if the line reads `MOTION` after trimming, the
motion parser is invoked once, starts at the line that follows, and the loop goes on from
where the motion parser stopped, after that line; if the line has more on it than
`MOTION`, the motion parser is not invoked for it and the loop goes on with the line that
follows. -/
theorem motion_line_dispatch (r r1 : BVHReader D) (hLine m : String)
    (pre after s1 : List String)
    (hH : trim hLine = "HIERARCHY")
    (hfirst : firstWord m = some "MOTION")
    (hpre : ∀ l ∈ pre, firstWord l ≠ some "MOTION")
    (hstop : loadHierarchy stod r (pre ++ m :: after) = Except.ok (true, r1, s1)) :
    ∃ between, between <:+ pre ∧ s1 = between ++ m :: after ∧
      loadFileLoop stod lineEnd ((pre ++ m :: after).length + 1) (hLine :: (pre ++ m :: after)) r =
        loadFileLoop stod lineEnd s1.length s1 r1 ∧
      ((∀ l ∈ between, trim l ≠ "HIERARCHY") →
        loadFileLoop stod lineEnd s1.length s1 r1 =
          loadFileLoop stod lineEnd (after.length + 1) (m :: after) r1) ∧
      (loadFileLoop stod lineEnd s1.length s1 r1 = Except.error Fault.undefinedBehaviour ∨
        ∃ r2, loadFileLoop stod lineEnd s1.length s1 r1 =
          loadFileLoop stod lineEnd (after.length + 1) (m :: after) r2) ∧
      ∀ (r2 : BVHReader D),
        (trim m = "MOTION" →
          ∃ (b : Bool) (r3 : BVHReader D) (s3 : List String),
            loadMotion stod lineEnd r2 after = (b, r3, s3) ∧ s3 <:+ after ∧
            loadFileLoop stod lineEnd (after.length + 1) (m :: after) r2 =
              loadFileLoop stod lineEnd s3.length s3
                (if b then r3 else { r3 with cout := r3.cout ++ [motionFailureMessage] })) ∧
        (trim m ≠ "MOTION" →
          loadFileLoop stod lineEnd (after.length + 1) (m :: after) r2 =
            loadFileLoop stod lineEnd after.length after r2) := by
  obtain ⟨between, hsuf, hs⟩ := loadHierarchy_position stod m after hfirst pre r r1 true s1 hstop
  have hnoMotion : ∀ l ∈ between, trim l ≠ "MOTION" := by
    intro l hl hl2
    exact hpre l (hsuf.subset hl) (firstWord_of_trim l "MOTION" hl2 (by rfl))
  have hlen : s1.length ≤ (pre ++ m :: after).length :=
    (loadHierarchy_keeps stod r r1 _ s1 true hstop).2.length_le
  refine ⟨between, hsuf, hs, ?_, ?_, ?_, ?_⟩
  · rw [loadFileLoop_hierarchy stod lineEnd _ hLine _ r r1 true s1 hH hstop]
    exact loadFileLoop_fuel_eq stod lineEnd _ s1.length s1 r1 hlen (le_refl _)
  · intro hnoH
    rw [hs, List.length_append, List.length_cons]
    exact loadFileLoop_skip_run stod lineEnd between (after.length + 1) (m :: after) r1
      (fun l hl hmark => by
        unfold isMarker at hmark
        rcases hmark with h | h
        · exact hnoH l hl h
        · exact hnoMotion l hl h)
  · rw [hs]
    exact loadFileLoop_reread stod lineEnd m after hfirst between.length between r1 (le_refl _)
      hnoMotion
  · intro r2
    constructor
    · intro hM
      rcases hres : loadMotion stod lineEnd r2 after with ⟨b, r3, s3⟩
      have hsuf3 := loadMotion_suffix stod lineEnd r2 r3 after s3 b hres
      refine ⟨b, r3, s3, rfl, hsuf3, ?_⟩
      rw [loadFileLoop_motion stod lineEnd _ m after r2 r3 b s3 hM hres]
      exact loadFileLoop_fuel_eq stod lineEnd _ s3.length s3 _ hsuf3.length_le (le_refl _)
    · intro hM
      have hnotH : trim m ≠ "HIERARCHY" := by
        intro h
        have := firstWord_of_trim m "HIERARCHY" h (by rfl)
        rw [hfirst] at this
        exact absurd this (by decide)
      exact loadFileLoop_other stod lineEnd _ m after r2 (by unfold isMarker; tauto)

/-- The amended claim C18 on Scenario 1: the hierarchy parser leaves the stream at the
MOTION line, where the loop of `loadFile` goes on with the reader as the parser left it. -/
theorem motion_line_dispatch_witness :
    trim "HIERARCHY" = "HIERARCHY" ∧ firstWord "MOTION" = some "MOTION" ∧
    (∀ l ∈ scenario1Block, firstWord l ≠ some "MOTION") ∧
    ∃ (r1 : BVHReader (Nat × Nat)) (s1 : List String),
      loadHierarchy decimalStod freshReader (scenario1Block ++ "MOTION" :: scenario1Motion) =
        Except.ok (true, r1, s1) ∧
      ∃ between, between <:+ scenario1Block ∧
        s1 = between ++ "MOTION" :: scenario1Motion :=
  ⟨rfl, rfl, by decide, _, _, rfl,
    (motion_line_dispatch decimalStod true freshReader _ "HIERARCHY" "MOTION" scenario1Block
      scenario1Motion _ rfl rfl (by decide) rfl).imp (fun _ h => ⟨h.1, h.2.1⟩)⟩

end MotionLine

end BVH
